import Mathlib

/-! netsniff-ng: capture-file back end, loops and mode dispatcher.

A shallow embedding of `pcap_sg.c` (scatter/gather capture-file I/O) and of the
loops and the dispatcher of `netsniff-ng.c`, with the properties the
specification states about them.

Conventions of the embedding.

* A byte is a `Fin 256`; a memory object is the list of its bytes.
* A file descriptor opened for reading is the list of bytes not yet consumed;
  one opened for writing is the list of bytes written so far.
* `readv` and `writev` are the ideal calls: `readv` delivers as many bytes as the
  stream still holds, up to the capacity of the vector, and `writev` writes every
  byte it is handed.
* `size_t` is 64 bits wide; its subtraction wraps.
-/

namespace Netsniff

/-! ## Bytes and memory -/

abbrev uint8_t := Fin 256

/-- The copy `fmemcpy(dst + off, src, |src|)` into the object `dst`: the bytes
that fall inside the object are replaced, the ones that would land behind its
end are not part of the object and are left out. -/
def fmemcpy (dst : List uint8_t) (off : Nat) (src : List uint8_t) : List uint8_t :=
  dst.take off ++ src.take (dst.length - off) ++ dst.drop (off + src.length)

/-- Subtraction of two `size_t` values (64 bit, wrapping). -/
def size_sub (a b : Nat) : Nat := (a + 2 ^ 64 - b % 2 ^ 64) % 2 ^ 64

/-! ## What `pcap.h` and `built_in.h` provide -/

/-- The record flavours of `enum pcap_type` that `pcap_sg.c` switches over. -/
inductive pcap_type where
  | DEFAULT
  | NSEC
  | KUZNETZOV
  | BORKMANN
  deriving DecidableEq, Repr

/-- The access mode of `enum pcap_mode`. -/
inductive pcap_mode where
  | PCAP_MODE_RD
  | PCAP_MODE_WR
  deriving DecidableEq, Repr

/-- Modelled from the spec: the declarations of `pcap.h` and `built_in.h` that
the code uses and that are not part of the sources at hand. `hdr_size t` is
the size of the member of `pcap_pkthdr_t` for flavour `t`, which is both
`sizeof(phdr->member)` and the value of `pcap_get_hdr_length` (the spec's
`hdr_size(magic)`); `pcap_get_length` decodes the captured length of a header and
`pcap_set_length` stores one; `PAGE_SIZE` is the page size. -/
structure pcap_h where
  hdr_size : pcap_type → Nat
  pcap_get_length : List uint8_t → pcap_type → Nat
  pcap_set_length : List uint8_t → pcap_type → Nat → List uint8_t
  PAGE_SIZE : Nat

def EIO : Int := 5

def EINVAL : Int := 22

/-! ## The scatter/gather pool (`pcap_sg.c`) -/

/-- One `struct iovec`: the buffer behind `iov_base` and the length field. -/
structure iovec where
  iov_base : List uint8_t
  iov_len : Nat
  deriving DecidableEq, Repr

instance : Inhabited iovec := ⟨⟨[], 0⟩⟩

/-- The value of `array_size(iov)` for `static struct iovec iov[1024]`. -/
def array_size_iov : Nat := 1024

/-- The file-scope variables of `pcap_sg.c`. -/
structure sg_state where
  iov : List iovec
  iov_off_rd : Nat
  iov_slot : Nat
  deriving DecidableEq, Repr

/-- The element `iov[i]`. -/
def sg_state.iov_at (s : sg_state) (i : Nat) : iovec := s.iov.getD i default

/-- The `n` bytes at `v.iov_base + off`. -/
def iovec.bytes (v : iovec) (off n : Nat) : List uint8_t := (v.iov_base.drop off).take n

/-- What `readv` stores into the buffers of a vector, front to back. -/
def readv_fill : List iovec → List uint8_t → List iovec
  | [], _ => []
  | v :: vs, data =>
    { v with iov_base := data.take v.iov_len ++ v.iov_base.drop (data.take v.iov_len).length } ::
      readv_fill vs (data.drop v.iov_len)

/-- The sum of the length fields of a vector. -/
def iov_total : List iovec → Nat
  | [] => 0
  | v :: vs => v.iov_len + iov_total vs

/-- The call `readv(fd, iov, cnt)`: the return value, the stream left, the vector. -/
def readv (fd : List uint8_t) (iov : List iovec) (cnt : Nat) : Int × List uint8_t × List iovec :=
  let n := min fd.length (iov_total (iov.take cnt))
  ((n : Int), fd.drop n, readv_fill (iov.take cnt) fd ++ iov.drop cnt)

/-- The bytes `writev` gathers from a vector, front to back. -/
def writev_gather : List iovec → List uint8_t
  | [] => []
  | v :: vs => v.iov_base.take v.iov_len ++ writev_gather vs

/-- The call `writev(fd, iov, cnt)`: the file after the call. -/
def writev (fd : List uint8_t) (iov : List iovec) (cnt : Nat) : List uint8_t :=
  fd ++ writev_gather (iov.take cnt)

/-- The result of a write-side call: return value, file written so far, pool. -/
structure wr_out where
  ret : Int
  fd : List uint8_t
  s : sg_state
  deriving DecidableEq, Repr

/-- The function `pcap_sg_write`. -/
def pcap_sg_write (h : pcap_h) (fd : List uint8_t) (s : sg_state) (phdr : List uint8_t)
    (type : pcap_type) (packet : List uint8_t) (len : Nat) : wr_out :=
  let fd1 := if s.iov_slot = array_size_iov then writev fd s.iov array_size_iov else fd
  let slot := if s.iov_slot = array_size_iov then 0 else s.iov_slot
  let v := s.iov.getD slot default
  let base1 := fmemcpy v.iov_base 0 (phdr.take (h.hdr_size type))
  let len1 := 0 + h.hdr_size type
  let base2 := fmemcpy base1 len1 (packet.take len)
  let len2 := len1 + len
  { ret := (len2 : Int), fd := fd1,
    s := { iov := s.iov.set slot { iov_base := base2, iov_len := len2 },
           iov_off_rd := s.iov_off_rd, iov_slot := slot + 1 } }

/-- The function `pcap_sg_fsync`. -/
def pcap_sg_fsync (fd : List uint8_t) (s : sg_state) : List uint8_t × sg_state :=
  (writev fd s.iov s.iov_slot, { s with iov_slot := 0 })

/-- The result of a read-side call: return value, stream left, pool, and the two
objects of the caller the call writes to. -/
structure rd_out where
  ret : Int
  fd : List uint8_t
  s : sg_state
  phdr : List uint8_t
  packet : List uint8_t
  deriving DecidableEq, Repr

/-- The function `__pcap_sg_inter_iov_hdr_read`; `none` is a fired `bug_on`. The
second copy goes to `&phdr->member + offset`, an address computed in units of
the member, which is `offset * sizeof(member)` bytes behind the header start. -/
def __pcap_sg_inter_iov_hdr_read (h : pcap_h) (fd : List uint8_t) (s : sg_state)
    (phdr : List uint8_t) (type : pcap_type) (packet : List uint8_t) (hdrsize : Nat) :
    Option rd_out :=
  let offset := size_sub (s.iov_at s.iov_slot).iov_len s.iov_off_rd
  let remainder : Int := if (hdrsize : Int) - offset < 0 then 0 else (hdrsize : Int) - offset
  if (offset : Int) + remainder ≠ hdrsize then none
  else
    let phdr1 := fmemcpy phdr 0 ((s.iov_at s.iov_slot).bytes s.iov_off_rd offset)
    let slot1 := s.iov_slot + 1
    let wrap := decide (slot1 = array_size_iov)
    let rv := readv fd s.iov array_size_iov
    let fd2 := if wrap then rv.2.1 else fd
    let iov2 := if wrap then rv.2.2 else s.iov
    let slot2 := if wrap then 0 else slot1
    if wrap && decide (rv.1 ≤ 0) then
      some { ret := - EIO, fd := fd2, s := { iov := iov2, iov_off_rd := 0, iov_slot := slot2 },
             phdr := phdr1, packet := packet }
    else
      let phdr2 := fmemcpy phdr1 (offset * h.hdr_size type)
        ((iov2.getD slot2 default).bytes 0 remainder.toNat)
      some { ret := (hdrsize : Int), fd := fd2,
             s := { iov := iov2, iov_off_rd := 0 + remainder.toNat, iov_slot := slot2 },
             phdr := phdr2, packet := packet }

/-- The function `__pcap_sg_inter_iov_data_read`; `none` is a fired `bug_on`. -/
def __pcap_sg_inter_iov_data_read (fd : List uint8_t) (s : sg_state) (phdr : List uint8_t)
    (packet : List uint8_t) (hdrlen : Nat) : Option rd_out :=
  let offset := size_sub (s.iov_at s.iov_slot).iov_len s.iov_off_rd
  let remainder : Int := if (hdrlen : Int) - offset < 0 then 0 else (hdrlen : Int) - offset
  if (offset : Int) + remainder ≠ hdrlen then none
  else
    let packet1 := fmemcpy packet 0 ((s.iov_at s.iov_slot).bytes s.iov_off_rd offset)
    let slot1 := s.iov_slot + 1
    let wrap := decide (slot1 = array_size_iov)
    let rv := readv fd s.iov array_size_iov
    let fd2 := if wrap then rv.2.1 else fd
    let iov2 := if wrap then rv.2.2 else s.iov
    let slot2 := if wrap then 0 else slot1
    if wrap && decide (rv.1 ≤ 0) then
      some { ret := - EIO, fd := fd2, s := { iov := iov2, iov_off_rd := 0, iov_slot := slot2 },
             phdr := phdr, packet := packet1 }
    else
      let packet2 := fmemcpy packet1 offset ((iov2.getD slot2 default).bytes 0 remainder.toNat)
      some { ret := (hdrlen : Int), fd := fd2,
             s := { iov := iov2, iov_off_rd := 0 + remainder.toNat, iov_slot := slot2 },
             phdr := phdr, packet := packet2 }

/-- The first half of `pcap_sg_read`: fetching the record header. -/
def pcap_sg_read_hdr (h : pcap_h) (fd : List uint8_t) (s : sg_state) (phdr : List uint8_t)
    (type : pcap_type) (packet : List uint8_t) : Option rd_out :=
  let hdrsize := h.hdr_size type
  if size_sub (s.iov_at s.iov_slot).iov_len s.iov_off_rd ≥ hdrsize then
    some { ret := 0, fd := fd, s := { s with iov_off_rd := s.iov_off_rd + hdrsize },
           phdr := fmemcpy phdr 0 ((s.iov_at s.iov_slot).bytes s.iov_off_rd hdrsize),
           packet := packet }
  else
    __pcap_sg_inter_iov_hdr_read h fd s phdr type packet hdrsize

/-- The second half of `pcap_sg_read`, entered with the header in `phdr`: the
length check and the fetch of the payload. -/
def pcap_sg_read_data (h : pcap_h) (fd : List uint8_t) (s : sg_state) (phdr : List uint8_t)
    (type : pcap_type) (packet : List uint8_t) (len : Nat) : Option rd_out :=
  let hdrsize := h.hdr_size type
  let hdrlen := h.pcap_get_length phdr type
  if hdrlen = 0 ∨ hdrlen > len then
    some { ret := - EINVAL, fd := fd, s := s, phdr := phdr, packet := packet }
  else if size_sub (s.iov_at s.iov_slot).iov_len s.iov_off_rd ≥ hdrlen then
    some { ret := (hdrsize : Int) + hdrlen, fd := fd,
           s := { s with iov_off_rd := s.iov_off_rd + hdrlen }, phdr := phdr,
           packet := fmemcpy packet 0 ((s.iov_at s.iov_slot).bytes s.iov_off_rd hdrlen) }
  else
    match __pcap_sg_inter_iov_data_read fd s phdr packet hdrlen with
    | none => none
    | some r => if r.ret < 0 then some r else some { r with ret := (hdrsize : Int) + hdrlen }

/-- The function `pcap_sg_read`; `none` is a fired `bug_on`. -/
def pcap_sg_read (h : pcap_h) (fd : List uint8_t) (s : sg_state) (phdr : List uint8_t)
    (type : pcap_type) (packet : List uint8_t) (len : Nat) : Option rd_out :=
  match pcap_sg_read_hdr h fd s phdr type packet with
  | none => none
  | some r =>
    if r.ret < 0 then some r
    else pcap_sg_read_data h r.fd r.s r.phdr type r.packet len

/-- The function `pcap_sg_prepare_access`: return value, stream left, pool. -/
def pcap_sg_prepare_access (h : pcap_h) (fd : List uint8_t) (s : sg_state) (mode : pcap_mode)
    (jumbo : Bool) : Int × List uint8_t × sg_state :=
  let len := if jumbo then h.PAGE_SIZE * 16 else h.PAGE_SIZE * 3
  let iov0 := List.replicate array_size_iov ({ iov_base := List.replicate len 0, iov_len := len } : iovec)
  if mode = pcap_mode.PCAP_MODE_RD then
    let rv := readv fd iov0 array_size_iov
    if rv.1 ≤ 0 then (- EIO, rv.2.1, { iov := rv.2.2, iov_off_rd := s.iov_off_rd, iov_slot := 0 })
    else (0, rv.2.1, { iov := rv.2.2, iov_off_rd := 0, iov_slot := 0 })
  else (0, fd, { iov := iov0, iov_off_rd := s.iov_off_rd, iov_slot := 0 })

/-- A record handed to the writer: the header object and the payload. -/
structure record where
  phdr : List uint8_t
  packet : List uint8_t
  deriving DecidableEq, Repr

/-- The calls `pcap_sg_write` for a sequence of records, one after the other, each
with the length of its payload as `len`. -/
def sg_write_all (h : pcap_h) (type : pcap_type) :
    List record → List uint8_t → sg_state → List uint8_t × sg_state
  | [], fd, s => (fd, s)
  | r :: rs, fd, s =>
    sg_write_all h type rs (pcap_sg_write h fd s r.phdr type r.packet r.packet.length).fd
      (pcap_sg_write h fd s r.phdr type r.packet r.packet.length).s

/-- The file after `pcap_sg_prepare_access` in write mode, the writes of the
records and the final `pcap_sg_fsync`. -/
def sg_dump (h : pcap_h) (type : pcap_type) (jumbo : Bool) (fd : List uint8_t) (s : sg_state)
    (recs : List record) : List uint8_t :=
  (pcap_sg_fsync
    (sg_write_all h type recs (pcap_sg_prepare_access h fd s pcap_mode.PCAP_MODE_WR jumbo).2.1
      (pcap_sg_prepare_access h fd s pcap_mode.PCAP_MODE_WR jumbo).2.2).1
    (sg_write_all h type recs (pcap_sg_prepare_access h fd s pcap_mode.PCAP_MODE_WR jumbo).2.1
      (pcap_sg_prepare_access h fd s pcap_mode.PCAP_MODE_WR jumbo).2.2).2).1

/-- The linear, unpadded image of a sequence of records: each header (the member
of the flavour) followed by its payload. -/
def linear_stream (h : pcap_h) (type : pcap_type) : List record → List uint8_t
  | [] => []
  | r :: rs => r.phdr.take (h.hdr_size type) ++ r.packet ++ linear_stream h type rs

/-- The length of a pool buffer that `pcap_sg_prepare_access` allocates. -/
def sg_buf_len (h : pcap_h) (jumbo : Bool) : Nat :=
  if jumbo then h.PAGE_SIZE * 16 else h.PAGE_SIZE * 3

/-- The pool invariant of the writer: 1024 buffers of `L` bytes and a slot index
inside the pool or just behind it. -/
def sg_wr_inv (L : Nat) (s : sg_state) : Prop :=
  s.iov.length = array_size_iov ∧ (∀ v ∈ s.iov, v.iov_base.length = L) ∧
    s.iov_slot ≤ array_size_iov


/-- Modelled from the spec: the decoding of a 32-bit field of a record header on
a little-endian host. -/
def le32 (bs : List uint8_t) : Nat :=
  (bs.getD 0 0).val + 256 * (bs.getD 1 0).val + 65536 * (bs.getD 2 0).val +
    16777216 * (bs.getD 3 0).val

/-- Modelled from the spec: a concrete `pcap.h`, with records that start with
(seconds, sub-second, captured length, original length), each 32 bits wide, the two
extended flavours carrying 8 and 16 further bytes, and pages of 4096 bytes. -/
def pcap_h_host : pcap_h where
  hdr_size := fun t =>
    match t with
    | pcap_type.DEFAULT => 16
    | pcap_type.NSEC => 16
    | pcap_type.KUZNETZOV => 24
    | pcap_type.BORKMANN => 32
  pcap_get_length := fun p _ => le32 (p.drop 8)
  pcap_set_length := fun p _ n =>
    fmemcpy p 8 [Fin.ofNat (n % 256), Fin.ofNat (n / 256 % 256), Fin.ofNat (n / 65536 % 256),
      Fin.ofNat (n / 16777216 % 256)]
  PAGE_SIZE := 4096

/-- A record header of the default flavour with captured and original length 16. -/
def sample_hdr : List uint8_t := [0, 0, 0, 0, 0, 0, 0, 0, 16, 0, 0, 0, 16, 0, 0, 0]

/-- A pool buffer of 12288 bytes: eight bytes 3, zeros, the header `sample_hdr`
at offset 12264 and eight bytes 1 at offset 12280. -/
def sample_buf : List uint8_t :=
  [3, 3, 3, 3, 3, 3, 3, 3] ++ List.replicate 12256 0 ++ sample_hdr ++ [1, 1, 1, 1, 1, 1, 1, 1]

/-- A pool in read mode as `pcap_sg_prepare_access` lays it out without the jumbo
flag, 1024 buffers of 12288 bytes, each holding `sample_buf`, with the cursor at
offset `off` of buffer `slot`. -/
def sample_pool (slot off : Nat) : sg_state :=
  { iov := List.replicate 1024 { iov_base := sample_buf, iov_len := 12288 },
    iov_off_rd := off, iov_slot := slot }

/-- The condition under which the payload fetch of `pcap_sg_read` fails: the payload
does not fit the rest of the current buffer, that buffer is the last one of the pool
and the refilling `readv` returns no byte. -/
def sg_refill_fails (fd : List uint8_t) (s : sg_state) (c : Nat) : Prop :=
  size_sub (s.iov_at s.iov_slot).iov_len s.iov_off_rd < c ∧
    s.iov_slot + 1 = array_size_iov ∧ (readv fd s.iov array_size_iov).1 ≤ 0

/-- The header of the first record of the round-trip sample: captured length 12264. -/
def rt_hdr1 : List uint8_t := [7, 0, 0, 0, 0, 0, 0, 0, 232, 47, 0, 0, 232, 47, 0, 0]

/-- The header of the second record of the round-trip sample: captured length 1. -/
def rt_hdr2 : List uint8_t := [8, 0, 0, 0, 0, 0, 0, 0, 1, 0, 0, 0, 1, 0, 0, 0]

/-- Two records of the default flavour: one with 12264 payload bytes, which with
its 16-byte header ends eight bytes before the end of a 12288-byte pool buffer, and
one with a single payload byte. -/
def rt_records : List record :=
  [{ phdr := rt_hdr1, packet := List.replicate 12264 9 }, { phdr := rt_hdr2, packet := [5] }]

/-- The file the writer produces for `rt_records`. -/
def rt_stream : List uint8_t :=
  sg_dump pcap_h_host pcap_type.DEFAULT false [] { iov := [], iov_off_rd := 0, iov_slot := 0 }
    rt_records

/-- The pool after `pcap_sg_prepare_access` in read mode on `rt_stream`. -/
def rt_pool : Int × List uint8_t × sg_state :=
  pcap_sg_prepare_access pcap_h_host rt_stream { iov := [], iov_off_rd := 0, iov_slot := 0 }
    pcap_mode.PCAP_MODE_RD false

/-- A zeroed pool buffer of 12288 bytes, as `pcap_sg_prepare_access` allocates it
without the jumbo flag. -/
def rt_zero_buf : iovec := { iov_base := List.replicate 12288 0, iov_len := 12288 }

/-- Buffer 0 of the read pool of the round-trip sample: the first 12288 bytes of the
stream. -/
def rt_buf0 : iovec :=
  { iov_base := rt_stream.take 12288 ++ (List.replicate 12288 0).drop (rt_stream.take 12288).length,
    iov_len := 12288 }

/-- The read pool of the round-trip sample with the cursor at offset `off` of buffer
`slot`. -/
def rt_state (off slot : Nat) : sg_state :=
  { iov := readv_fill (List.replicate array_size_iov rt_zero_buf) rt_stream ++ [],
    iov_off_rd := off, iov_slot := slot }

/-! ## The trafgen text writer (`netsniff-ng.c`) -/

/-- One lowercase hexadecimal digit, as `%x` prints it. -/
def hex_digit (n : Nat) : Char :=
  if n < 10 then Char.ofNat (48 + n) else Char.ofNat (87 + n)

/-- The text of `slprintf(bout, sizeof(bout), "0x%02x, ", b)` for a byte `b`. -/
def fmt_0x02x (b : uint8_t) : List Char :=
  ['0', 'x', hex_digit (b.val / 16), hex_digit (b.val % 16), ',', ' ']

/-- The `while (bytes_done < len)` loop of `translate_pcap_to_txf`, started at
`bytes_done` with the text written so far; the result is the text and
`bytes_done` at the exit of the loop. The first argument bounds the number of
iterations (`len` suffices). -/
def translate_loop (out : List uint8_t) (len : Nat) :
    Nat → Nat → List Char → List Char × Nat
  | 0, bytes_done, text => (text, bytes_done)
  | fuel + 1, bytes_done, text =>
    if bytes_done < len then
      let text1 := text ++ fmt_0x02x (out.getD bytes_done 0)
      let text2 :=
        if (bytes_done + 1) % 10 = 0 then
          (text1 ++ ['\n']) ++ (if bytes_done + 1 < len then [' ', ' '] else [])
        else text1
      translate_loop out len fuel (bytes_done + 1) text2
    else (text, bytes_done)

/-- The function `translate_pcap_to_txf`: the text written to `fdo`. -/
def translate_pcap_to_txf (out : List uint8_t) (len : Nat) : List Char :=
  let r := translate_loop out len len 0 ['\x7b', '\n', ' ', ' ']
  (if r.2 % 10 ≠ 0 then r.1 ++ ['\n'] else r.1) ++ ['\x7d', '\n', '\n']

/-- One data line of the text format, in the words of the specification: two
spaces, an item per byte, the end of the line. -/
def txf_line (bs : List uint8_t) : List Char :=
  [' ', ' '] ++ (bs.map fmt_0x02x).flatten ++ ['\n']

/-- The data lines of a payload: line `i` carries the bytes `10 i .. 10 i + 9`. -/
def txf_lines (b : List uint8_t) : Nat → List Char
  | 0 => []
  | k + 1 => txf_lines b k ++ txf_line ((b.drop (10 * k)).take 10)

/-- The block of the text format for a payload, in the words of the
specification: an opening line, `⌈n / 10⌉` data lines, a closing line and an empty
line. -/
def txf_block (b : List uint8_t) : List Char :=
  ['\x7b', '\n'] ++ txf_lines b ((b.length + 9) / 10) ++ ['\x7d', '\n', '\n']

/-! ## The run context, the mode dispatcher and the endpoints (`netsniff-ng.c`) -/

/-- The capture-file back ends of `enum pcap_ops_groups`. -/
inductive pcap_ops_groups where
  | PCAP_OPS_RW
  | PCAP_OPS_SG
  | PCAP_OPS_MM
  deriving DecidableEq, Repr

/-- The test `strncmp(a, b, n) == 0` on C strings, a string being the characters
before its terminating NUL. -/
def strncmp_eq (a b : String) (n : Nat) : Bool :=
  a.toList.take n == b.toList.take n

/-- The fields of `struct ctx` that the dispatcher and the endpoint code use. -/
structure ctx where
  device_in : String
  device_out : Option String
  dump : Int
  pcap : pcap_ops_groups
  deriving DecidableEq, Repr

/-- The four loops `main_loop` can point to. -/
inductive loop_fn where
  | recv_only_or_dump
  | receive_to_xmit
  | pcap_to_xmit
  | read_pcap
  deriving DecidableEq, Repr

/-- The two handlers `main` registers for SIGALRM. -/
inductive alarm_fn where
  | timer_elapsed
  | timer_next_dump
  deriving DecidableEq, Repr

/-- The option cases `-c`, `-m`, `-G` of `main`: the back end and `ops_touched`. -/
def main_backend_flag (st : pcap_ops_groups × Bool) (c : Char) : pcap_ops_groups × Bool :=
  if c = 'c' then (pcap_ops_groups.PCAP_OPS_RW, true)
  else if c = 'm' then (pcap_ops_groups.PCAP_OPS_MM, true)
  else if c = 'G' then (pcap_ops_groups.PCAP_OPS_SG, true)
  else st

/-- The back end and `ops_touched` behind the option loop of `main`, which starts
from `.pcap = PCAP_OPS_SG` and `ops_touched = 0`. -/
def main_backend_flags (flags : List Char) : pcap_ops_groups × Bool :=
  flags.foldl main_backend_flag (pcap_ops_groups.PCAP_OPS_SG, false)

/-- What the dispatcher of `main` decides: the context, the loop, the handler
registered for SIGALRM. -/
structure dispatch_out where
  ctx : ctx
  main_loop : loop_fn
  sigalrm : Option alarm_fn
  deriving DecidableEq, Repr

/-- The dispatcher of `main` (from the default for `device_in` to the choice of
`main_loop`); `device_mtu` is the helper of `xutils.h`, non-zero for a live
interface; `dump` is the value the context holds before. -/
def main_dispatch (device_mtu : String → Int) (ops_touched : Bool) (device_in : Option String)
    (device_out : Option String) (dump : Int) (pcap : pcap_ops_groups) : dispatch_out :=
  let din := device_in.getD "any"
  let c : ctx := { device_in := din, device_out := device_out, dump := dump, pcap := pcap }
  if device_mtu din ≠ 0 ∨ strncmp_eq "any" din din.length = true then
    match device_out with
    | none =>
      { ctx := { c with dump := 0 }, main_loop := loop_fn.recv_only_or_dump, sigalrm := none }
    | some dout =>
      if device_mtu dout ≠ 0 then
        { ctx := c, main_loop := loop_fn.receive_to_xmit, sigalrm := some alarm_fn.timer_elapsed }
      else
        { ctx := { c with dump := 1,
                          pcap := if ops_touched then pcap else pcap_ops_groups.PCAP_OPS_SG },
          main_loop := loop_fn.recv_only_or_dump, sigalrm := some alarm_fn.timer_next_dump }
  else
    match device_out with
    | some dout =>
      if device_mtu dout ≠ 0 then
        { ctx := { c with pcap := if ops_touched then pcap else pcap_ops_groups.PCAP_OPS_MM },
          main_loop := loop_fn.pcap_to_xmit, sigalrm := some alarm_fn.timer_elapsed }
      else
        { ctx := { c with pcap := if ops_touched then pcap else pcap_ops_groups.PCAP_OPS_SG },
          main_loop := loop_fn.read_pcap, sigalrm := none }
    | none =>
      { ctx := { c with pcap := if ops_touched then pcap else pcap_ops_groups.PCAP_OPS_SG },
        main_loop := loop_fn.read_pcap, sigalrm := none }

/-- The input classification in the words of the specification: a live interface
or the pseudo-device `any` (the default when no input is given). -/
def in_iface (device_mtu : String → Int) (device_in : Option String) : Prop :=
  device_mtu (device_in.getD "any") ≠ 0 ∨ device_in.getD "any" = "any"

/-- The output classification in the words of the specification: an output is
given and is a live interface. -/
def out_iface (device_mtu : String → Int) (device_out : Option String) : Prop :=
  ∃ dout, device_out = some dout ∧ device_mtu dout ≠ 0

/-- Where a capture-file descriptor comes from. -/
inductive fd_source where
  | dup_stdin
  | dup_stdout
  | opened (path : String)
  deriving DecidableEq, Repr

/-- The entries of `struct pcap_file_ops` that the loops call through `__pcap_io`. -/
inductive pcap_file_op where
  | pull_fhdr_pcap
  | push_fhdr_pcap
  | prepare_access_pcap
  | prepare_close_pcap
  | read_pcap
  | write_pcap
  | fsync_pcap
  deriving DecidableEq, Repr

/-- The helpers `open_or_die` and `open_or_die_m`: they end the program when the
path cannot be opened; `can_open` is the file system. -/
def open_or_die (can_open : String → Bool) (path : String) : Except String fd_source :=
  if can_open path then Except.ok (fd_source.opened path) else Except.error "open"

/-- The opening of the input in `pcap_to_xmit` and in `read_pcap` (the same code in
both): the descriptor and the context. -/
def open_pcap_input (can_open : String → Bool) (c : ctx) : Except String (fd_source × ctx) :=
  if strncmp_eq "-" c.device_in "-".length = true then
    Except.ok (fd_source.dup_stdin,
      if c.pcap = pcap_ops_groups.PCAP_OPS_MM then { c with pcap := pcap_ops_groups.PCAP_OPS_SG }
      else c)
  else
    match open_or_die can_open c.device_in with
    | Except.ok fd => Except.ok (fd, c)
    | Except.error e => Except.error e

/-- The capture-file operations of `pcap_to_xmit` and of `read_pcap`, in call order,
each with the back end `__pcap_io` (that is `pcap_ops[ctx->pcap]`) selects at the
call, for a run whose loop calls `read_pcap` `reads` times. -/
def pcap_input_io (can_open : String → Bool) (c : ctx) (reads : Nat) :
    Except String (fd_source × ctx × List (pcap_file_op × pcap_ops_groups)) :=
  match open_pcap_input can_open c with
  | Except.error e => Except.error e
  | Except.ok (fd, c1) =>
    Except.ok (fd, c1,
      [(pcap_file_op.pull_fhdr_pcap, c1.pcap), (pcap_file_op.prepare_access_pcap, c1.pcap)] ++
        List.replicate reads (pcap_file_op.read_pcap, c1.pcap) ++
        [(pcap_file_op.prepare_close_pcap, c1.pcap)])

/-- The function `begin_single_pcap_file`: the descriptor, the context and the
capture-file operations it calls. -/
def begin_single_pcap_file (can_open : String → Bool) (c : ctx) :
    Except String (fd_source × ctx × List (pcap_file_op × pcap_ops_groups)) :=
  let dout := c.device_out.getD ""
  let opened : Except String (fd_source × ctx) :=
    if strncmp_eq "-" dout "-".length = true then
      Except.ok (fd_source.dup_stdout,
        if c.pcap = pcap_ops_groups.PCAP_OPS_MM then { c with pcap := pcap_ops_groups.PCAP_OPS_SG }
        else c)
    else
      match open_or_die can_open dout with
      | Except.ok fd => Except.ok (fd, c)
      | Except.error e => Except.error e
  match opened with
  | Except.error e => Except.error e
  | Except.ok (fd, c1) =>
    Except.ok (fd, c1,
      [(pcap_file_op.push_fhdr_pcap, c1.pcap), (pcap_file_op.prepare_access_pcap, c1.pcap)])

/-- The capture-file operations of `recv_only_or_dump` for a single output file:
`begin_single_pcap_file`, `writes` records, `finish_single_pcap_file`. -/
def dump_single_io (can_open : String → Bool) (c : ctx) (writes : Nat) :
    Except String (fd_source × ctx × List (pcap_file_op × pcap_ops_groups)) :=
  match begin_single_pcap_file can_open c with
  | Except.error e => Except.error e
  | Except.ok (fd, c1, ops) =>
    Except.ok (fd, c1,
      ops ++ List.replicate writes (pcap_file_op.write_pcap, c1.pcap) ++
        [(pcap_file_op.fsync_pcap, c1.pcap), (pcap_file_op.prepare_close_pcap, c1.pcap)])

/-! ## The bridge loop `receive_to_xmit` (`netsniff-ng.c`)

The kernel side of the rings and the signal handler are the environment of the
loop. The answers of `user_may_pull_from_rx` come as a script, one entry per call,
in call order: `some f` for a slot that is ready and holds the frame `f`, `none` for
a slot that is not. The answers of `user_may_pull_from_tx`, the delivery of SIGINT
and `next_rnd_slot` are functions of a clock that ticks with every look at the
environment. `poll` returns, and `poll_error_maybe_die` does not end the program. -/

/-- What the loops read of the header of a ready RX slot. -/
structure rx_frame where
  tp_len : Nat
  tp_snaplen : Nat
  sll_pkttype : Nat
  deriving DecidableEq, Repr

/-- The settings of the bridge: `ctx->packet_type`, `ctx->randomize`, the global
`frame_count_max` and `tp_frame_nr` of the two rings. -/
structure bridge_ctx where
  packet_type : Int
  randomize : Bool
  frame_count_max : Nat
  rx_frame_nr : Nat
  tx_frame_nr : Nat
  deriving DecidableEq, Repr

/-- The environment of the bridge. -/
structure bridge_env where
  tx_ready : Nat → Nat → Bool
  sigint_at : Nat → Bool
  next_rnd_slot : Nat → Nat → Nat

/-- What the bridge does to the rings. The flag of the three TX events is the
answer `user_may_pull_from_tx` gave for that slot the last time it was asked. -/
inductive bridge_event where
  | tx_clone (slot : Nat) (ready : Bool) (f : rx_frame)
  | tx_copy (slot : Nat) (ready : Bool) (len : Nat)
  | tx_publish (slot : Nat) (ready : Bool)
  | rx_release (slot : Nat)
  | poll
  deriving DecidableEq, Repr

/-- The variables of `receive_to_xmit`, the stop flag `sigint`, the clock and the
events so far. -/
structure bridge_state where
  sigint : Bool
  frame_count : Nat
  it_in : Nat
  it_out : Nat
  clock : Nat
  events : List bridge_event
  deriving DecidableEq, Repr

/-- The increment of a ring cursor: `it++; if (it >= frame_nr) it = 0;`. -/
def ring_next (it frame_nr : Nat) : Nat :=
  if it + 1 ≥ frame_nr then 0 else it + 1

/-- The step to the next TX slot, random or sequential. -/
def tx_next (env : bridge_env) (c : bridge_ctx) (st : bridge_state) : Nat :=
  if c.randomize then env.next_rnd_slot st.clock st.it_out else ring_next st.it_out c.tx_frame_nr

/-- The `for` loop that looks for a TX slot: it ends when the slot at `it_out` is
ready or when the stop flag is set; the result is the state and the last answer of
`user_may_pull_from_tx`. `none`: the bound on the iterations is used up. -/
def tx_spin (env : bridge_env) (c : bridge_ctx) : Nat → bridge_state → Option (bridge_state × Bool)
  | 0, _ => none
  | fuel + 1, st =>
    if env.tx_ready st.clock st.it_out then
      some ({ st with clock := st.clock + 1 }, true)
    else if st.sigint || env.sigint_at st.clock then
      some ({ st with clock := st.clock + 1, sigint := true }, false)
    else
      tx_spin env c fuel { st with clock := st.clock + 1, it_out := tx_next env c st }

/-- How the body of the inner `while` loop is left. -/
inductive body_exit where
  | next_slot
  | break_inner
  | goto_out
  deriving DecidableEq, Repr

/-- The code behind the label `next`: release of the RX slot, advance of the
cursor, test of the stop flag. -/
def bridge_next (env : bridge_env) (c : bridge_ctx) (st : bridge_state) :
    bridge_state × body_exit :=
  let st1 := { st with events := st.events ++ [bridge_event.rx_release st.it_in],
                       it_in := ring_next st.it_in c.rx_frame_nr }
  if st1.sigint || env.sigint_at st1.clock then
    ({ st1 with sigint := true, clock := st1.clock + 1 }, body_exit.goto_out)
  else ({ st1 with clock := st1.clock + 1 }, body_exit.next_slot)

/-- The body of the inner `while` loop for a ready RX slot that holds `f`. -/
def bridge_frame (env : bridge_env) (c : bridge_ctx) (spin_fuel : Nat) (f : rx_frame)
    (st : bridge_state) : Option (bridge_state × body_exit) :=
  let st1 := { st with frame_count := st.frame_count + 1 }
  if c.packet_type ≠ -1 ∧ c.packet_type ≠ (f.sll_pkttype : Int) then
    some (bridge_next env c st1)
  else
    match tx_spin env c spin_fuel st1 with
    | none => none
    | some (st2, ready) =>
      let st3 := { st2 with
        events := st2.events ++
          [bridge_event.tx_clone st2.it_out ready f, bridge_event.tx_copy st2.it_out ready f.tp_len,
           bridge_event.tx_publish st2.it_out ready],
        it_out := tx_next env c st2 }
      if c.frame_count_max ≠ 0 ∧ st3.frame_count ≥ c.frame_count_max then
        some ({ st3 with sigint := true }, body_exit.break_inner)
      else some (bridge_next env c st3)

/-- The two nested loops of `receive_to_xmit`, entered at the test of the inner
`while` with the answers of `user_may_pull_from_rx` still to come. The flag of the
result says whether the loops were left (`true`) or the script ended first. -/
def receive_to_xmit_inner (env : bridge_env) (c : bridge_ctx) (spin_fuel : Nat) :
    List (Option rx_frame) → bridge_state → Option (bridge_state × Bool)
  | [], st => some (st, false)
  | none :: rx, st =>
    let st1 := { st with events := st.events ++ [bridge_event.poll], clock := st.clock + 1 }
    if st1.sigint || env.sigint_at st1.clock then some ({ st1 with sigint := true }, true)
    else receive_to_xmit_inner env c spin_fuel rx st1
  | some f :: rx, st =>
    match bridge_frame env c spin_fuel f st with
    | none => none
    | some (st1, body_exit.next_slot) => receive_to_xmit_inner env c spin_fuel rx st1
    | some (st1, body_exit.break_inner) =>
      some ({ st1 with events := st1.events ++ [bridge_event.poll] }, true)
    | some (st1, body_exit.goto_out) => some (st1, true)

/-- The loops of `receive_to_xmit` from the first test of the stop flag on, with the
variables as the function initialises them. -/
def receive_to_xmit_loop (env : bridge_env) (c : bridge_ctx) (spin_fuel : Nat)
    (rx : List (Option rx_frame)) : Option (bridge_state × Bool) :=
  if env.sigint_at 0 then
    some ({ sigint := true, frame_count := 0, it_in := 0, it_out := 0, clock := 1, events := [] },
      true)
  else
    receive_to_xmit_inner env c spin_fuel rx
      { sigint := false, frame_count := 0, it_in := 0, it_out := 0, clock := 1, events := [] }

/-- The number of TX slots handed to the kernel. -/
def tx_published : List bridge_event → Nat
  | [] => 0
  | bridge_event.tx_publish _ _ :: es => tx_published es + 1
  | _ :: es => tx_published es

/-- The number of payload copies into TX slots. -/
def tx_copied : List bridge_event → Nat
  | [] => 0
  | bridge_event.tx_copy _ _ _ :: es => tx_copied es + 1
  | _ :: es => tx_copied es

/-- The number of ready slots in a script of RX answers. -/
def rx_ready_count : List (Option rx_frame) → Nat
  | [] => 0
  | none :: rx => rx_ready_count rx
  | some _ :: rx => rx_ready_count rx + 1

/-- An environment in which every TX slot is ready whenever it is asked for and no
SIGINT is delivered. -/
def env_tx_ready (rnd : Nat → Nat → Nat) : bridge_env :=
  { tx_ready := fun _ _ => true
    sigint_at := fun _ => false
    next_rnd_slot := rnd }

/-- Settings of the bridge without packet-type filter: cap `n`, rings of
`rx_nr` and `tx_nr` slots. -/
def bridge_ctx_cap (randomize : Bool) (n rx_nr tx_nr : Nat) : bridge_ctx :=
  { packet_type := -1
    randomize := randomize
    frame_count_max := n
    rx_frame_nr := rx_nr
    tx_frame_nr := tx_nr }

/-- An environment in which no TX slot is ever ready and SIGINT is delivered at
tick `t0` of the clock. -/
def env_tx_busy (t0 : Nat) : bridge_env :=
  { tx_ready := fun _ _ => false
    sigint_at := fun t => decide (t0 ≤ t)
    next_rnd_slot := fun _ s => s }

/-! ## The file-to-TX loop `pcap_to_xmit` (`netsniff-ng.c`)

The loop with the scatter/gather reader as `__pcap_io->read_pcap`. The TX ring and
the signal handler are the environment, as for the bridge. The payload area of a TX
slot is a buffer of `frame_size` bytes, handed to the reader zeroed; the loop keeps
of it the bytes the header announces. -/

/-- The settings of `pcap_to_xmit`: whether `ctx->filter` is set, the record flavour
of `ctx->magic`, the global `frame_count_max`, `tp_frame_nr` and the frame size of
the TX ring. -/
structure xmit_ctx where
  filter : Bool
  type : pcap_type
  frame_count_max : Nat
  frame_nr : Nat
  frame_size : Nat
  deriving DecidableEq, Repr

/-- The environment of `pcap_to_xmit`: the answers of `user_may_pull_from_tx`, the
delivery of SIGINT, the filter `bpf_run_filter` and the original length
`pcap_pkthdr_to_tpacket_hdr` stores as `tp_len`. -/
structure xmit_env where
  tx_ready : Nat → Nat → Bool
  sigint_at : Nat → Bool
  bpf_run_filter : List uint8_t → Nat → Bool
  tp_len : List uint8_t → Nat

/-- A frame handed to the kernel: the TX slot, the record header and the payload. -/
structure tx_sent where
  slot : Nat
  phdr : List uint8_t
  data : List uint8_t
  deriving DecidableEq, Repr

/-- The variables of `pcap_to_xmit`, the stop flag, the clock, the file, the pool of
the reader and the frames sent so far. -/
structure xmit_state where
  sigint : Bool
  it : Nat
  trunced : Nat
  tx_packets : Nat
  tx_bytes : Nat
  clock : Nat
  fd : List uint8_t
  sg : sg_state
  phdr : List uint8_t
  sent : List tx_sent
  deriving DecidableEq, Repr

/-- The `do ... while` loop of `pcap_to_xmit` that reads records until one passes the
filter. The result is the state and the payload buffer, or no buffer when the
reader returned `ret <= 0` and the code jumps to `out`. `none`: a `bug_on` fired or
the bound on the iterations is used up. -/
def pcap_to_xmit_read (h : pcap_h) (env : xmit_env) (c : xmit_ctx) :
    Nat → xmit_state → List uint8_t → Option (xmit_state × Option (List uint8_t))
  | 0, _, _ => none
  | fuel + 1, st, out =>
    match pcap_sg_read h st.fd st.sg st.phdr c.type out c.frame_size with
    | none => none
    | some r =>
      if r.ret ≤ 0 then
        some ({ st with fd := r.fd, sg := r.s, phdr := r.phdr }, none)
      else
        let big := decide (c.frame_size < h.pcap_get_length r.phdr c.type)
        let phdr1 := if big then h.pcap_set_length r.phdr c.type c.frame_size else r.phdr
        let st1 := { st with fd := r.fd, sg := r.s, phdr := phdr1,
                             trunced := if big then st.trunced + 1 else st.trunced }
        if c.filter && !env.bpf_run_filter r.packet (h.pcap_get_length phdr1 c.type) then
          pcap_to_xmit_read h env c fuel st1 r.packet
        else some (st1, some r.packet)

/-- The two nested loops of `pcap_to_xmit`; `inner` says whether the loop stands at
the test of the inner `while` (the TX slot) or at the test of the outer one (the
stop flag). The result is the state at the label `out`. `none`: a `bug_on` fired
or the bound on the iterations is used up. -/
def pcap_to_xmit_loop (h : pcap_h) (env : xmit_env) (c : xmit_ctx) :
    Nat → Bool → xmit_state → Option xmit_state
  | 0, _, _ => none
  | fuel + 1, inner, st =>
    if !inner && (st.sigint || env.sigint_at st.clock) then some { st with sigint := true }
    else if env.tx_ready st.clock st.it then
      match pcap_to_xmit_read h env c fuel { st with clock := st.clock + 1 }
          (List.replicate c.frame_size 0) with
      | none => none
      | some (st1, none) => some st1
      | some (st1, some out) =>
        let st2 := { st1 with
          tx_bytes := st1.tx_bytes + env.tp_len st1.phdr,
          tx_packets := st1.tx_packets + 1,
          sent := st1.sent ++
            [({ slot := st1.it, phdr := st1.phdr,
                data := out.take (h.pcap_get_length st1.phdr c.type) } : tx_sent)],
          it := ring_next st1.it c.frame_nr }
        if st2.sigint || env.sigint_at st2.clock then some { st2 with sigint := true }
        else if c.frame_count_max ≠ 0 ∧ st2.tx_packets ≥ c.frame_count_max then
          some { st2 with sigint := true }
        else pcap_to_xmit_loop h env c fuel true { st2 with clock := st2.clock + 1 }
    else pcap_to_xmit_loop h env c fuel false { st with clock := st.clock + 1 }

/-- A record header of the default flavour with captured and original length 4096. -/
def oversize_hdr : List uint8_t := [0, 0, 0, 0, 0, 0, 0, 0, 0, 16, 0, 0, 0, 16, 0, 0]

/-- A pool buffer of 12288 bytes that starts with a record of 4096 payload bytes,
followed by a record of 16 payload bytes and by zeros. -/
def oversize_buf : List uint8_t :=
  oversize_hdr ++ (List.replicate 4096 7 ++ (sample_hdr ++ (List.replicate 16 1 ++
    List.replicate 8144 0)))

/-- The read pool at the start of a capture file whose first record has a captured
length of 4096 and whose second record has one of 16. -/
def oversize_pool : sg_state :=
  { iov := List.replicate 1024 { iov_base := oversize_buf, iov_len := 12288 },
    iov_off_rd := 0, iov_slot := 0 }

/-- A TX ring whose slots are ready whenever asked for, no SIGINT delivered and a
filter that accepts everything. -/
def xmit_env_ready : xmit_env :=
  { tx_ready := fun _ _ => true
    sigint_at := fun _ => false
    bpf_run_filter := fun _ _ => true
    tp_len := fun p => le32 (p.drop 12) }

/-- The settings of a replay without filter and without cap on a TX ring of 64 frames
of 2048 bytes. -/
def xmit_ctx_2048 : xmit_ctx :=
  { filter := false
    type := pcap_type.DEFAULT
    frame_count_max := 0
    frame_nr := 64
    frame_size := 2048 }

/-- The state of `pcap_to_xmit` at the start of its loop over a pool and a file. -/
def xmit_start (fd : List uint8_t) (sg : sg_state) : xmit_state :=
  { sigint := false, it := 0, trunced := 0, tx_packets := 0, tx_bytes := 0, clock := 0,
    fd := fd, sg := sg, phdr := List.replicate 16 0, sent := [] }

/-! ## The receive loop `recv_only_or_dump` (`netsniff-ng.c`)

The RX ring, the signal handler and the interval timer are the environment, as
for the bridge: the answers of `user_may_pull_from_rx` come as a script, the
delivery of SIGINT and the expiry of the interval timer are functions of the clock.
The handler `timer_next_dump` runs when the timer is armed and expires; its effect
is taken in where the loop reads `next_dump`. A record written to the capture file
has the `snaplen` of the slot as captured length, and the write succeeds (a failed
write ends the program). Behind `kernel_may_pull_from_rx` the slot belongs to the
kernel again, so the value of `hdr->tp_h.tp_snaplen` the loop reads there for the
byte counter is an answer of the environment. The byte counter `interval` is an
`unsigned long` of 64 bits; `frame_count` and `skipped` are natural numbers. The
rotation opens `<output>/<prefix><seconds>.pcap` with `open_or_die_m`: in a
directory the open succeeds; under an output path that `stat` did not report as a
directory it fails and the program ends there. -/

/-- The rotation modes of `enum dump_mode`. -/
inductive dump_mode where
  | DUMP_INTERVAL_TIME
  | DUMP_INTERVAL_SIZE
  deriving DecidableEq, Repr

/-- The settings of `recv_only_or_dump`: fields of `struct ctx`, the global
`frame_count_max`, `tp_frame_nr` and the frame size of the RX ring. -/
structure recv_ctx where
  packet_type : Int
  dump : Bool
  dump_mode : dump_mode
  dump_interval : Nat
  verbose : Bool
  frame_count_max : Nat
  frame_nr : Nat
  frame_size : Nat
  deriving DecidableEq, Repr

/-- The environment of `recv_only_or_dump`. -/
structure recv_env where
  sigint_at : Nat → Bool
  alarm_at : Nat → Bool
  /-- The value of `hdr->tp_h.tp_snaplen` read behind the release of the slot, at
  the given tick, for the slot that held the given frame. -/
  tp_snaplen_reread : Nat → rx_frame → Nat

/-- What `recv_only_or_dump` does, in order. The event `rotate` is a call of
`next_multi_pcap_file` that returns with the next file open; `rotate_die` is a call
that closes the file and ends the program in `open_or_die_m`. -/
inductive recv_event where
  | rx_reject (slot : Nat) (f : rx_frame)
  | rx_skip (slot : Nat) (f : rx_frame)
  | pcap_write (slot : Nat) (caplen : Nat)
  | dissect (slot : Nat) (snaplen : Nat)
  | rx_release (slot : Nat)
  | rotate
  | rotate_die
  | print_stats
  | poll
  | alarm
  | setitimer (sec : Nat) (usec : Nat)
  deriving DecidableEq, Repr

/-- How the body of the inner loop of `recv_only_or_dump` is left: on to the next
slot, by `break`, or by the end of the program inside `next_multi_pcap_file`. -/
inductive recv_exit where
  | next_slot
  | break_inner
  | die
  deriving DecidableEq, Repr

/-- The variables of `recv_only_or_dump`, the globals `sigint`, `next_dump`,
`interval` and `itimer` (the value the interval timer was last set to, seconds and
microseconds, zero for a disarmed timer), the field `ctx->dump_dir`, the clock and
the events so far. -/
structure recv_state where
  sigint : Bool
  next_dump : Bool
  interval : Nat
  itimer : Nat × Nat
  dump_dir : Bool
  frame_count : Nat
  skipped : Nat
  it : Nat
  clock : Nat
  events : List recv_event
  deriving DecidableEq, Repr

/-- The handler `timer_next_dump`, run if the timer is armed and has expired. -/
def timer_next_dump (env : recv_env) (st : recv_state) : recv_state :=
  if st.itimer ≠ (0, 0) ∧ env.alarm_at st.clock = true then
    { st with itimer := (st.interval, 0), next_dump := true,
              events := st.events ++ [recv_event.alarm, recv_event.setitimer st.interval 0] }
  else st

/-- The statements `kernel_may_pull_from_rx(&hdr->tp_h); it++;
if (it >= rx_ring.layout.tp_frame_nr) it = 0;` behind the label `next`. -/
def recv_release (c : recv_ctx) (st : recv_state) : recv_state :=
  { st with events := st.events ++ [recv_event.rx_release st.it],
            it := ring_next st.it c.frame_nr }

/-- One tick of the clock of the environment. -/
def recv_tick (st : recv_state) : recv_state :=
  { st with clock := st.clock + 1 }

/-- The statement `interval += hdr->tp_h.tp_snaplen` with the test that follows
it: `v` is the value read from the slot, the sum is taken in 64 bits. -/
def interval_add (c : recv_ctx) (v : Nat) (st : recv_state) : recv_state :=
  if (st.interval + v) % 2 ^ 64 > c.dump_interval then
    { st with next_dump := true, interval := 0 }
  else { st with interval := (st.interval + v) % 2 ^ 64 }

/-- The byte counter of the size mode, behind the release of the slot that held
`f`: the length is read from the slot again. -/
def recv_size_step (env : recv_env) (c : recv_ctx) (f : rx_frame) (st : recv_state) :
    recv_state :=
  if c.dump_mode = dump_mode.DUMP_INTERVAL_SIZE then
    interval_add c (env.tp_snaplen_reread st.clock f) st
  else st

/-- The call of `next_multi_pcap_file` with what follows it in the loop. With a
directory as output the next file is opened; else `open_or_die_m` ends the program
after the file was closed. -/
def recv_rotate (c : recv_ctx) (st : recv_state) : recv_state × recv_exit :=
  if st.dump_dir then
    ({ st with next_dump := false,
               events := st.events ++ [recv_event.rotate] ++
                 (if c.verbose then [recv_event.print_stats] else []) },
      recv_exit.next_slot)
  else ({ st with events := st.events ++ [recv_event.rotate_die] }, recv_exit.die)

/-- The code of `recv_only_or_dump` behind the label `next`, for the slot that
held `f`: release, advance, test of the stop flag, byte counter and rotation. -/
def recv_next (env : recv_env) (c : recv_ctx) (f : rx_frame) (st : recv_state) :
    recv_state × recv_exit :=
  let st1 := recv_release c st
  if st1.sigint || env.sigint_at st1.clock then
    ({ recv_tick st1 with sigint := true }, recv_exit.break_inner)
  else
    let st2 := recv_tick st1
    if c.dump then
      let st4 := timer_next_dump env (recv_size_step env c f st2)
      if st4.next_dump then recv_rotate c st4
      else (st4, recv_exit.next_slot)
    else (st2, recv_exit.next_slot)

/-- The body of the inner `while` loop of `recv_only_or_dump` for a ready RX slot
that holds `f`. -/
def recv_frame (env : recv_env) (c : recv_ctx) (f : rx_frame) (st : recv_state) :
    recv_state × recv_exit :=
  let st1 := { st with frame_count := st.frame_count + 1 }
  if c.packet_type ≠ -1 ∧ c.packet_type ≠ (f.sll_pkttype : Int) then
    recv_next env c f { st1 with events := st1.events ++ [recv_event.rx_reject st1.it f] }
  else if c.frame_size < f.tp_snaplen then
    recv_next env c f { st1 with skipped := st1.skipped + 1,
                                 events := st1.events ++ [recv_event.rx_skip st1.it f] }
  else
    let st2 := { st1 with
      events := st1.events ++
        (if c.dump then [recv_event.pcap_write st1.it f.tp_snaplen] else []) ++
        [recv_event.dissect st1.it f.tp_snaplen] }
    if c.frame_count_max ≠ 0 ∧ st2.frame_count ≥ c.frame_count_max then
      ({ st2 with sigint := true }, recv_exit.break_inner)
    else recv_next env c f st2

/-- The two nested loops of `recv_only_or_dump`, entered at the test of the inner
`while`. The flag of the result says whether the loops were left (`true`) or the
script ended first. A `break` of the body leads to the `poll` behind the inner
loop; the end of the program inside the rotation leads nowhere. -/
def recv_only_or_dump_inner (env : recv_env) (c : recv_ctx) :
    List (Option rx_frame) → recv_state → recv_state × Bool
  | [], st => (st, false)
  | none :: rx, st =>
    let st1 := { st with events := st.events ++ [recv_event.poll], clock := st.clock + 1 }
    if st1.sigint || env.sigint_at st1.clock then ({ st1 with sigint := true }, true)
    else recv_only_or_dump_inner env c rx st1
  | some f :: rx, st =>
    match recv_frame env c f st with
    | (st1, recv_exit.next_slot) => recv_only_or_dump_inner env c rx st1
    | (st1, recv_exit.break_inner) =>
      ({ st1 with events := st1.events ++ [recv_event.poll] }, true)
    | (st1, recv_exit.die) => (st1, true)

/-- The timer part of `begin_multi_pcap_file`. -/
def begin_multi_pcap_file (c : recv_ctx) (st : recv_state) : recv_state :=
  if c.dump_mode = dump_mode.DUMP_INTERVAL_TIME then
    { st with interval := c.dump_interval, itimer := (c.dump_interval, 0),
              events := st.events ++ [recv_event.setitimer c.dump_interval 0] }
  else { st with interval := 0 }

/-- The timer part of `finish_multi_pcap_file`. -/
def finish_multi_pcap_file (st : recv_state) : recv_state :=
  { st with itimer := (0, 0), events := st.events ++ [recv_event.setitimer 0 0] }

/-- The function `recv_only_or_dump` from the opening of the output to its
teardown; `is_dir` is the answer of `stat` for the output path and `interval0` the
value of the global `interval` at the call. The field `ctx->dump_dir` is set from
`stat` when dumping and keeps its initial 0 else. A run that ended inside the
rotation has `rotate_die` as its last event; it has no teardown, which the model
has neither since such a run has no directory as output. -/
def recv_only_or_dump (env : recv_env) (c : recv_ctx) (is_dir : Bool) (interval0 : Nat)
    (rx : List (Option rx_frame)) : recv_state × Bool :=
  let st0 : recv_state :=
    { sigint := false, next_dump := false, interval := interval0, itimer := (0, 0),
      dump_dir := c.dump && is_dir,
      frame_count := 0, skipped := 0, it := 0, clock := 0, events := [] }
  let dump_dir := c.dump && is_dir
  let st1 := if dump_dir then begin_multi_pcap_file c st0 else st0
  let r :=
    if st1.sigint || env.sigint_at st1.clock then ({ st1 with sigint := true }, true)
    else recv_only_or_dump_inner env c rx { st1 with clock := st1.clock + 1 }
  (if dump_dir then finish_multi_pcap_file r.1 else r.1, r.2)

/-- The number of slots the packet-type filter rejected. -/
def n_rejected : List recv_event → Nat
  | [] => 0
  | recv_event.rx_reject _ _ :: es => n_rejected es + 1
  | _ :: es => n_rejected es

/-- The number of slots skipped as oversize. -/
def n_skipped : List recv_event → Nat
  | [] => 0
  | recv_event.rx_skip _ _ :: es => n_skipped es + 1
  | _ :: es => n_skipped es

/-- The number of slots accepted: handed to the dissector (and written, when
dumping). -/
def n_accepted : List recv_event → Nat
  | [] => 0
  | recv_event.dissect _ _ :: es => n_accepted es + 1
  | _ :: es => n_accepted es

/-- One step of the reconstruction of the capture files from the events: the
files closed so far and the records (captured lengths) of the open one. -/
def file_step (acc : List (List Nat) × List Nat) (e : recv_event) : List (List Nat) × List Nat :=
  match e with
  | recv_event.pcap_write _ caplen => (acc.1, acc.2 ++ [caplen])
  | recv_event.rotate => (acc.1 ++ [acc.2], [])
  | _ => acc

/-- The capture files a run emits, each as the captured lengths of its records:
the files closed by a rotation and the one open at the end. -/
def emitted_files (es : List recv_event) : List (List Nat) :=
  (es.foldl file_step ([], [])).1 ++ [(es.foldl file_step ([], [])).2]

/-- The size of a capture file in bytes: the global header of 24 bytes and, per
record, the record header and the captured bytes. -/
def pcap_file_size (hdr_size : Nat) (caplens : List Nat) : Nat :=
  24 + (caplens.map fun c => hdr_size + c).sum

/-- An environment without SIGINT and without timer expiry, in which every slot
still holds its frame when the loop reads the length again. -/
def recv_env_quiet : recv_env :=
  { sigint_at := fun _ => false
    alarm_at := fun _ => false
    tp_snaplen_reread := fun _ f => f.tp_snaplen }

/-- An environment without SIGINT whose timer would expire at every tick. -/
def recv_env_alarms : recv_env :=
  { sigint_at := fun _ => false
    alarm_at := fun _ => true
    tp_snaplen_reread := fun _ f => f.tp_snaplen }

/-- An environment without SIGINT and without timer expiry, in which the kernel has
filled every released slot anew, with a frame of length 0, by the time the loop
reads the length again. -/
def recv_env_refill : recv_env :=
  { sigint_at := fun _ => false
    alarm_at := fun _ => false
    tp_snaplen_reread := fun _ _ => 0 }

/-- Settings of a dump in size mode with threshold `s`, with packet-type filter
`ptype`, on a ring of 64 frames of 2048 bytes, no cap. -/
def recv_ctx_size (ptype : Int) (s : Nat) : recv_ctx :=
  { packet_type := ptype
    dump := true
    dump_mode := dump_mode.DUMP_INTERVAL_SIZE
    dump_interval := s
    verbose := false
    frame_count_max := 0
    frame_nr := 64
    frame_size := 2048 }

/-- Settings of a run without dump, without filter, with cap `n`, on a ring of 64
frames of 2048 bytes. -/
def recv_ctx_cap (n : Nat) : recv_ctx :=
  { packet_type := -1
    dump := false
    dump_mode := dump_mode.DUMP_INTERVAL_TIME
    dump_interval := 60
    verbose := false
    frame_count_max := n
    frame_nr := 64
    frame_size := 2048 }

/-- The counters of a state next to the counts of its events: `frame_count`,
`skipped`, and the numbers of rejected, skipped and accepted slots. -/
def recv_counts (st : recv_state) : Nat × Nat × Nat × Nat × Nat :=
  (st.frame_count, st.skipped, n_rejected st.events, n_skipped st.events,
   n_accepted st.events)

/-- The accounting of the ready slots: each is rejected, skipped or accepted. -/
def recv_accounted (c : recv_ctx) (st : recv_state) : Prop :=
  st.frame_count = n_rejected st.events + n_skipped st.events + n_accepted st.events ∧
  st.skipped = n_skipped st.events ∧
  (c.packet_type = -1 → n_rejected st.events = 0)

/-- The events of the rotation and of the timer: no slot is touched by them. -/
def recv_bookkeeping : recv_event → Bool
  | recv_event.rotate => true
  | recv_event.rotate_die => true
  | recv_event.print_stats => true
  | recv_event.alarm => true
  | recv_event.setitimer _ _ => true
  | _ => false

/-- The state at the entry of the loops of a run without rotation: nothing counted,
cursor at slot 0. -/
def recv_start (interval0 : Nat) : recv_state :=
  { sigint := false
    next_dump := false
    interval := interval0
    itimer := (0, 0)
    dump_dir := false
    frame_count := 0
    skipped := 0
    it := 0
    clock := 1
    events := [] }

/-- The files closed so far and the records of the open one, from the events. -/
def files_of (es : List recv_event) : List (List Nat) × List Nat :=
  es.foldl file_step ([], [])

/-- The state between two slots of a run in size mode, for the bound `b` on the
captured bytes of a file: the closed files keep the bound, the captured bytes of
the open file are at most the byte counter, which is at most the threshold, the
timer is disarmed and no rotation is pending. -/
def size_inv (c : recv_ctx) (b : Nat) (st : recv_state) : Prop :=
  (∀ x ∈ (files_of st.events).1, x.sum ≤ b) ∧
  (files_of st.events).2.sum ≤ st.interval ∧
  st.interval ≤ c.dump_interval ∧
  st.itimer = (0, 0) ∧
  st.next_dump = false

/-- The bound `b` on the captured bytes of every file, closed or open. -/
def size_post (b : Nat) (st : recv_state) : Prop :=
  (∀ x ∈ (files_of st.events).1, x.sum ≤ b) ∧ (files_of st.events).2.sum ≤ b

/-- The interval timer is disarmed and has never been armed: no expiry among the
events, and every call of `setitimer` among them has the value zero. -/
def timer_idle (st : recv_state) : Prop :=
  st.itimer = (0, 0) ∧ recv_event.alarm ∉ st.events ∧
  ∀ s u, recv_event.setitimer s u ∈ st.events → s = 0 ∧ u = 0

/-! ## The interval timer of the TX loops (`netsniff-ng.c`)

As for `recv_only_or_dump`, the timer is the pair of seconds and microseconds
last given to `set_itimer_interval_value` before `setitimer`; the pair of zeros,
written by `fmemset`, disarms it. The handler `timer_elapsed` runs a number of
times while the loop runs. -/

/-- The global `interval` after `if (ctx->kpull) interval = ctx->kpull`. -/
def tx_interval (kpull interval0 : Nat) : Nat :=
  if kpull ≠ 0 then kpull else interval0

/-- The handler `timer_elapsed`: it sets the timer to `interval` microseconds
again (and flushes the TX ring). -/
def timer_elapsed (interval : Nat) (_itimer : Nat × Nat) : Nat × Nat :=
  (0, interval)

/-- The function `pcap_to_xmit` from the arming of the timer to its return: the
state of the loop at the label `out` and the timer at the return. Nothing between
the label `out` and the return touches the timer. -/
def pcap_to_xmit (h : pcap_h) (env : xmit_env) (c : xmit_ctx) (kpull interval0 alarms : Nat)
    (fuel : Nat) (fd : List uint8_t) (sg : sg_state) : Option (xmit_state × (Nat × Nat)) :=
  let interval := tx_interval kpull interval0
  let itimer := (0, interval)
  match pcap_to_xmit_loop h env c fuel false (xmit_start fd sg) with
  | none => none
  | some st => some (st, Nat.iterate (timer_elapsed interval) alarms itimer)

/-- The function `receive_to_xmit` from the arming of the timer to its return:
the result of the loops and the timer at the return. Nothing between the label
`out` and the return touches the timer. -/
def receive_to_xmit (env : bridge_env) (c : bridge_ctx) (kpull interval0 alarms : Nat)
    (spin_fuel : Nat) (rx : List (Option rx_frame)) :
    Option ((bridge_state × Bool) × (Nat × Nat)) :=
  let interval := tx_interval kpull interval0
  let itimer := (0, interval)
  match receive_to_xmit_loop env c spin_fuel rx with
  | none => none
  | some r => some (r, Nat.iterate (timer_elapsed interval) alarms itimer)

/-- Settings of a dump in time mode with an interval of `t` seconds, without
filter and without cap, on a ring of 64 frames of 2048 bytes. -/
def recv_ctx_time (t : Nat) : recv_ctx :=
  { packet_type := -1
    dump := true
    dump_mode := dump_mode.DUMP_INTERVAL_TIME
    dump_interval := t
    verbose := false
    frame_count_max := 0
    frame_nr := 64
    frame_size := 2048 }

/-- An environment of the bridge with all TX slots ready and SIGINT delivered from
tick `t0` on. -/
def env_tx_ready_sigint (t0 : Nat) : bridge_env :=
  { tx_ready := fun _ _ => true
    sigint_at := fun t => decide (t0 ≤ t)
    next_rnd_slot := fun _ s => s }

/-! ## The ring cursors -/

/-- The slot an event of `recv_only_or_dump` touches, if it touches one. -/
def recv_event_slot : recv_event → Option Nat
  | recv_event.rx_reject s _ => some s
  | recv_event.rx_skip s _ => some s
  | recv_event.pcap_write s _ => some s
  | recv_event.dissect s _ => some s
  | recv_event.rx_release s => some s
  | _ => none

/-- The cursor of `recv_only_or_dump` and the slot of every event so far are below
the number of frames `n`. -/
def recv_in_ring (n : Nat) (st : recv_state) : Prop :=
  st.it < n ∧ ∀ e ∈ st.events, ∀ s, recv_event_slot e = some s → s < n

/-- The slot of an event of the bridge is a slot of its ring. -/
def bridge_event_in_ring (c : bridge_ctx) : bridge_event → Prop
  | bridge_event.tx_clone s _ _ => s < c.tx_frame_nr
  | bridge_event.tx_copy s _ _ => s < c.tx_frame_nr
  | bridge_event.tx_publish s _ => s < c.tx_frame_nr
  | bridge_event.rx_release s => s < c.rx_frame_nr
  | bridge_event.poll => True

/-- The two cursors of the bridge and the slot of every event so far are slots of
the rings. -/
def bridge_in_ring (c : bridge_ctx) (st : bridge_state) : Prop :=
  st.it_in < c.rx_frame_nr ∧ st.it_out < c.tx_frame_nr ∧
  ∀ e ∈ st.events, bridge_event_in_ring c e

/-- The cursor of `pcap_to_xmit` and the slot of every frame sent so far are below
the number of frames `n`. -/
def xmit_in_ring (n : Nat) (st : xmit_state) : Prop :=
  st.it < n ∧ ∀ x ∈ st.sent, x.slot < n

/-! ## The option `-F` of `main` (`netsniff-ng.c`)

Strings are the characters before the terminating NUL. `isdigit` and `strtol` are
those of the C library; `strtol` is only called on the digits the scan has found,
with base 0, and `unsigned long` has 64 bits. -/

/-- The test `isdigit` of the C library. -/
def isdigit (c : Char) : Bool :=
  decide (48 ≤ c.toNat ∧ c.toNat ≤ 57)

/-- The test for an octal digit. -/
def isodigit (c : Char) : Bool :=
  decide (48 ≤ c.toNat ∧ c.toNat ≤ 55)

/-- The value of a digit. -/
def digit_val (c : Char) : Nat :=
  c.toNat - 48

/-- The number a list of digits denotes in the base `b`. -/
def digits_val (b : Nat) (ds : List Char) : Nat :=
  ds.foldl (fun a c => b * a + digit_val c) 0

/-- The call `strtol(s, NULL, 0)` on a string of decimal digits: with base 0 a
leading `0` selects octal, and the conversion stops at the first character that is
not a digit of the base; the result is at most `LONG_MAX`. -/
def strtol_base0 (s : List Char) : Nat :=
  let v :=
    match s with
    | [] => 0
    | c :: rest =>
      if c = '0' then digits_val 8 (rest.takeWhile isodigit)
      else digits_val 10 ((c :: rest).takeWhile isdigit)
  min v (2 ^ 63 - 1)

/-- The chain of `strncmp` tests on the text behind the digits: the factor and the
mode of the first unit that matches. -/
def dump_interval_unit (ptr : String) : Option (Nat × dump_mode) :=
  if strncmp_eq ptr "KiB" "KiB".length then some (2 ^ 10, dump_mode.DUMP_INTERVAL_SIZE)
  else if strncmp_eq ptr "MiB" "MiB".length then some (2 ^ 20, dump_mode.DUMP_INTERVAL_SIZE)
  else if strncmp_eq ptr "GiB" "GiB".length then some (2 ^ 30, dump_mode.DUMP_INTERVAL_SIZE)
  else if strncmp_eq ptr "sec" "sec".length then some (1, dump_mode.DUMP_INTERVAL_TIME)
  else if strncmp_eq ptr "min" "min".length then some (60, dump_mode.DUMP_INTERVAL_TIME)
  else if strncmp_eq ptr "hrs" "hrs".length then some (60 * 60, dump_mode.DUMP_INTERVAL_TIME)
  else if strncmp_eq ptr "s" "s".length then some (1, dump_mode.DUMP_INTERVAL_TIME)
  else none

/-- The case `F` of the option loop of `main`: the scan over the leading digits,
the unit, and the product with the number; the result is `dump_mode` and
`dump_interval`, or the fatal syntax error. -/
def main_opt_F (optarg : String) : Except String (dump_mode × Nat) :=
  let digits := optarg.toList.takeWhile isdigit
  let ptr := String.mk (optarg.toList.dropWhile isdigit)
  match dump_interval_unit ptr with
  | none => Except.error "Syntax error in time/size param!"
  | some (factor, mode) => Except.ok (mode, (factor * strtol_base0 digits) % 2 ^ 64)

/-- The seven units the help text of `-F` names, with factor and mode. -/
def dump_interval_units : List (String × Nat × dump_mode) :=
  [("KiB", 2 ^ 10, dump_mode.DUMP_INTERVAL_SIZE), ("MiB", 2 ^ 20, dump_mode.DUMP_INTERVAL_SIZE),
   ("GiB", 2 ^ 30, dump_mode.DUMP_INTERVAL_SIZE), ("s", 1, dump_mode.DUMP_INTERVAL_TIME),
   ("sec", 1, dump_mode.DUMP_INTERVAL_TIME), ("min", 60, dump_mode.DUMP_INTERVAL_TIME),
   ("hrs", 3600, dump_mode.DUMP_INTERVAL_TIME)]

/-! ## Accepted slots -/

/-- A ready slot that `recv_only_or_dump` accepts: it passes the packet-type test
and the test of the frame size, so it reaches the write and the dissector. -/
def recv_accepts (c : recv_ctx) (f : rx_frame) : Bool :=
  !decide (c.packet_type ≠ -1 ∧ c.packet_type ≠ (f.sll_pkttype : Int)) &&
  !decide (c.frame_size < f.tp_snaplen)

/-- A ready slot that `receive_to_xmit` accepts: it passes the packet-type test. -/
def bridge_accepts (c : bridge_ctx) (f : rx_frame) : Bool :=
  !decide (c.packet_type ≠ -1 ∧ c.packet_type ≠ (f.sll_pkttype : Int))

/-- A state of `recv_only_or_dump` in which no call of `next_multi_pcap_file` ends
the program: nothing is dumped, or the output is a directory, or the rotation is
that of the time mode with the timer disarmed and no rotation pending. -/
def recv_no_die (c : recv_ctx) (st : recv_state) : Prop :=
  c.dump = false ∨ st.dump_dir = true ∨
  (c.dump_mode = dump_mode.DUMP_INTERVAL_TIME ∧ st.itimer = (0, 0) ∧ st.next_dump = false)

/-- The number of ready slots of a script that are accepted. -/
def n_accepted_rx (acc : rx_frame → Bool) : List (Option rx_frame) → Nat
  | [] => 0
  | none :: rx => n_accepted_rx acc rx
  | some f :: rx => n_accepted_rx acc rx + (if acc f then 1 else 0)

/-- The number of ready slots of a script that are not accepted (rejected by the
filter or skipped as oversize). -/
def n_unaccepted (acc : rx_frame → Bool) : List (Option rx_frame) → Nat
  | [] => 0
  | none :: rx => n_unaccepted acc rx
  | some f :: rx => n_unaccepted acc rx + (if acc f then 0 else 1)

/-- Settings of a run without dump, with the packet-type filter `ptype` and the cap
`n`, on a ring of 64 frames of 2048 bytes. -/
def recv_ctx_filter_cap (ptype : Int) (n : Nat) : recv_ctx :=
  { packet_type := ptype
    dump := false
    dump_mode := dump_mode.DUMP_INTERVAL_TIME
    dump_interval := 60
    verbose := false
    frame_count_max := n
    frame_nr := 64
    frame_size := 2048 }

/-- Settings of a dump in size mode with threshold `s` and the cap `n`, without
filter, on a ring of 64 frames of 2048 bytes. -/
def recv_ctx_size_cap (s n : Nat) : recv_ctx :=
  { packet_type := -1
    dump := true
    dump_mode := dump_mode.DUMP_INTERVAL_SIZE
    dump_interval := s
    verbose := false
    frame_count_max := n
    frame_nr := 64
    frame_size := 2048 }

/-- Settings of the bridge with the packet-type filter `ptype` and the cap `n`, no
randomisation, on rings of 64 frames. -/
def bridge_ctx_filter_cap (ptype : Int) (n : Nat) : bridge_ctx :=
  { packet_type := ptype
    randomize := false
    frame_count_max := n
    rx_frame_nr := 64
    tx_frame_nr := 64 }

/-- The opening of the output in `read_pcap`: no descriptor when no output is
given. -/
def open_pcap_output (can_open : String → Bool) (c : ctx) : Except String (Option fd_source) :=
  match c.device_out with
  | none => Except.ok none
  | some dout =>
    if strncmp_eq "-" dout "-".length = true then Except.ok (some fd_source.dup_stdout)
    else
      match open_or_die can_open dout with
      | Except.ok fd => Except.ok (some fd)
      | Except.error e => Except.error e

/-! ## The names of the rotated files (`netsniff-ng.c`)

The directory holds files by name, each with the captured lengths of its records
(the file header is not counted). `time(0)` is the second `now` of the call. The
helper `slprintf` of `xutils.c` is not among the sources; it is a parameter that
maps the size of the buffer and the text of the format to the text stored. -/

/-- The text of the format `%s/%s%lu.pcap` for `ctx->device_out`,
`ctx->prefix ? : "dump-"` and `time(0)`. -/
def multi_pcap_fname_text (device_out : String) (pfx : Option String) (now : Nat) : String :=
  device_out ++ "/" ++ pfx.getD "dump-" ++ toString now ++ ".pcap"

/-- The removal of one trailing `/` at the start of `begin_multi_pcap_file`. -/
def trim_dir (device_out : String) : String :=
  if device_out.toList.getLast? = some '/' then String.mk device_out.toList.dropLast
  else device_out

/-- The call `open_or_die_m(fname, O_RDWR | O_CREAT | O_TRUNC | O_LARGEFILE, ...)`:
afterwards the file exists and is empty. -/
def open_trunc (files : List (String × List Nat)) (fname : String) : List (String × List Nat) :=
  (fname, []) :: files.filter (fun p => decide (p.1 ≠ fname))

/-- The records of the file of a name, if it exists. -/
def file_records : List (String × List Nat) → String → Option (List Nat)
  | [], _ => none
  | (n, r) :: fs, name => if n = name then some r else file_records fs name

/-- The directory output: `ctx->device_out`, the name of the open file (the file
behind `fd`) and the files. -/
structure dump_files where
  device_out : String
  fname : String
  files : List (String × List Nat)
  deriving DecidableEq, Repr

/-- The file part of `begin_multi_pcap_file`, with a buffer of 256 bytes for the
name. `none`: `device_out` is empty and the test of its last character reads before
the string. -/
def begin_multi_pcap_open (slprintf : Nat → String → String) (device_out : String)
    (pfx : Option String) (now : Nat) (files : List (String × List Nat)) : Option dump_files :=
  if device_out = "" then none
  else
    some { device_out := trim_dir device_out
           fname := slprintf 256 (multi_pcap_fname_text (trim_dir device_out) pfx now)
           files := open_trunc files
             (slprintf 256 (multi_pcap_fname_text (trim_dir device_out) pfx now)) }

/-- The function `next_multi_pcap_file`, with a buffer of 512 bytes for the name:
the open file is synced and closed, the next one is opened. -/
def next_multi_pcap_file (slprintf : Nat → String → String) (pfx : Option String) (now : Nat)
    (d : dump_files) : dump_files :=
  { d with
    fname := slprintf 512 (multi_pcap_fname_text d.device_out pfx now)
    files := open_trunc d.files (slprintf 512 (multi_pcap_fname_text d.device_out pfx now)) }

/-- One record written to the open file. -/
def dump_write (d : dump_files) (caplen : Nat) : dump_files :=
  { d with files := d.files.map (fun p => if p.1 = d.fname then (p.1, p.2 ++ [caplen]) else p) }

/-- The records `ws` written to the open file, in order. -/
def dump_write_all (d : dump_files) (ws : List Nat) : dump_files :=
  ws.foldl dump_write d

/-- An instance of the formatting helper: the text cut to `size - 1` characters. -/
def slprintf_cut (size : Nat) (s : String) : String :=
  String.mk (s.toList.take (size - 1))

/-- A directory path of 250 characters: `/` followed by 249 letters `c`. -/
def long_dir : String :=
  "/" ++ String.mk (List.replicate 249 'c')

/-! ## The user messages (`usermgmt.c`)

The headers `usermgmt.h`, `taia.h` and the crypto library are not among the
sources. The size of `struct username_struct`, the hash, the comparison of 32
bytes and the functions on `struct taia` are parameters; a message is given by the
fields the code reads from it. -/

/-- The results of `enum is_user_enum`. -/
inductive is_user_enum where
  | USERNAMES_OK
  | USERNAMES_NE
  | USERNAMES_TS
  | USERNAMES_ERR
  deriving DecidableEq, Repr

/-- The fields of `struct taia` that the initialiser of `tolerance_taia` names. -/
structure taia where
  sec : Nat
  nano : Nat
  atto : Nat
  deriving DecidableEq, Repr

/-- The constant `tolerance_taia`: 250000000 nanoseconds. -/
def tolerance_taia : taia :=
  { sec := 0
    nano := 250000000
    atto := 0 }

/-- The fields of `struct username_struct` as they stand in a message: the salt
(4 bytes in network order), the hash and the packed time stamp. -/
structure username_struct where
  salt : List uint8_t
  hash : List uint8_t
  taia : List uint8_t
  deriving DecidableEq, Repr

/-- What `usermgmt.c` takes from its headers. -/
structure usermgmt_ext where
  sizeof_username_struct : Nat
  crypto_hash_sha512 : String → List uint8_t
  crypto_verify_32 : List uint8_t → List uint8_t → Int
  taia_unpack : List uint8_t → taia
  taia_less : taia → taia → Bool
  taia_sub : taia → taia → taia

/-- The call `ntohl` on a field of 4 bytes: the number they denote in network
(big-endian) order. -/
def ntohl (bs : List uint8_t) : Nat :=
  16777216 * (bs.getD 0 0).val + 65536 * (bs.getD 1 0).val + 256 * (bs.getD 2 0).val +
    (bs.getD 3 0).val

/-- The text `snprintf(uname, 512, "%s%u", username, salt)` leaves in `uname`: at
most 511 characters. -/
def uname_text (username : String) (salt : Nat) : String :=
  String.mk ((username ++ toString salt).toList.take 511)

/-- The function `username_msg_is_user`; `slen` is the length of the message and
`us` its fields, `_len` is the length argument the function does not use. -/
def username_msg_is_user (x : usermgmt_ext) (us : username_struct) (slen : Nat)
    (username : String) (_len : Nat) (arrival_taia : taia) : is_user_enum :=
  if slen < x.sizeof_username_struct then is_user_enum.USERNAMES_ERR
  else
    let salt := ntohl us.salt
    let h := x.crypto_hash_sha512 (uname_text username salt)
    let not_same : Bool :=
      if x.crypto_verify_32 h us.hash = 0 ∧ x.crypto_verify_32 (h.drop 32) (us.hash.drop 32) = 0
      then false else true
    let ts := x.taia_unpack us.taia
    let is_ts_good : Bool :=
      if x.taia_less arrival_taia ts then
        if x.taia_less (x.taia_sub ts arrival_taia) tolerance_taia then true else false
      else
        if x.taia_less (x.taia_sub arrival_taia ts) tolerance_taia then true else false
    if !not_same && is_ts_good then is_user_enum.USERNAMES_OK
    else if !not_same && !is_ts_good then is_user_enum.USERNAMES_TS
    else is_user_enum.USERNAMES_NE

/-- The time a `struct taia` denotes, in attoseconds. -/
def taia_atto (t : taia) : Nat :=
  (t.sec * 1000000000 + t.nano) * 1000000000 + t.atto

/-- The absolute difference of two times, in attoseconds. -/
def taia_dist (a b : taia) : Nat :=
  (taia_atto a - taia_atto b) + (taia_atto b - taia_atto a)

/-- An instance of the parameters: a message structure of 84 bytes, a hash that
repeats the length of the text 64 times, the comparison of 32 bytes, times packed
as one byte of seconds. -/
def usermgmt_sample : usermgmt_ext :=
  { sizeof_username_struct := 84
    crypto_hash_sha512 := fun s => List.replicate 64 (Fin.ofNat s.length)
    crypto_verify_32 := fun a b => if a.take 32 = b.take 32 then 0 else -1
    taia_unpack := fun bs => { sec := (bs.getD 0 0).val, nano := 0, atto := 0 }
    taia_less := fun a b => decide (taia_atto a < taia_atto b)
    taia_sub := fun a b => { sec := 0, nano := 0, atto := taia_atto a - taia_atto b } }

/-- A message for the user `bob` with salt 7, stamped at second 5. -/
def username_struct_sample : username_struct :=
  { salt := [0, 0, 0, 7]
    hash := List.replicate 64 4
    taia := [5] }

/-- An arrival 100 ms behind second 5. -/
def arrival_sample : taia :=
  { sec := 5
    nano := 100000000
    atto := 0 }

/-! ## The user store (`usermgmt.c`)

Strings are lists of characters, a buffer is the list of its characters with the
terminating NUL written out where the code compares memory. The client file is
the list of the lines `fgets` returns. The helpers `skips`, `strtrim_right`,
`curve25519_pubkey_hexparse_32` and `curve25519_proto_init` are not among the
sources and are parameters. -/

/-- A public key: the array `unsigned char publickey[crypto_box_pub_key_size]`, 32
bytes. -/
abbrev pubkey_t := { l : List uint8_t // l.length = 32 }

/-- The fields of `struct user_store` that the parser fills from the file. -/
structure user_store where
  username : List Char
  publickey : pubkey_t
  deriving DecidableEq

/-- What the parser of the client file takes from its headers:
`curve25519_pubkey_hexparse_32` gives no key when it returns 0, and
`curve25519_proto_init` is `true` when it returns an error. -/
structure userfile_ext where
  skips : List Char → List Char
  strtrim_right : List Char → Char → List Char
  curve25519_pubkey_hexparse_32 : List Char → Option pubkey_t
  curve25519_proto_init : pubkey_t → Bool

/-- The test `memcmp(a, b, n) == 0` on two buffers. -/
def memcmp_eq (a b : List Char) (n : Nat) : Bool :=
  a.take n == b.take n

/-- The function `__check_duplicate_username`; `ubuf` is the buffer at `username`. -/
def __check_duplicate_username (store : List user_store) (ubuf : List Char) : Bool :=
  store.any fun elem => memcmp_eq (elem.username ++ ['\x00']) ubuf (elem.username.length + 1)

/-- The function `__check_duplicate_pubkey`. -/
def __check_duplicate_pubkey (store : List user_store) (pkey : pubkey_t) : Bool :=
  store.any fun elem => decide (elem.publickey = pkey)

/-- The characters the scan for the key goes over. -/
def username_char (c : Char) : Bool :=
  decide (c ≠ ';' ∧ c ≠ '\x00' ∧ c ≠ ' ' ∧ c ≠ '\t')

/-- A line the loop skips: a comment or an empty line. -/
def userfile_line_skipped (buff : List Char) : Bool :=
  decide (buff.head? = some '#' ∨ buff.head? = some '\n')

/-- The part of the loop body that cuts a line into the user name and the key and
parses the key; an error is a `panic`. The third component is the text behind the
`;`, which follows the NUL written at the end of the user name. -/
def userfile_line_fields (x : userfile_ext) (buff : List Char) :
    Except String (List Char × pubkey_t × List Char) :=
  let username := (x.skips buff).takeWhile username_char
  match (x.skips buff).dropWhile username_char with
  | ';' :: key =>
    if key.head? = some '\n' then Except.error "Parse error! No key found!"
    else
      match x.curve25519_pubkey_hexparse_32 (x.strtrim_right key '\n') with
      | none => Except.error "Parse error! No key found!"
      | some pkey => Except.ok (username, pkey, key)
  | _ => Except.error "Parse error! No key found!"

/-- The body of the `while` loop of `parse_userfile_and_generate_user_store_or_die`
for one line `buff`: the store behind it, or the `panic`. -/
def parse_userfile_line (x : userfile_ext) (store : List user_store) (buff : List Char) :
    Except String (List user_store) :=
  if userfile_line_skipped buff then Except.ok store
  else
    match userfile_line_fields x buff with
    | Except.error e => Except.error e
    | Except.ok (username, pkey, key) =>
      if username.length + 1 > 256 then Except.error "Username too long!"
      else if __check_duplicate_username store (username ++ '\x00' :: key) then
        Except.error "Duplicate username!"
      else if __check_duplicate_pubkey store pkey then Except.error "Duplicate publickey!"
      else if ' ' ∈ username then Except.error "Username consists of whitespace!"
      else if '\t' ∈ username then Except.error "Username consists of whitespace!"
      else if x.curve25519_proto_init pkey then
        Except.error "Cannot init curve25519 proto on user!"
      else Except.ok ({ username := username.take 255, publickey := pkey } :: store)

/-- The `while` loop over the lines. -/
def parse_userfile_lines (x : userfile_ext) :
    List (List Char) → List user_store → Except String (List user_store)
  | [], store => Except.ok store
  | buff :: lines, store =>
    match parse_userfile_line x store buff with
    | Except.error e => Except.error e
    | Except.ok store1 => parse_userfile_lines x lines store1

/-- The function `parse_userfile_and_generate_user_store_or_die`, called with the
empty store of the program start; `file` is `none` when the client file cannot be
opened. -/
def parse_userfile_and_generate_user_store_or_die (x : userfile_ext)
    (file : Option (List (List Char))) : Except String (List user_store) :=
  match file with
  | none => Except.error "Cannot open client file!"
  | some lines =>
    match parse_userfile_lines x lines [] with
    | Except.error e => Except.error e
    | Except.ok store =>
      if store = [] then Except.error "No registered clients found!" else Except.ok store

/-- The entry a line stands for: its user name and its key. -/
def userfile_line_entry (x : userfile_ext) (buff : List Char) : Option user_store :=
  match userfile_line_fields x buff with
  | Except.error _ => none
  | Except.ok (username, pkey, _) => some { username := username.take 255, publickey := pkey }

/-- The lines of a client file that are not skipped. -/
def userfile_kept (lines : List (List Char)) : List (List Char) :=
  lines.filter fun l => !userfile_line_skipped l

/-- An instance of the parameters of the parser: nothing to skip, the key text
without its line feeds, a key made of 32 times the length of the key text, and a
protocol set-up that never fails. -/
def userfile_sample : userfile_ext :=
  { skips := fun s => s
    strtrim_right := fun s c => s.filter fun d => decide (d ≠ c)
    curve25519_pubkey_hexparse_32 := fun key =>
      some ⟨List.replicate 32 (Fin.ofNat key.length), List.length_replicate _ _⟩
    curve25519_proto_init := fun _ => false }

/-- A client file of three lines: two users and a comment. -/
def userfile_lines_sample : List (List Char) :=
  ["alice;aa\n".toList, "# comment\n".toList, "bob;bbb\n".toList]

/-- The store of the sample file: `bob` before `alice`. -/
def user_store_sample : List user_store :=
  [{ username := "bob".toList, publickey := ⟨List.replicate 32 3, List.length_replicate _ _⟩ },
   { username := "alice".toList, publickey := ⟨List.replicate 32 2, List.length_replicate _ _⟩ }]
/-! # Properties -/

/-! ## Memory copies -/

theorem fmemcpy_length (dst : List uint8_t) (off : Nat) (src : List uint8_t) :
    (fmemcpy dst off src).length = dst.length := by
  simp only [fmemcpy, List.length_append, List.length_take, List.length_drop]
  omega

theorem fmemcpy_inside (dst : List uint8_t) (off : Nat) (src : List uint8_t)
    (hfit : off + src.length ≤ dst.length) :
    fmemcpy dst off src = dst.take off ++ src ++ dst.drop (off + src.length) := by
  have : src.take (dst.length - off) = src := List.take_of_length_le (by omega)
  simp [fmemcpy, this]

theorem fmemcpy_outside (dst : List uint8_t) (off : Nat) (src : List uint8_t)
    (hout : dst.length ≤ off) : fmemcpy dst off src = dst := by
  have h1 : dst.take off = dst := List.take_of_length_le hout
  have h2 : dst.length - off = 0 := by omega
  have h3 : dst.drop (off + src.length) = [] := List.drop_of_length_le (by omega)
  simp [fmemcpy, h1, h2, h3]

theorem fmemcpy_take_below (dst : List uint8_t) (off : Nat) (src : List uint8_t) (n : Nat)
    (hn : n ≤ off) : (fmemcpy dst off src).take n = dst.take n := by
  unfold fmemcpy
  rw [List.append_assoc, List.take_append_eq_append_take]
  simp only [List.length_take, List.take_take]
  by_cases hl : off ≤ dst.length
  · have h0 : n - min off dst.length = 0 := by omega
    simp [h0, Nat.min_eq_left hn]
  · have hl2 : dst.length < off := by omega
    have h1 : dst.length - off = 0 := by omega
    have h3 : dst.drop (off + src.length) = [] := List.drop_of_length_le (by omega)
    simp [h1, h3, Nat.min_eq_left hn]

theorem size_sub_of_le (a b : Nat) (hb : b ≤ a) (ha : a < 2 ^ 64) : size_sub a b = a - b := by
  unfold size_sub
  have hb2 : b % 2 ^ 64 = b := Nat.mod_eq_of_lt (by omega)
  rw [hb2]
  have : a + 2 ^ 64 - b = (a - b) + 2 ^ 64 := by omega
  rw [this, Nat.add_mod_right]
  exact Nat.mod_eq_of_lt (by omega)


/-! ## The writer -/

theorem writev_gather_append (xs ys : List iovec) :
    writev_gather (xs ++ ys) = writev_gather xs ++ writev_gather ys := by
  induction xs with
  | nil => rfl
  | cons v vs ih => simp [writev_gather, ih]

theorem writev_gather_set_take (l : List iovec) (i : Nat) (v : iovec) (hi : i < l.length) :
    writev_gather ((l.set i v).take (i + 1)) =
      writev_gather (l.take i) ++ v.iov_base.take v.iov_len := by
  induction l generalizing i with
  | nil => simp at hi
  | cons a as ih =>
    cases i with
    | zero => simp [writev_gather]
    | succ j =>
      have hj : j < as.length := by simpa using hi
      simp [writev_gather, ih j hj]

theorem fmemcpy_two (base a b : List uint8_t) (hfit : a.length + b.length ≤ base.length) :
    (fmemcpy (fmemcpy base 0 a) a.length b).take (a.length + b.length) = a ++ b := by
  rw [fmemcpy_inside _ a.length b (by rw [fmemcpy_length]; exact hfit)]
  rw [fmemcpy_inside base 0 a (by omega)]
  simp only [List.take_zero, List.nil_append, Nat.zero_add]
  rw [List.take_left' rfl]
  have e : a.length + b.length = (a ++ b).length := by simp
  rw [e, List.take_left' rfl]

/-- The image of one record in the buffer `pcap_sg_write` fills. -/
theorem sg_write_buffer (base phdr packet : List uint8_t) (hs : Nat)
    (hh : hs ≤ phdr.length) (hfit : hs + packet.length ≤ base.length) :
    (fmemcpy (fmemcpy base 0 (phdr.take hs)) (0 + hs) (packet.take packet.length)).take
      (0 + hs + packet.length) = phdr.take hs ++ packet := by
  have hl : (phdr.take hs).length = hs := by simp [List.length_take, hh]
  rw [List.take_length, Nat.zero_add]
  have key := fmemcpy_two base (phdr.take hs) packet (by rw [hl]; exact hfit)
  rw [hl] at key
  exact key

theorem pcap_sg_write_step (h : pcap_h) (type : pcap_type) (L : Nat) (fd : List uint8_t)
    (s : sg_state) (r : record) (hinv : sg_wr_inv L s)
    (hh : h.hdr_size type ≤ r.phdr.length) (hfit : h.hdr_size type + r.packet.length ≤ L) :
    sg_wr_inv L (pcap_sg_write h fd s r.phdr type r.packet r.packet.length).s ∧
    writev (pcap_sg_write h fd s r.phdr type r.packet r.packet.length).fd
        (pcap_sg_write h fd s r.phdr type r.packet r.packet.length).s.iov
        (pcap_sg_write h fd s r.phdr type r.packet r.packet.length).s.iov_slot =
      writev fd s.iov s.iov_slot ++ (r.phdr.take (h.hdr_size type) ++ r.packet) := by
  obtain ⟨hlen, hcap, hslot⟩ := hinv
  have key : ∀ slot, slot < s.iov.length →
      ((fmemcpy (fmemcpy (s.iov.getD slot default).iov_base 0 (r.phdr.take (h.hdr_size type)))
        (0 + h.hdr_size type) (r.packet.take r.packet.length)).take
        (0 + h.hdr_size type + r.packet.length) = r.phdr.take (h.hdr_size type) ++ r.packet) ∧
      (fmemcpy (fmemcpy (s.iov.getD slot default).iov_base 0 (r.phdr.take (h.hdr_size type)))
        (0 + h.hdr_size type) (r.packet.take r.packet.length)).length = L := by
    intro slot hs
    have hmem : s.iov.getD slot default ∈ s.iov := by
      rw [List.getD_eq_getElem _ _ hs]
      exact List.getElem_mem hs
    have hb := hcap _ hmem
    constructor
    · exact sg_write_buffer _ _ _ _ hh (by rw [hb]; exact hfit)
    · rw [fmemcpy_length, fmemcpy_length, hb]
  have hinv2 : ∀ slot (v : iovec), v.iov_base.length = L → slot < array_size_iov →
      sg_wr_inv L { iov := s.iov.set slot v, iov_off_rd := s.iov_off_rd, iov_slot := slot + 1 } := by
    intro slot v hv hs
    refine ⟨by simpa using hlen, ?_, by simpa using hs⟩
    intro w hw
    rcases List.mem_or_eq_of_mem_set hw with hw | hw
    · exact hcap w hw
    · rw [hw]; exact hv
  by_cases hfull : s.iov_slot = array_size_iov
  · have h0 : 0 < s.iov.length := by rw [hlen]; decide
    obtain ⟨k1, k2⟩ := key 0 h0
    simp only [pcap_sg_write, hfull, if_true]
    refine ⟨hinv2 0 _ k2 (by decide), ?_⟩
    simp only [writev]
    rw [writev_gather_set_take _ 0 _ h0]
    simp only [List.take_zero, writev_gather, List.nil_append]
    rw [k1, List.append_assoc]
  · have hlt : s.iov_slot < s.iov.length := by rw [hlen]; omega
    obtain ⟨k1, k2⟩ := key s.iov_slot hlt
    simp only [pcap_sg_write, hfull, if_false]
    refine ⟨hinv2 s.iov_slot _ k2 (by omega), ?_⟩
    simp only [writev]
    rw [writev_gather_set_take _ _ _ hlt]
    simp only []
    rw [k1, List.append_assoc]

theorem sg_write_all_pending (h : pcap_h) (type : pcap_type) (L : Nat) (recs : List record) :
    ∀ (fd : List uint8_t) (s : sg_state), sg_wr_inv L s →
      (∀ r ∈ recs, h.hdr_size type ≤ r.phdr.length ∧ h.hdr_size type + r.packet.length ≤ L) →
      writev (sg_write_all h type recs fd s).1 (sg_write_all h type recs fd s).2.iov
          (sg_write_all h type recs fd s).2.iov_slot =
        writev fd s.iov s.iov_slot ++ linear_stream h type recs := by
  induction recs with
  | nil => intro fd s _ _; simp [sg_write_all, linear_stream]
  | cons r rs ih =>
    intro fd s hinv hrec
    have hr := hrec r (List.mem_cons_self r rs)
    obtain ⟨hinv1, hpend⟩ := pcap_sg_write_step h type L fd s r hinv hr.1 hr.2
    have hrest := ih (pcap_sg_write h fd s r.phdr type r.packet r.packet.length).fd
      (pcap_sg_write h fd s r.phdr type r.packet r.packet.length).s hinv1 (fun x hx => hrec x (List.mem_cons_of_mem r hx))
    simp only [sg_write_all, linear_stream]
    rw [hrest, hpend]
    simp [List.append_assoc]

theorem sg_prepare_wr_inv (h : pcap_h) (fd : List uint8_t) (s : sg_state) (jumbo : Bool) :
    sg_wr_inv (sg_buf_len h jumbo) (pcap_sg_prepare_access h fd s pcap_mode.PCAP_MODE_WR jumbo).2.2 ∧
    (pcap_sg_prepare_access h fd s pcap_mode.PCAP_MODE_WR jumbo).2.1 = fd ∧
    (pcap_sg_prepare_access h fd s pcap_mode.PCAP_MODE_WR jumbo).2.2.iov_slot = 0 := by
  simp only [pcap_sg_prepare_access, sg_wr_inv, sg_buf_len]
  simp only [reduceCtorEq, if_false, List.length_replicate, true_and, and_true]
  refine ⟨?_, by decide⟩
  intro v hv
  rw [List.eq_of_mem_replicate hv]
  simp

/-- Starting from a pool prepared in write mode, the bytes that the calls of
`pcap_sg_write` for any sequence of records (each header together with its payload
no larger than one pool buffer) and the final `pcap_sg_fsync` hand to `writev` are the
headers and payloads in write order, without padding; the number of records is not
bounded by the pool size. -/
theorem sg_dump_eq_linear_stream (h : pcap_h) (type : pcap_type) (jumbo : Bool)
    (fd : List uint8_t) (s : sg_state) (recs : List record)
    (hrec : ∀ r ∈ recs, h.hdr_size type ≤ r.phdr.length ∧
      h.hdr_size type + r.packet.length ≤ sg_buf_len h jumbo) :
    sg_dump h type jumbo fd s recs = fd ++ linear_stream h type recs := by
  obtain ⟨hinv, hfd, hslot⟩ := sg_prepare_wr_inv h fd s jumbo
  have hp := sg_write_all_pending h type (sg_buf_len h jumbo) recs
    (pcap_sg_prepare_access h fd s pcap_mode.PCAP_MODE_WR jumbo).2.1
    (pcap_sg_prepare_access h fd s pcap_mode.PCAP_MODE_WR jumbo).2.2 hinv hrec
  simp only [sg_dump, pcap_sg_fsync]
  rw [hp, hfd, hslot]
  simp [writev, writev_gather]


/-- A write that finds the pool full: all 1024 buffers go to `writev`, the record
is stored in slot 0 and the slot index becomes 1. -/
theorem pcap_sg_write_full_pool (h : pcap_h) (type : pcap_type) (fd : List uint8_t)
    (s : sg_state) (r : record) (hfull : s.iov_slot = array_size_iov) :
    (pcap_sg_write h fd s r.phdr type r.packet r.packet.length).fd =
        writev fd s.iov array_size_iov ∧
      (pcap_sg_write h fd s r.phdr type r.packet r.packet.length).s.iov_slot = 1 := by
  simp only [pcap_sg_write, hfull, if_true, and_self]

/-! ## The reader -/

theorem fmemcpy_drop_above (dst : List uint8_t) (off : Nat) (src : List uint8_t) (n : Nat)
    (hn : off + src.length ≤ n) : (fmemcpy dst off src).drop n = dst.drop n := by
  apply List.ext_getElem?
  intro i
  by_cases hd : dst.length ≤ off
  · rw [fmemcpy_outside dst off src hd]
  · have hd2 : off < dst.length := by omega
    unfold fmemcpy
    rw [List.getElem?_drop, List.getElem?_drop, List.append_assoc]
    rw [List.getElem?_append_right (by simp [List.length_take]; omega)]
    rw [List.getElem?_append_right (by simp [List.length_take]; omega)]
    rw [List.getElem?_drop]
    simp only [List.length_take]
    by_cases hi : n + i < dst.length
    · congr 1
      omega
    · rw [List.getElem?_eq_none (by omega), List.getElem?_eq_none (by omega)]

theorem iovec_bytes_length (v : iovec) (off n : Nat) (hfit : off + n ≤ v.iov_base.length) :
    (v.bytes off n).length = n := by
  simp only [iovec.bytes, List.length_take, List.length_drop]
  omega

theorem iovec_bytes_length_le (v : iovec) (off n : Nat) : (v.bytes off n).length ≤ n := by
  simp only [iovec.bytes, List.length_take]
  omega

theorem straddle_remainder (n offset : Nat) (hlt : offset < n) :
    (if (n : Int) - offset < 0 then (0 : Int) else (n : Int) - offset) = ((n - offset : Nat) : Int) := by
  have : ¬ ((n : Int) - offset < 0) := by omega
  rw [if_neg this]
  omega

/-- What `__pcap_sg_inter_iov_hdr_read` does to the header when `k` bytes, with
`0 < k < hdr_size`, are left in the current buffer: the first `k` bytes of the
header are the `k` bytes of the buffer, the bytes from offset `k` on are the ones
the object held before the call. -/
theorem hdr_read_straddle_header (h : pcap_h) (fd : List uint8_t) (s : sg_state)
    (phdr : List uint8_t) (type : pcap_type) (packet : List uint8_t) (k : Nat)
    (hcur : (s.iov_at s.iov_slot).iov_len < 2 ^ 64)
    (hk : s.iov_off_rd + k = (s.iov_at s.iov_slot).iov_len)
    (hbuf : (s.iov_at s.iov_slot).iov_len ≤ (s.iov_at s.iov_slot).iov_base.length)
    (hk0 : 0 < k) (hk1 : k < h.hdr_size type) (hobj : h.hdr_size type ≤ phdr.length) :
    ∃ r, __pcap_sg_inter_iov_hdr_read h fd s phdr type packet (h.hdr_size type) = some r ∧
      r.phdr.take (h.hdr_size type) =
        (s.iov_at s.iov_slot).bytes s.iov_off_rd k ++ (phdr.take (h.hdr_size type)).drop k ∧
      (s.iov_slot + 1 ≠ array_size_iov →
        r.ret = (h.hdr_size type : Int) ∧ r.s.iov_slot = s.iov_slot + 1 ∧
          r.s.iov_off_rd = h.hdr_size type - k) := by
  have hoff : size_sub (s.iov_at s.iov_slot).iov_len s.iov_off_rd = k := by
    rw [size_sub_of_le _ _ (by omega) hcur]; omega
  have hrem := straddle_remainder (h.hdr_size type) k hk1
  have hbl : ((s.iov_at s.iov_slot).bytes s.iov_off_rd k).length = k :=
    iovec_bytes_length _ _ _ (by omega)
  have hscale : h.hdr_size type ≤ k * h.hdr_size type := Nat.le_mul_of_pos_left _ hk0
  have hfirst : (fmemcpy phdr 0 ((s.iov_at s.iov_slot).bytes s.iov_off_rd k)).take (h.hdr_size type) =
      (s.iov_at s.iov_slot).bytes s.iov_off_rd k ++ (phdr.take (h.hdr_size type)).drop k := by
    rw [fmemcpy_inside _ _ _ (by rw [hbl]; omega)]
    simp only [List.take_zero, List.nil_append, Nat.zero_add, hbl]
    rw [List.take_append_eq_append_take, hbl, List.take_of_length_le (by rw [hbl]; omega)]
    rw [List.drop_take]
  unfold __pcap_sg_inter_iov_hdr_read
  simp only [hoff, hrem]
  have hsum : ¬ ((k : Int) + ((h.hdr_size type - k : Nat) : Int) ≠ (h.hdr_size type : Int)) := by
    omega
  rw [if_neg hsum]
  by_cases hw : s.iov_slot + 1 = array_size_iov
  · split
    · exact ⟨_, rfl, hfirst, fun hn => absurd hw hn⟩
    · refine ⟨_, rfl, ?_, fun hn => absurd hw hn⟩
      simp only []
      rw [fmemcpy_take_below _ _ _ _ hscale]
      exact hfirst
  · simp only [hw, decide_False, Bool.false_and, Bool.false_eq_true, if_false, Int.toNat_ofNat,
      Nat.zero_add]
    refine ⟨_, rfl, ?_, fun _ => ⟨rfl, rfl, rfl⟩⟩
    simp only []
    rw [fmemcpy_take_below _ _ _ _ hscale]
    exact hfirst

theorem sample_buf_length : sample_buf.length = 12288 := by
  simp only [sample_buf, sample_hdr, List.length_append, List.length_replicate, List.length_cons,
    List.length_nil]

theorem sample_pool_at_0 (slot off : Nat) :
    (sample_pool slot off).iov_at 0 = { iov_base := sample_buf, iov_len := 12288 } :=
  rfl

theorem sample_pool_at_1 (slot off : Nat) :
    (sample_pool slot off).iov_at 1 = { iov_base := sample_buf, iov_len := 12288 } :=
  rfl

set_option maxRecDepth 8192 in
theorem sample_pool_at_1023 (slot off : Nat) :
    (sample_pool slot off).iov_at 1023 = { iov_base := sample_buf, iov_len := 12288 } :=
  rfl

theorem sample_buf_tail :
    ({ iov_base := sample_buf, iov_len := 12288 } : iovec).bytes 12280 8 =
      [1, 1, 1, 1, 1, 1, 1, 1] := by
  simp only [iovec.bytes, sample_buf]
  rw [List.drop_left' (by simp only [sample_hdr, List.length_append, List.length_replicate,
    List.length_cons, List.length_nil])]
  rfl

theorem sample_buf_head :
    ({ iov_base := sample_buf, iov_len := 12288 } : iovec).bytes 0 8 =
      [3, 3, 3, 3, 3, 3, 3, 3] := by
  simp only [iovec.bytes, sample_buf, List.drop_zero, List.append_assoc]
  rfl

theorem sample_buf_hdr :
    ({ iov_base := sample_buf, iov_len := 12288 } : iovec).bytes 12264 16 = sample_hdr := by
  simp only [iovec.bytes, sample_buf, List.append_assoc]
  rw [← List.append_assoc, List.drop_left' (by simp only [List.length_append,
    List.length_replicate, List.length_cons, List.length_nil])]
  rfl

theorem readv_head (fd : List uint8_t) (v : iovec) (vs : List iovec)
    (hlen : (v :: vs).length = array_size_iov) :
    (readv fd (v :: vs) array_size_iov).2.2.getD 0 default =
      { v with iov_base := fd.take v.iov_len ++ v.iov_base.drop (fd.take v.iov_len).length } ∧
    (readv fd (v :: vs) array_size_iov).1 = ((min fd.length (iov_total (v :: vs)) : Nat) : Int) := by
  have ht : (v :: vs).take array_size_iov = v :: vs := List.take_of_length_le (by omega)
  simp only [readv, ht]
  exact ⟨by simp [readv_fill], trivial⟩

theorem readv_length (fd : List uint8_t) (iov : List iovec) (cnt : Nat) :
    (readv fd iov cnt).2.2.length = iov.length := by
  have hfill : ∀ (l : List iovec) (d : List uint8_t), (readv_fill l d).length = l.length := by
    intro l
    induction l with
    | nil => intro d; rfl
    | cons a as ih => intro d; simp [readv_fill, ih]
  simp only [readv, List.length_append, hfill, List.length_take, List.length_drop]
  omega

/-- A payload of `c` bytes, `1 ≤ c ≤ len`, of which only `k < c` are left in the
current buffer and whose rest fits one buffer: `pcap_sg_read`, behind the header,
returns `hdr_size + c`, puts into `packet[0..c)` the `k` bytes of the current buffer
followed by the first `c - k` bytes of the next buffer (of the refilled buffer 0 when
the slot index wrapped), and leaves the cursor in slot `slot + 1` modulo the pool size
at offset `c - k`. -/
theorem pcap_sg_read_data_straddle (h : pcap_h) (fd : List uint8_t) (s : sg_state)
    (phdr : List uint8_t) (type : pcap_type) (packet : List uint8_t) (len c k : Nat)
    (hpool : s.iov.length = array_size_iov) (hslot : s.iov_slot < array_size_iov)
    (hc : h.pcap_get_length phdr type = c) (hc1 : 1 ≤ c) (hc2 : c ≤ len)
    (hpk : len ≤ packet.length)
    (hcur : (s.iov_at s.iov_slot).iov_len < 2 ^ 64)
    (hk : s.iov_off_rd + k = (s.iov_at s.iov_slot).iov_len)
    (hbuf : (s.iov_at s.iov_slot).iov_len ≤ (s.iov_at s.iov_slot).iov_base.length)
    (hkc : k < c)
    (hnext : if s.iov_slot + 1 = array_size_iov then
        c - k ≤ fd.length ∧ c - k ≤ (s.iov_at 0).iov_len
      else c - k ≤ (s.iov_at (s.iov_slot + 1)).iov_len ∧
        (s.iov_at (s.iov_slot + 1)).iov_len ≤ (s.iov_at (s.iov_slot + 1)).iov_base.length) :
    ∃ r, pcap_sg_read_data h fd s phdr type packet len = some r ∧
      r.ret = (h.hdr_size type : Int) + c ∧
      r.packet.take c = (s.iov_at s.iov_slot).bytes s.iov_off_rd k ++
        (if s.iov_slot + 1 = array_size_iov then fd.take (c - k)
         else (s.iov_at (s.iov_slot + 1)).bytes 0 (c - k)) ∧
      r.s.iov_slot = (s.iov_slot + 1) % array_size_iov ∧ r.s.iov_off_rd = c - k := by
  have hoff : size_sub (s.iov_at s.iov_slot).iov_len s.iov_off_rd = k := by
    rw [size_sub_of_le _ _ (by omega) hcur]; omega
  have hrem := straddle_remainder c k hkc
  have hbl : ((s.iov_at s.iov_slot).bytes s.iov_off_rd k).length = k :=
    iovec_bytes_length _ _ _ (by omega)
  have hsum : ¬ ((k : Int) + ((c - k : Nat) : Int) ≠ (c : Int)) := by omega
  have hnm : ¬ (c = 0 ∨ c > len) := by omega
  have hnf : ¬ (k ≥ c) := by omega
  have hneg : ¬ ((h.hdr_size type : Int) + (c : Int) < 0) := by omega
  have hcneg : ¬ ((c : Int) < 0) := by omega
  have two : ∀ b : List uint8_t, b.length = c - k →
      (fmemcpy (fmemcpy packet 0 ((s.iov_at s.iov_slot).bytes s.iov_off_rd k)) k b).take c =
        (s.iov_at s.iov_slot).bytes s.iov_off_rd k ++ b := by
    intro b hb
    have key := fmemcpy_two packet ((s.iov_at s.iov_slot).bytes s.iov_off_rd k) b
      (by rw [hbl, hb]; omega)
    rw [hbl, hb] at key
    have e : k + (c - k) = c := by omega
    rw [e] at key
    exact key
  unfold pcap_sg_read_data
  simp only [hc, hoff, if_neg hnm, if_neg hnf]
  unfold __pcap_sg_inter_iov_data_read
  simp only [hoff, hrem, if_neg hsum, Int.toNat_ofNat, Nat.zero_add]
  by_cases hw : s.iov_slot + 1 = array_size_iov
  · rw [if_pos hw] at hnext
    obtain ⟨hfd, hl0⟩ := hnext
    obtain ⟨v, vs, hvs⟩ : ∃ v vs, s.iov = v :: vs := by
      cases hs : s.iov with
      | nil => rw [hs] at hpool; exact absurd hpool (by decide)
      | cons v vs => exact ⟨v, vs, rfl⟩
    have hv0 : s.iov_at 0 = v := by simp [sg_state.iov_at, hvs]
    rw [hv0] at hl0
    obtain ⟨hhead, hret⟩ := readv_head fd v vs (by rw [← hvs]; exact hpool)
    rw [← hvs] at hhead hret
    have htot : v.iov_len ≤ iov_total s.iov := by rw [hvs]; simp [iov_total]
    have hpos : ¬ ((readv fd s.iov array_size_iov).1 ≤ 0) := by
      rw [hret]
      have : 0 < min fd.length (iov_total s.iov) := by
        rw [Nat.lt_min]; omega
      omega
    have hbytes : ((readv fd s.iov array_size_iov).2.2.getD 0 default).bytes 0 (c - k) =
        fd.take (c - k) := by
      rw [hhead]
      simp only [iovec.bytes, List.drop_zero]
      rw [List.take_append_of_le_length (by simp [List.length_take]; omega)]
      rw [List.take_take, Nat.min_eq_left hl0]
    simp only [hw, decide_True, Bool.true_and, if_true, decide_eq_true_eq, if_neg hpos, hcneg,
      if_false, hbytes]
    refine ⟨_, rfl, rfl, ?_, ?_, rfl⟩
    · exact two _ (by simp [List.length_take]; omega)
    · simp [array_size_iov]
  · rw [if_neg hw] at hnext
    obtain ⟨hl1, hb1⟩ := hnext
    simp only [hw, decide_False, Bool.false_and, Bool.false_eq_true, if_false, hcneg]
    refine ⟨_, rfl, rfl, ?_, ?_, rfl⟩
    · exact two _ (iovec_bytes_length (s.iov_at (s.iov_slot + 1)) _ _ (by omega))
    · show s.iov_slot + 1 = (s.iov_slot + 1) % array_size_iov
      rw [Nat.mod_eq_of_lt (by omega)]


theorem pcap_sg_read_hdr_fast (h : pcap_h) (fd : List uint8_t) (s : sg_state)
    (phdr : List uint8_t) (type : pcap_type) (packet : List uint8_t)
    (hfit : h.hdr_size type ≤ size_sub (s.iov_at s.iov_slot).iov_len s.iov_off_rd) :
    pcap_sg_read_hdr h fd s phdr type packet =
      some { ret := 0, fd := fd, s := { s with iov_off_rd := s.iov_off_rd + h.hdr_size type },
             phdr := fmemcpy phdr 0 ((s.iov_at s.iov_slot).bytes s.iov_off_rd (h.hdr_size type)),
             packet := packet } := by
  unfold pcap_sg_read_hdr
  simp only [ge_iff_le, hfit, if_true]

theorem pcap_sg_read_hdr_packet (h : pcap_h) (fd : List uint8_t) (s : sg_state)
    (phdr : List uint8_t) (type : pcap_type) (packet : List uint8_t) (r0 : rd_out)
    (hhdr : pcap_sg_read_hdr h fd s phdr type packet = some r0) : r0.packet = packet := by
  unfold pcap_sg_read_hdr __pcap_sg_inter_iov_hdr_read at hhdr
  simp only [] at hhdr
  split_ifs at hhdr <;> (simp only [Option.some.injEq] at hhdr; rw [← hhdr])

theorem pcap_sg_read_of_hdr (h : pcap_h) (fd : List uint8_t) (s : sg_state)
    (phdr : List uint8_t) (type : pcap_type) (packet : List uint8_t) (len : Nat) (r0 : rd_out)
    (hhdr : pcap_sg_read_hdr h fd s phdr type packet = some r0) (hok : ¬ r0.ret < 0) :
    pcap_sg_read h fd s phdr type packet len =
      pcap_sg_read_data h r0.fd r0.s r0.phdr type r0.packet len := by
  unfold pcap_sg_read
  simp only [hhdr, if_neg hok]

theorem pcap_sg_read_data_malformed (h : pcap_h) (fd : List uint8_t) (s : sg_state)
    (phdr : List uint8_t) (type : pcap_type) (packet : List uint8_t) (len : Nat)
    (hbad : h.pcap_get_length phdr type = 0 ∨ h.pcap_get_length phdr type > len) :
    pcap_sg_read_data h fd s phdr type packet len =
      some { ret := - EINVAL, fd := fd, s := s, phdr := phdr, packet := packet } := by
  unfold pcap_sg_read_data
  simp only [hbad, if_true]

theorem pcap_sg_read_data_fast (h : pcap_h) (fd : List uint8_t) (s : sg_state)
    (phdr : List uint8_t) (type : pcap_type) (packet : List uint8_t) (len : Nat)
    (hgood : ¬ (h.pcap_get_length phdr type = 0 ∨ h.pcap_get_length phdr type > len))
    (hfit : h.pcap_get_length phdr type ≤ size_sub (s.iov_at s.iov_slot).iov_len s.iov_off_rd) :
    pcap_sg_read_data h fd s phdr type packet len =
      some { ret := (h.hdr_size type : Int) + h.pcap_get_length phdr type, fd := fd,
             s := { s with iov_off_rd := s.iov_off_rd + h.pcap_get_length phdr type },
             phdr := phdr,
             packet := fmemcpy packet 0
               ((s.iov_at s.iov_slot).bytes s.iov_off_rd (h.pcap_get_length phdr type)) } := by
  unfold pcap_sg_read_data
  simp only [hgood, if_false, ge_iff_le, hfit, if_true]

theorem pcap_sg_read_data_wellformed (h : pcap_h) (fd : List uint8_t) (s : sg_state)
    (phdr : List uint8_t) (type : pcap_type) (packet : List uint8_t) (len : Nat)
    (hgood : ¬ (h.pcap_get_length phdr type = 0 ∨ h.pcap_get_length phdr type > len)) :
    ∃ r, pcap_sg_read_data h fd s phdr type packet len = some r ∧
      (sg_refill_fails fd s (h.pcap_get_length phdr type) → r.ret = - EIO) ∧
      (¬ sg_refill_fails fd s (h.pcap_get_length phdr type) →
        r.ret = (h.hdr_size type : Int) + h.pcap_get_length phdr type) := by
  by_cases hfit : h.pcap_get_length phdr type ≤ size_sub (s.iov_at s.iov_slot).iov_len s.iov_off_rd
  · refine ⟨_, pcap_sg_read_data_fast h fd s phdr type packet len hgood hfit, ?_, fun _ => rfl⟩
    intro hf
    exact absurd hf.1 (by omega)
  · have hlt : size_sub (s.iov_at s.iov_slot).iov_len s.iov_off_rd < h.pcap_get_length phdr type := by
      omega
    have hrem := straddle_remainder _ _ hlt
    have hsum : ¬ ((size_sub (s.iov_at s.iov_slot).iov_len s.iov_off_rd : Int) +
        ((h.pcap_get_length phdr type - size_sub (s.iov_at s.iov_slot).iov_len s.iov_off_rd : Nat) : Int)
        ≠ (h.pcap_get_length phdr type : Int)) := by omega
    have hcneg : ¬ ((h.pcap_get_length phdr type : Int) < 0) := by omega
    have heio : (- EIO : Int) < 0 := by decide
    unfold pcap_sg_read_data
    simp only [hgood, if_false, ge_iff_le, hfit]
    unfold __pcap_sg_inter_iov_data_read
    simp only [hrem, if_neg hsum]
    by_cases hw : s.iov_slot + 1 = array_size_iov
    · by_cases hr : (readv fd s.iov array_size_iov).1 ≤ 0
      · simp only [hw, decide_True, Bool.true_and, hr, if_true, heio]
        exact ⟨_, rfl, fun _ => rfl, fun hn => absurd ⟨hlt, hw, hr⟩ hn⟩
      · simp only [hw, decide_True, Bool.true_and, hr, decide_False, Bool.false_eq_true, if_false,
          if_true, hcneg]
        exact ⟨_, rfl, fun hf => absurd hf.2.2 hr, fun _ => rfl⟩
    · simp only [hw, decide_False, Bool.false_and, Bool.false_eq_true, if_false, hcneg]
      exact ⟨_, rfl, fun hf => absurd hf.2.1 hw, fun _ => rfl⟩


theorem hdr_read_phdr_length (h : pcap_h) (fd : List uint8_t) (s : sg_state)
    (phdr : List uint8_t) (type : pcap_type) (packet : List uint8_t) (hdrsize : Nat) (r : rd_out)
    (hr : __pcap_sg_inter_iov_hdr_read h fd s phdr type packet hdrsize = some r) :
    r.phdr.length = phdr.length := by
  unfold __pcap_sg_inter_iov_hdr_read at hr
  simp only [] at hr
  split_ifs at hr <;>
    (simp only [Option.some.injEq] at hr; rw [← hr]; simp only [fmemcpy_length])

theorem data_read_phdr (fd : List uint8_t) (s : sg_state) (phdr packet : List uint8_t)
    (hdrlen : Nat) (r : rd_out)
    (hr : __pcap_sg_inter_iov_data_read fd s phdr packet hdrlen = some r) : r.phdr = phdr := by
  unfold __pcap_sg_inter_iov_data_read at hr
  simp only [] at hr
  split_ifs at hr <;> (simp only [Option.some.injEq] at hr; rw [← hr])

theorem pcap_sg_read_data_phdr (h : pcap_h) (fd : List uint8_t) (s : sg_state)
    (phdr : List uint8_t) (type : pcap_type) (packet : List uint8_t) (len : Nat) (r : rd_out)
    (hr : pcap_sg_read_data h fd s phdr type packet len = some r) : r.phdr = phdr := by
  unfold pcap_sg_read_data at hr
  simp only [] at hr
  split_ifs at hr
  · simp only [Option.some.injEq] at hr; rw [← hr]
  · simp only [Option.some.injEq] at hr; rw [← hr]
  · cases hd : __pcap_sg_inter_iov_data_read fd s phdr packet (h.pcap_get_length phdr type) with
    | none => rw [hd] at hr; exact Option.noConfusion hr
    | some r1 =>
      rw [hd] at hr
      have hp := data_read_phdr fd s phdr packet _ r1 hd
      simp only [] at hr
      split_ifs at hr <;> (simp only [Option.some.injEq] at hr; rw [← hr]; exact hp)

/-- The header straddle with nothing left in the current buffer (`k = 0`), the next
buffer being in the pool: the header is the first `hdr_size` bytes of the next
buffer. -/
theorem hdr_read_straddle_at_boundary (h : pcap_h) (fd : List uint8_t) (s : sg_state)
    (phdr : List uint8_t) (type : pcap_type) (packet : List uint8_t)
    (hcur : (s.iov_at s.iov_slot).iov_len < 2 ^ 64)
    (hk : s.iov_off_rd = (s.iov_at s.iov_slot).iov_len)
    (hw : s.iov_slot + 1 ≠ array_size_iov)
    (hnext : h.hdr_size type ≤ (s.iov_at (s.iov_slot + 1)).iov_base.length)
    (hpos : 0 < h.hdr_size type) (hobj : h.hdr_size type ≤ phdr.length) :
    ∃ r, __pcap_sg_inter_iov_hdr_read h fd s phdr type packet (h.hdr_size type) = some r ∧
      r.ret = (h.hdr_size type : Int) ∧
      r.phdr.take (h.hdr_size type) = (s.iov_at (s.iov_slot + 1)).bytes 0 (h.hdr_size type) := by
  have hoff : size_sub (s.iov_at s.iov_slot).iov_len s.iov_off_rd = 0 := by
    rw [size_sub_of_le _ _ (by omega) hcur]; omega
  have hrem := straddle_remainder (h.hdr_size type) 0 hpos
  have hsum : ¬ (((0 : Nat) : Int) + ((h.hdr_size type - 0 : Nat) : Int) ≠ (h.hdr_size type : Int)) := by
    omega
  have hb : ((s.iov_at (s.iov_slot + 1)).bytes 0 (h.hdr_size type)).length = h.hdr_size type :=
    iovec_bytes_length _ _ _ (by omega)
  have h0 : (s.iov_at s.iov_slot).bytes s.iov_off_rd 0 = [] := by simp [iovec.bytes]
  unfold __pcap_sg_inter_iov_hdr_read
  have hsum2 : ¬ (((0 : Nat) : Int) + (h.hdr_size type : Int) ≠ (h.hdr_size type : Int)) := by
    omega
  simp only [hoff, hrem, if_neg hsum, hw, decide_False, Bool.false_and, Bool.false_eq_true,
    if_false, Int.toNat_ofNat, Nat.zero_add, Nat.zero_mul, Nat.sub_zero, h0]
  rw [if_neg hsum2]
  refine ⟨_, rfl, rfl, ?_⟩
  show (fmemcpy (fmemcpy phdr 0 []) 0 ((s.iov_at (s.iov_slot + 1)).bytes 0 (h.hdr_size type))).take
    (h.hdr_size type) = _
  have hnil : fmemcpy phdr 0 [] = phdr := by simp [fmemcpy]
  rw [hnil, fmemcpy_inside _ _ _ (by rw [hb]; omega)]
  simp only [List.take_zero, List.nil_append]
  rw [List.take_left' hb]

/-! ## Claims on the scatter/gather back end -/

theorem sample_size_sub_8 : size_sub 12288 12280 = 8 := by decide

theorem sample_size_sub_24 : size_sub 12288 12264 = 24 := by decide

/-- C2. The header straddle at a concrete pool: buffer 0 holds the last eight bytes
[1, ..] before its end, buffer 1 starts with [3, ..], so the next 16 bytes of the
stream are eight 1 followed by eight 3; the header step of `pcap_sg_read` goes
through `__pcap_sg_inter_iov_hdr_read`, which returns the header size without error
with the cursor at offset 8 of buffer 1, and the header holds eight 1 followed by
the eight bytes (here 0) the caller's object held before: the second half of the
header was not stored at its offset. (The captured length that `pcap_sg_read` then
takes from this header is the old content, here 0, on which it returns
`-EINVAL`.) -/
theorem pcap_sg_hdr_straddle_misplaces_remainder :
    ((sample_pool 0 12280).iov_at 0).bytes 12280 8 ++ ((sample_pool 0 12280).iov_at 1).bytes 0 8 =
      [1, 1, 1, 1, 1, 1, 1, 1, 3, 3, 3, 3, 3, 3, 3, 3] ∧
    ∃ r, pcap_sg_read_hdr pcap_h_host [] (sample_pool 0 12280) (List.replicate 16 0)
        pcap_type.DEFAULT [] = some r ∧
      r.ret = 16 ∧ r.s.iov_slot = 1 ∧ r.s.iov_off_rd = 8 ∧
      r.phdr.take 16 = [1, 1, 1, 1, 1, 1, 1, 1, 0, 0, 0, 0, 0, 0, 0, 0] := by
  constructor
  · rw [sample_pool_at_0, sample_pool_at_1, sample_buf_tail, sample_buf_head]
    rfl
  · have hlen : (sample_pool 0 12280).iov_slot = 0 := rfl
    have hnofit : ¬ (size_sub ((sample_pool 0 12280).iov_at (sample_pool 0 12280).iov_slot).iov_len
        (sample_pool 0 12280).iov_off_rd ≥ pcap_h_host.hdr_size pcap_type.DEFAULT) := by
      rw [hlen, sample_pool_at_0]
      show ¬ (size_sub 12288 12280 ≥ 16)
      rw [sample_size_sub_8]
      decide
    obtain ⟨r, hr, hp, hcur⟩ := hdr_read_straddle_header pcap_h_host [] (sample_pool 0 12280)
      (List.replicate 16 0) pcap_type.DEFAULT [] 8
      (by rw [hlen, sample_pool_at_0]; decide) (by rw [hlen, sample_pool_at_0]; rfl)
      (by rw [hlen, sample_pool_at_0]; rw [sample_buf_length]) (by decide) (by decide)
      (by decide)
    obtain ⟨hret, hs1, ho1⟩ := hcur (by rw [hlen]; decide)
    refine ⟨r, ?_, hret, hs1, ho1, ?_⟩
    · unfold pcap_sg_read_hdr
      simp only [if_neg hnofit]
      exact hr
    · rw [hlen, sample_pool_at_0] at hp
      have h16 : pcap_h_host.hdr_size pcap_type.DEFAULT = 16 := rfl
      rw [h16] at hp
      rw [hp]
      have hoff : (sample_pool 0 12280).iov_off_rd = 12280 := rfl
      rw [hoff, sample_buf_tail]
      rfl

/-- C3. Once the header is read without error, a payload of `c` bytes, `1 ≤ c ≤ len`,
of which only `k < c` are left in the current buffer and whose rest fits one buffer:
`pcap_sg_read` returns `hdr_size + c`, puts into `packet[0..c)` the `k` bytes of the
current buffer followed by the first `c - k` bytes of the next buffer (of buffer 0 as
`readv` refilled it when the slot index wrapped), and leaves the cursor in slot
`slot + 1` modulo the pool size at offset `c - k`. -/
theorem pcap_sg_read_payload_straddle (h : pcap_h) (fd : List uint8_t) (s : sg_state)
    (phdr : List uint8_t) (type : pcap_type) (packet : List uint8_t) (len c k : Nat)
    (r0 : rd_out)
    (hhdr : pcap_sg_read_hdr h fd s phdr type packet = some r0) (hok : ¬ r0.ret < 0)
    (hpool : r0.s.iov.length = array_size_iov) (hslot : r0.s.iov_slot < array_size_iov)
    (hc : h.pcap_get_length r0.phdr type = c) (hc1 : 1 ≤ c) (hc2 : c ≤ len)
    (hpk : len ≤ packet.length)
    (hcur : (r0.s.iov_at r0.s.iov_slot).iov_len < 2 ^ 64)
    (hk : r0.s.iov_off_rd + k = (r0.s.iov_at r0.s.iov_slot).iov_len)
    (hbuf : (r0.s.iov_at r0.s.iov_slot).iov_len ≤ (r0.s.iov_at r0.s.iov_slot).iov_base.length)
    (hkc : k < c)
    (hnext : if r0.s.iov_slot + 1 = array_size_iov then
        c - k ≤ r0.fd.length ∧ c - k ≤ (r0.s.iov_at 0).iov_len
      else c - k ≤ (r0.s.iov_at (r0.s.iov_slot + 1)).iov_len ∧
        (r0.s.iov_at (r0.s.iov_slot + 1)).iov_len ≤
          (r0.s.iov_at (r0.s.iov_slot + 1)).iov_base.length) :
    ∃ r, pcap_sg_read h fd s phdr type packet len = some r ∧
      r.ret = (h.hdr_size type : Int) + c ∧
      r.packet.take c = (r0.s.iov_at r0.s.iov_slot).bytes r0.s.iov_off_rd k ++
        (if r0.s.iov_slot + 1 = array_size_iov then r0.fd.take (c - k)
         else (r0.s.iov_at (r0.s.iov_slot + 1)).bytes 0 (c - k)) ∧
      r.s.iov_slot = (r0.s.iov_slot + 1) % array_size_iov ∧ r.s.iov_off_rd = c - k := by
  rw [pcap_sg_read_of_hdr h fd s phdr type packet len r0 hhdr hok]
  have hp : r0.packet = packet := pcap_sg_read_hdr_packet h fd s phdr type packet r0 hhdr
  exact pcap_sg_read_data_straddle h r0.fd r0.s r0.phdr type r0.packet len c k hpool hslot hc hc1
    hc2 (by rw [hp]; exact hpk) hcur hk hbuf hkc hnext

/-- The state of the sample pool behind the header at offset 12264 of buffer `slot`. -/
theorem sample_pool_hdr_read (slot : Nat) (fd packet : List uint8_t)
    (hat : (sample_pool slot 12264).iov_at slot = { iov_base := sample_buf, iov_len := 12288 }) :
    pcap_sg_read_hdr pcap_h_host fd (sample_pool slot 12264) (List.replicate 16 0)
        pcap_type.DEFAULT packet =
      some { ret := 0, fd := fd, s := sample_pool slot 12280, phdr := sample_hdr,
             packet := packet } := by
  have hslot : (sample_pool slot 12264).iov_slot = slot := rfl
  have hoff : (sample_pool slot 12264).iov_off_rd = 12264 := rfl
  have h16 : pcap_h_host.hdr_size pcap_type.DEFAULT = 16 := rfl
  rw [pcap_sg_read_hdr_fast pcap_h_host fd (sample_pool slot 12264) (List.replicate 16 0)
    pcap_type.DEFAULT packet (by rw [hslot, hat, hoff, h16]; show 16 ≤ size_sub 12288 12264;
                                 rw [sample_size_sub_24]; decide)]
  rw [hslot, hat, hoff, h16, sample_buf_hdr]
  rfl

/-- A witness of C3: the sample pool with the header at offset 12264 of buffer 0 and
a payload of 16 bytes, of which 8 are left in buffer 0. -/
theorem pcap_sg_read_payload_straddle_witness :
    ∃ r, pcap_sg_read pcap_h_host [] (sample_pool 0 12264) (List.replicate 16 0)
        pcap_type.DEFAULT (List.replicate 2048 0) 2048 = some r ∧
      r.ret = 32 ∧
      r.packet.take 16 = [1, 1, 1, 1, 1, 1, 1, 1, 3, 3, 3, 3, 3, 3, 3, 3] ∧
      r.s.iov_slot = 1 ∧ r.s.iov_off_rd = 8 := by
  have hh := sample_pool_hdr_read 0 [] (List.replicate 2048 0) (sample_pool_at_0 0 12264)
  obtain ⟨r, hr, hret, hpk, hs1, ho1⟩ := pcap_sg_read_payload_straddle pcap_h_host []
    (sample_pool 0 12264) (List.replicate 16 0) pcap_type.DEFAULT (List.replicate 2048 0) 2048 16 8
    _ hh (by decide) (List.length_replicate _ _) (by decide) rfl (by decide)
    (by decide) (by rw [List.length_replicate])
    (by show ((sample_pool 0 12280).iov_at 0).iov_len < 2 ^ 64
        rw [sample_pool_at_0]; decide)
    (by show 12280 + 8 = ((sample_pool 0 12280).iov_at 0).iov_len
        rw [sample_pool_at_0])
    (by show ((sample_pool 0 12280).iov_at 0).iov_len ≤ ((sample_pool 0 12280).iov_at 0).iov_base.length
        rw [sample_pool_at_0, sample_buf_length])
    (by decide)
    (by show (if 0 + 1 = array_size_iov then _ else
            16 - 8 ≤ ((sample_pool 0 12280).iov_at (0 + 1)).iov_len ∧
            ((sample_pool 0 12280).iov_at (0 + 1)).iov_len ≤
              ((sample_pool 0 12280).iov_at (0 + 1)).iov_base.length)
        rw [if_neg (by decide)]
        rw [sample_pool_at_1, sample_buf_length]
        decide)
  refine ⟨r, hr, hret, ?_, hs1, ho1⟩
  rw [hpk]
  show ((sample_pool 0 12280).iov_at 0).bytes 12280 8 ++
    (if 0 + 1 = array_size_iov then _ else ((sample_pool 0 12280).iov_at (0 + 1)).bytes 0 (16 - 8)) = _
  rw [if_neg (by decide), sample_pool_at_0, sample_pool_at_1, sample_buf_tail, sample_buf_head]
  rfl

/-- C5 (amended). Once the header is read without error, with `c` the captured length
decoded from it: `pcap_sg_read` returns `-EINVAL` exactly when `c = 0` or `c > len`,
and then the caller's packet buffer is untouched; otherwise it returns
`hdr_size + c`, except that it returns `-EIO` when the payload does not fit the rest
of the last buffer of the pool and the refilling `readv` delivers no byte. -/
theorem pcap_sg_read_einval_iff (h : pcap_h) (fd : List uint8_t) (s : sg_state)
    (phdr : List uint8_t) (type : pcap_type) (packet : List uint8_t) (len : Nat) (r0 : rd_out)
    (hhdr : pcap_sg_read_hdr h fd s phdr type packet = some r0) (hok : ¬ r0.ret < 0) :
    ∃ r, pcap_sg_read h fd s phdr type packet len = some r ∧
      (r.ret = - EINVAL ↔
        (h.pcap_get_length r0.phdr type = 0 ∨ h.pcap_get_length r0.phdr type > len)) ∧
      ((h.pcap_get_length r0.phdr type = 0 ∨ h.pcap_get_length r0.phdr type > len) →
        r.packet = packet) ∧
      (¬ (h.pcap_get_length r0.phdr type = 0 ∨ h.pcap_get_length r0.phdr type > len) →
        (sg_refill_fails r0.fd r0.s (h.pcap_get_length r0.phdr type) → r.ret = - EIO) ∧
        (¬ sg_refill_fails r0.fd r0.s (h.pcap_get_length r0.phdr type) →
          r.ret = (h.hdr_size type : Int) + h.pcap_get_length r0.phdr type)) := by
  rw [pcap_sg_read_of_hdr h fd s phdr type packet len r0 hhdr hok]
  have hp : r0.packet = packet := pcap_sg_read_hdr_packet h fd s phdr type packet r0 hhdr
  by_cases hbad : h.pcap_get_length r0.phdr type = 0 ∨ h.pcap_get_length r0.phdr type > len
  · refine ⟨_, pcap_sg_read_data_malformed h r0.fd r0.s r0.phdr type r0.packet len hbad, ?_, ?_, ?_⟩
    · exact ⟨fun _ => hbad, fun _ => rfl⟩
    · exact fun _ => hp
    · exact fun hn => absurd hbad hn
  · obtain ⟨r, hr, hio, hgood⟩ :=
      pcap_sg_read_data_wellformed h r0.fd r0.s r0.phdr type r0.packet len hbad
    refine ⟨r, hr, ?_, fun hb => absurd hb hbad, fun _ => ⟨hio, hgood⟩⟩
    constructor
    · intro hret
      exfalso
      by_cases hf : sg_refill_fails r0.fd r0.s (h.pcap_get_length r0.phdr type)
      · have h1 := hio hf
        rw [h1] at hret
        exact absurd hret (by decide)
      · have h2 := hgood hf
        rw [h2] at hret
        have h3 : (- EINVAL : Int) = -22 := rfl
        omega
    · exact fun hb => absurd hb hbad

/-- A witness of C5: the record at offset 12264 of buffer 0 of the sample pool, read
with `len = 2048`. -/
theorem pcap_sg_read_einval_iff_witness :
    ∃ r, pcap_sg_read pcap_h_host [] (sample_pool 0 12264) (List.replicate 16 0)
        pcap_type.DEFAULT (List.replicate 2048 0) 2048 = some r ∧
      (r.ret = - EINVAL ↔ (pcap_h_host.pcap_get_length sample_hdr pcap_type.DEFAULT = 0 ∨
        pcap_h_host.pcap_get_length sample_hdr pcap_type.DEFAULT > 2048)) :=
  (pcap_sg_read_einval_iff pcap_h_host [] (sample_pool 0 12264) (List.replicate 16 0)
    pcap_type.DEFAULT (List.replicate 2048 0) 2048 _
    (sample_pool_hdr_read 0 [] (List.replicate 2048 0) (sample_pool_at_0 0 12264))
    (by decide)).imp fun _ hr => ⟨hr.1, hr.2.1⟩

theorem readv_nil (iov : List iovec) (cnt : Nat) : (readv [] iov cnt).1 = 0 := by
  simp [readv]

/-- C5, as stated, fails: in the sample pool with the cursor at the header at offset
12264 of the last buffer and an exhausted stream, the header is read without error
and carries the captured length 16, which is neither 0 nor larger than `len = 2048`,
and `pcap_sg_read` returns `-EIO`, not `hdr_size + 16`. -/
theorem pcap_sg_read_wellformed_record_eio :
    ∃ r0 r, pcap_sg_read_hdr pcap_h_host [] (sample_pool 1023 12264) (List.replicate 16 0)
        pcap_type.DEFAULT (List.replicate 2048 0) = some r0 ∧ ¬ r0.ret < 0 ∧
      pcap_h_host.pcap_get_length r0.phdr pcap_type.DEFAULT = 16 ∧
      pcap_sg_read pcap_h_host [] (sample_pool 1023 12264) (List.replicate 16 0)
        pcap_type.DEFAULT (List.replicate 2048 0) 2048 = some r ∧
      r.ret = - EIO ∧ r.ret ≠ (pcap_h_host.hdr_size pcap_type.DEFAULT : Int) + 16 := by
  have hh := sample_pool_hdr_read 1023 [] (List.replicate 2048 0) (sample_pool_at_1023 1023 12264)
  have hgood : ¬ (pcap_h_host.pcap_get_length sample_hdr pcap_type.DEFAULT = 0 ∨
      pcap_h_host.pcap_get_length sample_hdr pcap_type.DEFAULT > 2048) := by decide
  obtain ⟨r, hr, hio, _⟩ := pcap_sg_read_data_wellformed pcap_h_host [] (sample_pool 1023 12280)
    sample_hdr pcap_type.DEFAULT (List.replicate 2048 0) 2048 hgood
  have hfail : sg_refill_fails [] (sample_pool 1023 12280)
      (pcap_h_host.pcap_get_length sample_hdr pcap_type.DEFAULT) := by
    refine ⟨?_, rfl, ?_⟩
    · show size_sub ((sample_pool 1023 12280).iov_at 1023).iov_len 12280 < 16
      rw [sample_pool_at_1023, sample_size_sub_8]
      decide
    · rw [readv_nil]
  have hret := hio hfail
  refine ⟨_, r, hh, by decide, rfl, ?_, hret, ?_⟩
  · rw [pcap_sg_read_of_hdr _ _ _ _ _ _ _ _ hh (by decide)]
    exact hr
  · rw [hret]
    decide

/-- C4. Starting from a pool prepared in write mode, the bytes that the calls of
`pcap_sg_write` for any sequence of records (each header together with its payload
no larger than one pool buffer) and the final `pcap_sg_fsync` hand to `writev` are the
headers and payloads in write order, without padding; the number of records is not
bounded by the pool size of 1024: a write that finds the pool full hands all 1024
buffers to `writev` and stores its record in slot 0. -/
theorem pcap_sg_writer_linear_stream (h : pcap_h) (type : pcap_type) (jumbo : Bool)
    (fd : List uint8_t) (s : sg_state) (recs : List record)
    (hrec : ∀ r ∈ recs, h.hdr_size type ≤ r.phdr.length ∧
      h.hdr_size type + r.packet.length ≤ sg_buf_len h jumbo) :
    sg_dump h type jumbo fd s recs = fd ++ linear_stream h type recs ∧
    ∀ (fd1 : List uint8_t) (s1 : sg_state) (r : record), s1.iov_slot = array_size_iov →
      (pcap_sg_write h fd1 s1 r.phdr type r.packet r.packet.length).fd =
          writev fd1 s1.iov array_size_iov ∧
        (pcap_sg_write h fd1 s1 r.phdr type r.packet r.packet.length).s.iov_slot = 1 :=
  ⟨sg_dump_eq_linear_stream h type jumbo fd s recs hrec, fun fd1 s1 r hfull =>
    pcap_sg_write_full_pool h type fd1 s1 r hfull⟩

/-- A witness of C4: two records of the default flavour with payloads of 3 and 1
bytes. -/
theorem pcap_sg_writer_linear_stream_witness :
    sg_dump pcap_h_host pcap_type.DEFAULT false [] (sample_pool 0 0)
        [{ phdr := sample_hdr, packet := [7, 8, 9] }, { phdr := sample_hdr, packet := [5] }] =
      [] ++ linear_stream pcap_h_host pcap_type.DEFAULT
        [{ phdr := sample_hdr, packet := [7, 8, 9] }, { phdr := sample_hdr, packet := [5] }] :=
  (pcap_sg_writer_linear_stream pcap_h_host pcap_type.DEFAULT false [] (sample_pool 0 0)
    [{ phdr := sample_hdr, packet := [7, 8, 9] }, { phdr := sample_hdr, packet := [5] }]
    (by decide)).1

/-! ## The round trip through the scatter/gather back end -/

theorem rt_stream_eq :
    rt_stream = (rt_hdr1 ++ List.replicate 12264 9) ++ (rt_hdr2 ++ [5]) := by
  unfold rt_stream
  rw [sg_dump_eq_linear_stream pcap_h_host pcap_type.DEFAULT false [] _ rt_records (by
    intro r hr
    simp only [rt_records, List.mem_cons, List.mem_singleton, List.not_mem_nil, or_false] at hr
    rcases hr with hr | hr <;> subst hr
    · refine ⟨by decide, ?_⟩
      simp only [List.length_replicate]
      decide
    · exact ⟨by decide, by decide⟩)]
  simp only [rt_records, linear_stream, List.nil_append, List.append_nil, List.append_assoc]
  rfl

theorem iov_total_replicate (n : Nat) (v : iovec) :
    iov_total (List.replicate n v) = n * v.iov_len := by
  induction n with
  | zero => simp [iov_total]
  | succ m ih =>
    rw [List.replicate_succ]
    simp only [iov_total, ih]
    rw [Nat.succ_mul, Nat.add_comm]

theorem rt_stream_length : rt_stream.length = 12297 := by
  rw [rt_stream_eq]
  simp only [rt_hdr1, rt_hdr2, List.length_append, List.length_replicate, List.length_cons,
    List.length_nil]

theorem pcap_sg_prepare_access_rd (h : pcap_h) (fd : List uint8_t) (s : sg_state) (jumbo : Bool)
    (hpos : ¬ ((readv fd (List.replicate array_size_iov
      ({ iov_base := List.replicate (sg_buf_len h jumbo) 0, iov_len := sg_buf_len h jumbo } : iovec))
      array_size_iov).1 ≤ 0)) :
    (pcap_sg_prepare_access h fd s pcap_mode.PCAP_MODE_RD jumbo).1 = 0 ∧
    (pcap_sg_prepare_access h fd s pcap_mode.PCAP_MODE_RD jumbo).2.2 =
      { iov := readv_fill (List.replicate array_size_iov
          ({ iov_base := List.replicate (sg_buf_len h jumbo) 0,
             iov_len := sg_buf_len h jumbo } : iovec)) fd ++ [],
        iov_off_rd := 0, iov_slot := 0 } := by
  have htake : ∀ v : iovec, (List.replicate array_size_iov v).take array_size_iov =
      List.replicate array_size_iov v :=
    fun v => List.take_of_length_le (by rw [List.length_replicate])
  have hdrop : ∀ v : iovec, (List.replicate array_size_iov v).drop array_size_iov = [] :=
    fun v => List.drop_of_length_le (by rw [List.length_replicate])
  unfold sg_buf_len at hpos
  unfold pcap_sg_prepare_access sg_buf_len
  simp only [if_true, if_neg hpos, true_and]
  unfold readv
  simp only [htake, hdrop]

theorem rt_buf_len : sg_buf_len pcap_h_host false = 12288 := by decide

theorem rt_pool_state : rt_pool.1 = 0 ∧ rt_pool.2.2 = rt_state 0 0 := by
  have key := pcap_sg_prepare_access_rd pcap_h_host rt_stream
    { iov := [], iov_off_rd := 0, iov_slot := 0 } false
  rw [rt_buf_len] at key
  unfold rt_pool rt_state rt_zero_buf
  apply key
  unfold readv
  rw [List.take_of_length_le (by rw [List.length_replicate]), iov_total_replicate,
    rt_stream_length]
  decide

theorem rt_state_at_0 (off : Nat) : (rt_state off 0).iov_at 0 = rt_buf0 :=
  rfl

theorem rt_stream_take :
    rt_stream.take 12288 = rt_hdr1 ++ (List.replicate 12264 9 ++ [8, 0, 0, 0, 0, 0, 0, 0]) := by
  have hl : (rt_hdr1 ++ List.replicate 12264 (9 : uint8_t)).length = 12280 := by
    simp only [rt_hdr1, List.length_append, List.length_replicate, List.length_cons,
      List.length_nil]
  rw [rt_stream_eq, List.take_append_eq_append_take, hl,
    List.take_of_length_le (by rw [hl]; decide), List.append_assoc]
  rfl

theorem rt_buf0_hdr1 : rt_buf0.bytes 0 16 = rt_hdr1 := by
  have h16 : rt_hdr1.length = 16 := rfl
  simp only [iovec.bytes, rt_buf0, List.drop_zero]
  rw [rt_stream_take, List.append_assoc, List.take_left' h16]

theorem rt_buf0_payload1 : rt_buf0.bytes 16 12264 = List.replicate 12264 9 := by
  have h16 : rt_hdr1.length = 16 := rfl
  simp only [iovec.bytes, rt_buf0]
  rw [rt_stream_take, List.append_assoc, List.drop_left' h16, List.append_assoc,
    List.take_left' (List.length_replicate _ _)]

theorem rt_buf0_hdr2 : rt_buf0.bytes 12280 8 = [8, 0, 0, 0, 0, 0, 0, 0] := by
  have hl : (rt_hdr1 ++ List.replicate 12264 (9 : uint8_t)).length = 12280 := by
    simp only [rt_hdr1, List.length_append, List.length_replicate, List.length_cons,
      List.length_nil]
  simp only [iovec.bytes, rt_buf0]
  have h8 : ([8, 0, 0, 0, 0, 0, 0, 0] : List uint8_t).length = 8 := rfl
  rw [rt_stream_take, ← List.append_assoc, List.append_assoc, List.drop_left' hl,
    List.take_left' h8]

theorem rt_buf0_length : rt_buf0.iov_base.length = 12288 := by
  have hl : (rt_stream.take 12288).length = 12288 := by
    rw [List.length_take, rt_stream_length]
    decide
  simp only [rt_buf0, List.length_append, hl, List.length_drop, List.length_replicate]

theorem rt_read_first (fd : List uint8_t) :
    pcap_sg_read pcap_h_host fd (rt_state 0 0) (List.replicate 16 0) pcap_type.DEFAULT
        (List.replicate 12288 0) 12288 =
      some { ret := 12280, fd := fd, s := rt_state 12280 0, phdr := rt_hdr1,
             packet := fmemcpy (List.replicate 12288 0) 0 (List.replicate 12264 9) } := by
  have h16 : pcap_h_host.hdr_size pcap_type.DEFAULT = 16 := rfl
  have hc : pcap_h_host.pcap_get_length rt_hdr1 pcap_type.DEFAULT = 12264 := by decide
  have hhdr : pcap_sg_read_hdr pcap_h_host fd (rt_state 0 0) (List.replicate 16 0)
      pcap_type.DEFAULT (List.replicate 12288 0) =
      some { ret := 0, fd := fd, s := rt_state 16 0, phdr := rt_hdr1,
             packet := List.replicate 12288 0 } := by
    rw [pcap_sg_read_hdr_fast pcap_h_host fd (rt_state 0 0) (List.replicate 16 0)
      pcap_type.DEFAULT (List.replicate 12288 0) (by
        show 16 ≤ size_sub ((rt_state 0 0).iov_at 0).iov_len 0
        rw [rt_state_at_0]
        decide)]
    show some ({ ret := 0, fd := fd, s := rt_state (0 + 16) 0,
                 phdr := fmemcpy (List.replicate 16 0) 0 (((rt_state 0 0).iov_at 0).bytes 0 16),
                 packet := List.replicate 12288 0 } : rd_out) = _
    rw [rt_state_at_0, rt_buf0_hdr1]
    rfl
  rw [pcap_sg_read_of_hdr _ _ _ _ _ _ _ _ hhdr (show ¬ ((0 : Int) < 0) by decide)]
  show pcap_sg_read_data pcap_h_host fd (rt_state 16 0) rt_hdr1 pcap_type.DEFAULT
    (List.replicate 12288 0) 12288 = _
  rw [pcap_sg_read_data_fast pcap_h_host fd (rt_state 16 0) rt_hdr1 pcap_type.DEFAULT
    (List.replicate 12288 0) 12288 (by rw [hc]; decide) (by
      rw [hc]
      show 12264 ≤ size_sub ((rt_state 16 0).iov_at 0).iov_len 16
      rw [rt_state_at_0]
      decide)]
  rw [hc, h16]
  show some ({ ret := (16 : Int) + (12264 : Nat), fd := fd, s := rt_state (16 + 12264) 0,
               phdr := rt_hdr1,
               packet := fmemcpy (List.replicate 12288 0) 0
                 (((rt_state 16 0).iov_at 0).bytes 16 12264) } : rd_out) = _
  rw [rt_state_at_0, rt_buf0_payload1]
  rfl

theorem rt_read_second (fd packet : List uint8_t) :
    ∃ r, pcap_sg_read pcap_h_host fd (rt_state 12280 0) rt_hdr1 pcap_type.DEFAULT packet 12288 =
        some r ∧ r.ret = 12280 ∧
      r.phdr = [8, 0, 0, 0, 0, 0, 0, 0, 232, 47, 0, 0, 232, 47, 0, 0] := by
  have h16 : pcap_h_host.hdr_size pcap_type.DEFAULT = 16 := rfl
  have hslot : (rt_state 12280 0).iov_slot = 0 := rfl
  have hoff : (rt_state 12280 0).iov_off_rd = 12280 := rfl
  have hnofit : ¬ (size_sub ((rt_state 12280 0).iov_at (rt_state 12280 0).iov_slot).iov_len
      (rt_state 12280 0).iov_off_rd ≥ pcap_h_host.hdr_size pcap_type.DEFAULT) := by
    rw [hslot, rt_state_at_0]
    decide
  obtain ⟨r0, hr0, hp, hcur⟩ := hdr_read_straddle_header pcap_h_host fd (rt_state 12280 0)
    rt_hdr1 pcap_type.DEFAULT packet 8
    (by rw [hslot, rt_state_at_0]; decide) (by rw [hslot, rt_state_at_0]; rfl)
    (by rw [hslot, rt_state_at_0, rt_buf0_length]; decide) (by decide) (by decide) (by decide)
  obtain ⟨hret, hs1, _⟩ := hcur (by rw [hslot]; decide)
  have hlen : r0.phdr.length = 16 := hdr_read_phdr_length _ _ _ _ _ _ _ _ hr0
  have hphdr : r0.phdr = [8, 0, 0, 0, 0, 0, 0, 0, 232, 47, 0, 0, 232, 47, 0, 0] := by
    rw [h16, List.take_of_length_le (by rw [hlen]), hslot, rt_state_at_0, hoff, rt_buf0_hdr2] at hp
    rw [hp]
    rfl
  have hhdr : pcap_sg_read_hdr pcap_h_host fd (rt_state 12280 0) rt_hdr1 pcap_type.DEFAULT
      packet = some r0 := by
    unfold pcap_sg_read_hdr
    simp only [if_neg hnofit]
    exact hr0
  have hok : ¬ r0.ret < 0 := by rw [hret, h16]; decide
  have hc : pcap_h_host.pcap_get_length r0.phdr pcap_type.DEFAULT = 12264 := by
    rw [hphdr]; decide
  obtain ⟨r, hr, _, hgood⟩ := pcap_sg_read_data_wellformed pcap_h_host r0.fd r0.s r0.phdr
    pcap_type.DEFAULT r0.packet 12288 (by rw [hc]; decide)
  have hnf : ¬ sg_refill_fails r0.fd r0.s (pcap_h_host.pcap_get_length r0.phdr pcap_type.DEFAULT) := by
    intro hf
    have h2 := hf.2.1
    rw [hs1, hslot] at h2
    exact absurd h2 (by decide)
  refine ⟨r, ?_, ?_, ?_⟩
  · rw [pcap_sg_read_of_hdr _ _ _ _ _ _ _ _ hhdr hok]
    exact hr
  · rw [hgood hnf, hc, h16]
    rfl
  · rw [pcap_sg_read_data_phdr _ _ _ _ _ _ _ _ hr, hphdr]

/-- C1. The round trip at a concrete input of the default flavour: two records with
captured lengths 12264 and 1, written with `pcap_sg_write` and `pcap_sg_fsync`; the
read pool is prepared without error and the first call of `pcap_sg_read` (with
`len = 12288`) gives back the first header and payload; the second call returns
without error, and its header is not the second header: the bytes from offset 8 on
are the ones of the first header, so that the captured length reads 12264. -/
theorem pcap_sg_roundtrip_header_straddle :
    rt_pool.1 = 0 ∧
    ∃ r1 r2,
      pcap_sg_read pcap_h_host rt_pool.2.1 rt_pool.2.2 (List.replicate 16 0) pcap_type.DEFAULT
        (List.replicate 12288 0) 12288 = some r1 ∧
      r1.ret = 12280 ∧ r1.phdr = rt_hdr1 ∧ r1.packet.take 12264 = List.replicate 12264 9 ∧
      pcap_sg_read pcap_h_host r1.fd r1.s r1.phdr pcap_type.DEFAULT r1.packet 12288 = some r2 ∧
      r2.ret = 12280 ∧
      r2.phdr = [8, 0, 0, 0, 0, 0, 0, 0, 232, 47, 0, 0, 232, 47, 0, 0] ∧ r2.phdr ≠ rt_hdr2 := by
  refine ⟨rt_pool_state.1, ?_⟩
  rw [rt_pool_state.2]
  generalize rt_pool.2.1 = fd
  obtain ⟨r2, hr2, hret2, hp2⟩ := rt_read_second fd
    (fmemcpy (List.replicate 12288 0) 0 (List.replicate 12264 9))
  refine ⟨_, r2, rt_read_first fd, rfl, rfl, ?_, hr2, hret2, hp2, ?_⟩
  · show (fmemcpy (List.replicate 12288 0) 0 (List.replicate 12264 9)).take 12264 = _
    rw [fmemcpy_inside _ _ _ (by rw [List.length_replicate, List.length_replicate]; decide)]
    rw [List.take_zero, List.nil_append, List.take_left' (List.length_replicate _ _)]
  · rw [hp2]
    decide

/-! ## The trafgen text writer -/

/-- The items of a run of bytes. -/
theorem txf_items_cons (x : uint8_t) (xs : List uint8_t) :
    ((x :: xs).map fmt_0x02x).flatten = fmt_0x02x x ++ (xs.map fmt_0x02x).flatten := by
  simp

theorem drop_take_succ (b : List uint8_t) (d j : Nat) (hd : d < b.length) :
    (b.drop d).take (j + 1) = b.getD d 0 :: (b.drop (d + 1)).take j := by
  rw [List.drop_eq_getElem_cons hd, List.take_succ_cons, List.getD_eq_getElem _ _ hd]

/-- Inside a data line: `j` bytes that do not complete the line. -/
theorem translate_loop_inside (b : List uint8_t) (j : Nat) :
    ∀ (fuel d : Nat) (text : List Char), d + j ≤ b.length → d % 10 + j < 10 →
      translate_loop b b.length (fuel + j) d text =
        translate_loop b b.length fuel (d + j)
          (text ++ (((b.drop d).take j).map fmt_0x02x).flatten) := by
  induction j with
  | zero => intro fuel d text _ _; simp
  | succ j ih =>
    intro fuel d text hle hmod
    have hd : d < b.length := by omega
    have hnl : ¬ ((d + 1) % 10 = 0) := by omega
    have hstep : translate_loop b b.length (fuel + (j + 1)) d text =
        translate_loop b b.length (fuel + j) (d + 1) (text ++ fmt_0x02x (b.getD d 0)) := by
      show translate_loop b b.length ((fuel + j) + 1) d text = _
      simp only [translate_loop, hd, if_true, hnl, if_false]
    rw [hstep, ih fuel (d + 1) _ (by omega) (by omega), drop_take_succ b d j hd, txf_items_cons]
    have e : d + 1 + j = d + (j + 1) := by omega
    rw [e, List.append_assoc]

/-- A complete data line: ten bytes from a multiple of ten on. -/
theorem translate_loop_line (b : List uint8_t) (fuel d : Nat) (text : List Char)
    (hle : d + 10 ≤ b.length) (hmod : d % 10 = 0) :
    translate_loop b b.length (fuel + 10) d text =
      translate_loop b b.length fuel (d + 10)
        (text ++ (((b.drop d).take 10).map fmt_0x02x).flatten ++ ['\n'] ++
          (if d + 10 < b.length then [' ', ' '] else [])) := by
  have h9 := translate_loop_inside b 9 (fuel + 1) d text (by omega) (by omega)
  have e : fuel + 1 + 9 = fuel + 10 := by omega
  rw [e] at h9
  rw [h9]
  have hd : d + 9 < b.length := by omega
  have hnl : (d + 9 + 1) % 10 = 0 := by omega
  have e2 : d + 9 + 1 = d + 10 := by omega
  simp only [translate_loop, hd, if_true, hnl]
  rw [e2]
  have hsplit : (b.drop d).take 10 = (b.drop d).take 9 ++ [b.getD (d + 9) 0] := by
    rw [List.take_succ, List.getElem?_drop, List.getElem?_eq_getElem hd,
      List.getD_eq_getElem _ _ hd]
    rfl
  rw [hsplit]
  simp [List.append_assoc]

theorem txf_line_eq (bs : List uint8_t) :
    txf_line bs = [' ', ' '] ++ ((bs.map fmt_0x02x).flatten ++ ['\n']) := by
  simp [txf_line]

/-- After `k` complete data lines that do not end the payload, the loop stands at
byte `10 k` behind the indent of line `k`. -/
theorem translate_loop_lines (b : List uint8_t) (k : Nat) (hk : 10 * k < b.length) :
    translate_loop b b.length b.length 0 ['\x7b', '\n', ' ', ' '] =
      translate_loop b b.length (b.length - 10 * k) (10 * k)
        (['\x7b', '\n'] ++ txf_lines b k ++ [' ', ' ']) := by
  induction k with
  | zero => simp [txf_lines]
  | succ k ih =>
    have hk2 : 10 * k + 10 < b.length := by omega
    rw [ih (by omega)]
    have e : b.length - 10 * k = (b.length - 10 * (k + 1)) + 10 := by omega
    rw [e, translate_loop_line b _ (10 * k) _ (by omega) (by omega), if_pos hk2]
    have e2 : 10 * k + 10 = 10 * (k + 1) := by omega
    rw [e2]
    congr 1
    simp only [txf_lines, txf_line_eq, List.append_assoc]

theorem translate_pcap_to_txf_eq (b : List uint8_t) (hb : b ≠ []) :
    translate_pcap_to_txf b b.length = txf_block b := by
  have hn : 0 < b.length := List.length_pos.mpr hb
  have hL : (b.length + 9) / 10 = (b.length - 1) / 10 + 1 := by omega
  have hk : 10 * ((b.length - 1) / 10) < b.length := by omega
  have hk2 : b.length ≤ 10 * ((b.length - 1) / 10) + 10 := by omega
  generalize (b.length - 1) / 10 = k at hL hk hk2
  unfold translate_pcap_to_txf txf_block
  simp only []
  rw [translate_loop_lines b k hk, hL]
  by_cases hfull : b.length = 10 * k + 10
  · have e : b.length - 10 * k = 0 + 10 := by omega
    rw [e, translate_loop_line b 0 (10 * k) _ (by omega) (by omega)]
    have hnot : ¬ (10 * k + 10 < b.length) := by omega
    have hmod : (10 * k + 10) % 10 = 0 := by omega
    simp only [translate_loop, if_neg hnot, hmod, ne_eq, not_true_eq_false, if_false,
      List.append_nil]
    simp only [txf_lines, txf_line_eq, List.append_assoc]
  · have hj : b.length - 10 * k < 10 := by omega
    have e : b.length - 10 * k = 0 + (b.length - 10 * k) := by omega
    rw [e, translate_loop_inside b (b.length - 10 * k) 0 (10 * k) _ (by omega) (by omega)]
    have e2 : 10 * k + (b.length - 10 * k) = b.length := by omega
    have hmod : ¬ (b.length % 10 = 0) := by omega
    rw [e2]
    simp only [translate_loop, ne_eq, hmod, not_false_eq_true, if_true]
    have hlen : (b.drop (10 * k)).length = b.length - 10 * k := List.length_drop _ _
    have hc1 : (b.drop (10 * k)).take (b.length - 10 * k) = b.drop (10 * k) :=
      List.take_of_length_le (by omega)
    have hc2 : (b.drop (10 * k)).take 10 = b.drop (10 * k) :=
      List.take_of_length_le (by omega)
    simp only [txf_lines, txf_line_eq, hc1, hc2, List.append_assoc]

/-- C7. For a non-empty payload `b` of `n` bytes `translate_pcap_to_txf` writes the
block of the text format: the opening line, `⌈n / 10⌉` data lines of two spaces and
one item `0x` + two hex digits + `, ` per byte in order, then the closing brace on a
line of its own and an empty line; every data line but the last carries ten bytes,
the last one `n - 10 (⌈n / 10⌉ - 1)`. -/
theorem translate_pcap_to_txf_block (b : List uint8_t) (hb : b ≠ []) :
    translate_pcap_to_txf b b.length = txf_block b ∧
    ∀ i, i < (b.length + 9) / 10 →
      ((b.drop (10 * i)).take 10).length =
        if i + 1 < (b.length + 9) / 10 then 10 else b.length - 10 * ((b.length + 9) / 10 - 1) := by
  refine ⟨translate_pcap_to_txf_eq b hb, ?_⟩
  intro i hi
  rw [List.length_take, List.length_drop]
  split <;> omega

/-- A witness of C7: a payload of eleven bytes, two data lines. -/
theorem translate_pcap_to_txf_block_witness :
    translate_pcap_to_txf [1, 2, 3, 4, 5, 6, 7, 8, 9, 10, 255] 11 =
      "\x7b\n  0x01, 0x02, 0x03, 0x04, 0x05, 0x06, 0x07, 0x08, 0x09, 0x0a, \n  0xff, \n\x7d\n\n".toList :=
  (translate_pcap_to_txf_block [1, 2, 3, 4, 5, 6, 7, 8, 9, 10, 255] (by decide)).1.trans
    (by decide)

/-! ## The mode dispatcher and the endpoints -/

/-- The decision table of the dispatcher over the input test as the code computes
it (`device_mtu` non-zero, or `strncmp("any", in, strlen(in))` equal to 0) and the
output test: one loop per row, the default back end per row, a back end set by a
flag kept. -/
theorem main_dispatch_table (device_mtu : String → Int) (ops_touched : Bool)
    (device_in device_out : Option String) (dump : Int) (pcap : pcap_ops_groups) :
    ((device_mtu (device_in.getD "any") ≠ 0 ∨
        strncmp_eq "any" (device_in.getD "any") (device_in.getD "any").length = true) →
      (device_out = none →
        (main_dispatch device_mtu ops_touched device_in device_out dump pcap).main_loop =
            loop_fn.recv_only_or_dump ∧
          (main_dispatch device_mtu ops_touched device_in device_out dump pcap).ctx.dump = 0 ∧
          (main_dispatch device_mtu ops_touched device_in device_out dump pcap).ctx.pcap = pcap) ∧
      (out_iface device_mtu device_out →
        (main_dispatch device_mtu ops_touched device_in device_out dump pcap).main_loop =
            loop_fn.receive_to_xmit ∧
          (main_dispatch device_mtu ops_touched device_in device_out dump pcap).ctx.pcap = pcap) ∧
      (device_out ≠ none → ¬ out_iface device_mtu device_out →
        (main_dispatch device_mtu ops_touched device_in device_out dump pcap).main_loop =
            loop_fn.recv_only_or_dump ∧
          (main_dispatch device_mtu ops_touched device_in device_out dump pcap).ctx.dump = 1 ∧
          (main_dispatch device_mtu ops_touched device_in device_out dump pcap).ctx.pcap =
            if ops_touched then pcap else pcap_ops_groups.PCAP_OPS_SG)) ∧
    (¬ (device_mtu (device_in.getD "any") ≠ 0 ∨
        strncmp_eq "any" (device_in.getD "any") (device_in.getD "any").length = true) →
      (out_iface device_mtu device_out →
        (main_dispatch device_mtu ops_touched device_in device_out dump pcap).main_loop =
            loop_fn.pcap_to_xmit ∧
          (main_dispatch device_mtu ops_touched device_in device_out dump pcap).ctx.pcap =
            if ops_touched then pcap else pcap_ops_groups.PCAP_OPS_MM) ∧
      (¬ out_iface device_mtu device_out →
        (main_dispatch device_mtu ops_touched device_in device_out dump pcap).main_loop =
            loop_fn.read_pcap ∧
          (main_dispatch device_mtu ops_touched device_in device_out dump pcap).ctx.pcap =
            if ops_touched then pcap else pcap_ops_groups.PCAP_OPS_SG)) := by
  constructor
  · intro hin
    refine ⟨?_, ?_, ?_⟩
    · intro hout
      subst hout
      simp only [main_dispatch, hin, if_true, and_self]
    · rintro ⟨dout, hd, hm⟩
      subst hd
      simp only [main_dispatch, hin, if_true, hm, ne_eq, not_false_eq_true, and_self]
    · intro hsome hno
      cases device_out with
      | none => exact absurd rfl hsome
      | some dout =>
        have hm : ¬ (device_mtu dout ≠ 0) := fun h => hno ⟨dout, rfl, h⟩
        simp only [main_dispatch, hin, if_true, hm, if_false, and_self]
  · intro hin
    refine ⟨?_, ?_⟩
    · rintro ⟨dout, hd, hm⟩
      subst hd
      simp only [main_dispatch, hin, if_false, hm, ne_eq, not_false_eq_true, if_true, and_self]
    · intro hno
      cases device_out with
      | none => simp only [main_dispatch, hin, if_false, and_self]
      | some dout =>
        have hm : ¬ (device_mtu dout ≠ 0) := fun h => hno ⟨dout, rfl, h⟩
        simp only [main_dispatch, hin, if_false, hm, and_self]

/-- The back end and `ops_touched` when no back-end flag is given. -/
theorem main_backend_flags_none (flags : List Char)
    (hno : ∀ c ∈ flags, c ≠ 'c' ∧ c ≠ 'm' ∧ c ≠ 'G') :
    main_backend_flags flags = (pcap_ops_groups.PCAP_OPS_SG, false) := by
  unfold main_backend_flags
  generalize (pcap_ops_groups.PCAP_OPS_SG, false) = st
  induction flags generalizing st with
  | nil => rfl
  | cons c cs ih =>
    obtain ⟨h1, h2, h3⟩ := hno c (List.mem_cons_self c cs)
    have hstep : main_backend_flag st c = st := by
      simp only [main_backend_flag, h1, h2, h3, if_false]
    rw [List.foldl_cons, hstep]
    exact ih (fun x hx => hno x (List.mem_cons_of_mem c hx)) st

/-- The inputs that pass the test `strncmp("any", in, strlen(in)) == 0`. -/
theorem strncmp_any_iff (s : String) :
    strncmp_eq "any" s s.length = true ↔ s = "" ∨ s = "a" ∨ s = "an" ∨ s = "any" := by
  have hs : ∀ t : String, s = t ↔ s.data = t.data := fun t => String.ext_iff
  have hl : s.length = s.data.length := rfl
  simp only [strncmp_eq, hs, hl, String.toList, beq_iff_eq]
  rw [List.take_length]
  show List.take s.data.length ['a', 'n', 'y'] = s.data ↔ _
  constructor
  · intro h
    rcases hd : s.data with _ | ⟨a, _ | ⟨b, _ | ⟨c, _ | ⟨d, t⟩⟩⟩⟩
    · left; rfl
    · rw [hd] at h; right; left; simpa using h.symm
    · rw [hd] at h; right; right; left; simpa using h.symm
    · rw [hd] at h; right; right; right; simpa using h.symm
    · rw [hd] at h
      have := congrArg List.length h
      simp at this
  · rintro (h | h | h | h) <;> rw [h] <;> rfl

/-- C8. The dispatcher at the input `an`, a name that is neither a live interface
(`device_mtu` is 0) nor the pseudo-device `any`, with no output and no back-end flag:
the decision table asks for the file-to-text translator, `main` selects the
receive-only loop, because the test for `any` compares only `strlen(in)` characters. -/
theorem main_dispatch_any_prefix :
    ¬ in_iface (fun _ => 0) (some "an") ∧ ¬ out_iface (fun _ => 0) none ∧
    main_backend_flags [] = (pcap_ops_groups.PCAP_OPS_SG, false) ∧
    (main_dispatch (fun _ => 0) false (some "an") none 0 pcap_ops_groups.PCAP_OPS_SG).main_loop =
      loop_fn.recv_only_or_dump ∧
    (main_dispatch (fun _ => 0) false (some "an") none 0 pcap_ops_groups.PCAP_OPS_SG).main_loop ≠
      loop_fn.read_pcap := by
  refine ⟨?_, ?_, rfl, by decide, by decide⟩
  · unfold in_iface
    decide
  · rintro ⟨dout, hd, _⟩
    exact Option.noConfusion hd

/-- The decision table in the words of the specification holds for every input that
is not one of the proper prefixes of `any`. -/
theorem main_dispatch_table_spec (device_mtu : String → Int) (device_in : Option String)
    (hpre : device_in ≠ some "" ∧ device_in ≠ some "a" ∧ device_in ≠ some "an") :
    (device_mtu (device_in.getD "any") ≠ 0 ∨
        strncmp_eq "any" (device_in.getD "any") (device_in.getD "any").length = true) ↔
      in_iface device_mtu device_in := by
  unfold in_iface
  rw [strncmp_any_iff]
  obtain ⟨h0, h1, h2⟩ := hpre
  cases device_in with
  | none => simp
  | some s =>
    have e0 : s ≠ "" := fun h => h0 (by rw [h])
    have e1 : s ≠ "a" := fun h => h1 (by rw [h])
    have e2 : s ≠ "an" := fun h => h2 (by rw [h])
    simp [e0, e1, e2]

theorem open_pcap_input_dash (can_open : String → Bool) (c : ctx) (hin : c.device_in = "-") :
    open_pcap_input can_open c =
      Except.ok (fd_source.dup_stdin,
        if c.pcap = pcap_ops_groups.PCAP_OPS_MM then { c with pcap := pcap_ops_groups.PCAP_OPS_SG }
        else c) := by
  have hcmp : strncmp_eq "-" c.device_in "-".length = true := by rw [hin]; decide
  simp only [open_pcap_input, hcmp, if_true]

theorem downgrade_pcap (c : ctx) :
    (if c.pcap = pcap_ops_groups.PCAP_OPS_MM then { c with pcap := pcap_ops_groups.PCAP_OPS_SG }
      else c).pcap =
      if c.pcap = pcap_ops_groups.PCAP_OPS_MM then pcap_ops_groups.PCAP_OPS_SG else c.pcap := by
  split <;> rfl

/-- C9. With the endpoint `-`, the input of `pcap_to_xmit` and of `read_pcap` and the
output of `begin_single_pcap_file` (followed by the writes and
`finish_single_pcap_file`) are opened without error on the duplicated standard
stream, the back end becomes SG if it was MM and stays what it was otherwise (RW or
SG), and every capture-file operation of the loop goes through that back end. -/
theorem forced_downgrade_on_stream (can_open : String → Bool) (c : ctx) (n : Nat) :
    (c.device_in = "-" →
      ∃ c1 ops, pcap_input_io can_open c n = Except.ok (fd_source.dup_stdin, c1, ops) ∧
        c1.pcap = (if c.pcap = pcap_ops_groups.PCAP_OPS_MM then pcap_ops_groups.PCAP_OPS_SG
                   else c.pcap) ∧
        ∀ x ∈ ops, x.2 = c1.pcap) ∧
    (c.device_out = some "-" →
      ∃ c1 ops, dump_single_io can_open c n = Except.ok (fd_source.dup_stdout, c1, ops) ∧
        c1.pcap = (if c.pcap = pcap_ops_groups.PCAP_OPS_MM then pcap_ops_groups.PCAP_OPS_SG
                   else c.pcap) ∧
        ∀ x ∈ ops, x.2 = c1.pcap) := by
  constructor
  · intro hin
    have hio : pcap_input_io can_open c n = Except.ok (fd_source.dup_stdin,
        (if c.pcap = pcap_ops_groups.PCAP_OPS_MM then
          { c with pcap := pcap_ops_groups.PCAP_OPS_SG } else c),
        [(pcap_file_op.pull_fhdr_pcap, (if c.pcap = pcap_ops_groups.PCAP_OPS_MM then
            { c with pcap := pcap_ops_groups.PCAP_OPS_SG } else c).pcap),
          (pcap_file_op.prepare_access_pcap, (if c.pcap = pcap_ops_groups.PCAP_OPS_MM then
            { c with pcap := pcap_ops_groups.PCAP_OPS_SG } else c).pcap)] ++
        List.replicate n (pcap_file_op.read_pcap, (if c.pcap = pcap_ops_groups.PCAP_OPS_MM then
            { c with pcap := pcap_ops_groups.PCAP_OPS_SG } else c).pcap) ++
        [(pcap_file_op.prepare_close_pcap, (if c.pcap = pcap_ops_groups.PCAP_OPS_MM then
            { c with pcap := pcap_ops_groups.PCAP_OPS_SG } else c).pcap)]) := by
      simp only [pcap_input_io, open_pcap_input_dash can_open c hin]
    refine ⟨_, _, hio, downgrade_pcap c, ?_⟩
    intro x hx
    simp only [List.mem_append, List.mem_cons, List.mem_singleton, List.not_mem_nil, or_false,
      List.mem_replicate] at hx
    rcases hx with ((hx | hx) | hx) | hx
    · rw [hx]
    · rw [hx]
    · rw [hx.2]
    · rw [hx]
  · intro hout
    have hcmp : strncmp_eq "-" (c.device_out.getD "") "-".length = true := by rw [hout]; decide
    have hio : dump_single_io can_open c n = Except.ok (fd_source.dup_stdout,
        (if c.pcap = pcap_ops_groups.PCAP_OPS_MM then
          { c with pcap := pcap_ops_groups.PCAP_OPS_SG } else c),
        [(pcap_file_op.push_fhdr_pcap, (if c.pcap = pcap_ops_groups.PCAP_OPS_MM then
            { c with pcap := pcap_ops_groups.PCAP_OPS_SG } else c).pcap),
          (pcap_file_op.prepare_access_pcap, (if c.pcap = pcap_ops_groups.PCAP_OPS_MM then
            { c with pcap := pcap_ops_groups.PCAP_OPS_SG } else c).pcap)] ++
        List.replicate n (pcap_file_op.write_pcap, (if c.pcap = pcap_ops_groups.PCAP_OPS_MM then
            { c with pcap := pcap_ops_groups.PCAP_OPS_SG } else c).pcap) ++
        [(pcap_file_op.fsync_pcap, (if c.pcap = pcap_ops_groups.PCAP_OPS_MM then
            { c with pcap := pcap_ops_groups.PCAP_OPS_SG } else c).pcap),
          (pcap_file_op.prepare_close_pcap, (if c.pcap = pcap_ops_groups.PCAP_OPS_MM then
            { c with pcap := pcap_ops_groups.PCAP_OPS_SG } else c).pcap)]) := by
      simp only [dump_single_io, begin_single_pcap_file, hcmp, if_true]
    refine ⟨_, _, hio, downgrade_pcap c, ?_⟩
    intro x hx
    simp only [List.mem_append, List.mem_cons, List.mem_singleton, List.not_mem_nil, or_false,
      List.mem_replicate] at hx
    rcases hx with ((hx | hx) | hx) | (hx | hx)
    · rw [hx]
    · rw [hx]
    · rw [hx.2]
    · rw [hx]
    · rw [hx]

/-- A witness of C9: the mapped back end with standard input, three records read. -/
theorem forced_downgrade_on_stream_witness :
    ∃ c1 ops, pcap_input_io (fun _ => false)
        { device_in := "-", device_out := some "eth0", dump := 0,
          pcap := pcap_ops_groups.PCAP_OPS_MM } 3 = Except.ok (fd_source.dup_stdin, c1, ops) ∧
      c1.pcap = pcap_ops_groups.PCAP_OPS_SG ∧ ∀ x ∈ ops, x.2 = c1.pcap :=
  (forced_downgrade_on_stream (fun _ => false)
    { device_in := "-", device_out := some "eth0", dump := 0,
      pcap := pcap_ops_groups.PCAP_OPS_MM } 3).1 rfl

/-! ## The file-to-TX loop -/

theorem oversize_pool_at_0 (slot off : Nat) :
    ({ iov := List.replicate 1024 { iov_base := oversize_buf, iov_len := 12288 },
       iov_off_rd := off, iov_slot := slot } : sg_state).iov_at 0 =
      { iov_base := oversize_buf, iov_len := 12288 } :=
  rfl

theorem oversize_buf_hdr :
    ({ iov_base := oversize_buf, iov_len := 12288 } : iovec).bytes 0 16 = oversize_hdr := by
  have h16 : oversize_hdr.length = 16 := rfl
  simp only [iovec.bytes, oversize_buf, List.drop_zero]
  rw [List.take_left' h16]

theorem oversize_buf_next :
    ({ iov_base := oversize_buf, iov_len := 12288 } : iovec).bytes 4112 16 = sample_hdr := by
  have hl : (oversize_hdr ++ List.replicate 4096 (7 : uint8_t)).length = 4112 := by
    simp only [oversize_hdr, List.length_append, List.length_replicate, List.length_cons,
      List.length_nil]
  have h16 : sample_hdr.length = 16 := rfl
  simp only [iovec.bytes, oversize_buf]
  rw [← List.append_assoc, List.drop_left' hl, List.take_left' h16]

/-- The reader at a record whose captured length exceeds `len`: `-EINVAL`, nothing
copied. -/
theorem pcap_sg_read_oversize (fd packet : List uint8_t) :
    pcap_sg_read pcap_h_host fd oversize_pool (List.replicate 16 0) pcap_type.DEFAULT packet 2048 =
      some { ret := - EINVAL, fd := fd,
             s := { iov := List.replicate 1024 { iov_base := oversize_buf, iov_len := 12288 },
                    iov_off_rd := 16, iov_slot := 0 },
             phdr := oversize_hdr, packet := packet } := by
  have hhdr : pcap_sg_read_hdr pcap_h_host fd oversize_pool (List.replicate 16 0)
      pcap_type.DEFAULT packet =
      some { ret := 0, fd := fd,
             s := { iov := List.replicate 1024 { iov_base := oversize_buf, iov_len := 12288 },
                    iov_off_rd := 16, iov_slot := 0 },
             phdr := oversize_hdr, packet := packet } := by
    rw [pcap_sg_read_hdr_fast pcap_h_host fd oversize_pool (List.replicate 16 0)
      pcap_type.DEFAULT packet (by
        show 16 ≤ size_sub (oversize_pool.iov_at 0).iov_len 0
        unfold oversize_pool
        rw [oversize_pool_at_0]
        decide)]
    show some ({ ret := 0, fd := fd,
                 s := { iov := List.replicate 1024 { iov_base := oversize_buf, iov_len := 12288 },
                        iov_off_rd := 0 + 16, iov_slot := 0 },
                 phdr := fmemcpy (List.replicate 16 0) 0 ((oversize_pool.iov_at 0).bytes 0 16),
                 packet := packet } : rd_out) = _
    unfold oversize_pool
    rw [oversize_pool_at_0, oversize_buf_hdr]
    rfl
  rw [pcap_sg_read_of_hdr _ _ _ _ _ _ _ _ hhdr (show ¬ ((0 : Int) < 0) by decide)]
  exact pcap_sg_read_data_malformed pcap_h_host fd _ oversize_hdr pcap_type.DEFAULT packet 2048
    (by decide)

/-- A record the reader refuses ends the loop: the code jumps to `out` with nothing
sent for it and no counter changed. -/
theorem pcap_to_xmit_loop_read_error (h : pcap_h) (env : xmit_env) (c : xmit_ctx) (fuel : Nat)
    (st : xmit_state) (r : rd_out) (hsig : st.sigint = false)
    (hint : env.sigint_at st.clock = false) (hready : env.tx_ready st.clock st.it = true)
    (hread : pcap_sg_read h st.fd st.sg st.phdr c.type (List.replicate c.frame_size 0)
      c.frame_size = some r) (hret : r.ret ≤ 0) :
    pcap_to_xmit_loop h env c (fuel + 2) false st =
      some { st with clock := st.clock + 1, fd := r.fd, sg := r.s, phdr := r.phdr } := by
  simp only [pcap_to_xmit_loop, pcap_to_xmit_read, hsig, hint, hready, hread, hret,
    Bool.not_false, Bool.or_self, Bool.and_false, Bool.false_eq_true, if_false, if_true]

/-- C6. A capture file that starts with a record of captured length 4096, followed by
a record of captured length 16, replayed by `pcap_to_xmit` through the
scatter/gather reader on a TX ring with frames of 2048 bytes, all slots ready, no
filter, no cap, no SIGINT: the loop ends at the first record, nothing is sent, the
counter of truncated records stays 0 and the second record is never read (the
reader stands behind the first header). -/
theorem pcap_to_xmit_oversize_record_ends_replay :
    pcap_h_host.pcap_get_length ((oversize_pool.iov_at 0).bytes 0 16) pcap_type.DEFAULT = 4096 ∧
    pcap_h_host.pcap_get_length ((oversize_pool.iov_at 0).bytes 4112 16) pcap_type.DEFAULT = 16 ∧
    ∃ st, pcap_to_xmit_loop pcap_h_host xmit_env_ready xmit_ctx_2048 8 false
        (xmit_start [] oversize_pool) = some st ∧
      st.sent = [] ∧ st.trunced = 0 ∧ st.tx_packets = 0 ∧
      st.sg.iov_slot = 0 ∧ st.sg.iov_off_rd = 16 := by
  refine ⟨?_, ?_, ?_⟩
  · unfold oversize_pool
    rw [oversize_pool_at_0, oversize_buf_hdr]
    decide
  · unfold oversize_pool
    rw [oversize_pool_at_0, oversize_buf_next]
    decide
  · have hread := pcap_sg_read_oversize [] (List.replicate 2048 0)
    have hloop := pcap_to_xmit_loop_read_error pcap_h_host xmit_env_ready xmit_ctx_2048 6
      (xmit_start [] oversize_pool) _ rfl rfl rfl hread (by decide)
    exact ⟨_, hloop, rfl, rfl, rfl, rfl, rfl⟩

/-! ## The bridge loop -/

theorem tx_published_append (xs ys : List bridge_event) :
    tx_published (xs ++ ys) = tx_published xs + tx_published ys := by
  induction xs with
  | nil => simp [tx_published]
  | cons e es ih => cases e <;> simp [tx_published, ih]; omega

theorem tx_copied_append (xs ys : List bridge_event) :
    tx_copied (xs ++ ys) = tx_copied xs + tx_copied ys := by
  induction xs with
  | nil => simp [tx_copied]
  | cons e es ih => cases e <;> simp [tx_copied, ih]; omega

theorem tx_spin_ready (rnd : Nat → Nat → Nat) (c : bridge_ctx) (fuel : Nat) (st : bridge_state) :
    tx_spin (env_tx_ready rnd) c (fuel + 1) st = some ({ st with clock := st.clock + 1 }, true) := by
  simp [tx_spin, env_tx_ready]

/-- The frame that reaches the cap: the TX slot is written and published, the stop
flag is set and the inner loop is left by `break`. -/
theorem bridge_frame_at_cap (rnd : Nat → Nat → Nat) (randomize : Bool) (n rx_nr tx_nr fuel : Nat)
    (f : rx_frame) (st : bridge_state) (hn : 1 ≤ n) (hk : n ≤ st.frame_count + 1) :
    ∃ st1, bridge_frame (env_tx_ready rnd) (bridge_ctx_cap randomize n rx_nr tx_nr) (fuel + 1) f st =
        some (st1, body_exit.break_inner) ∧
      st1.sigint = true ∧ st1.frame_count = st.frame_count + 1 ∧
      st1.events = st.events ++ [bridge_event.tx_clone st.it_out true f,
        bridge_event.tx_copy st.it_out true f.tp_len, bridge_event.tx_publish st.it_out true] := by
  have hn0 : n ≠ 0 := by omega
  unfold bridge_frame
  simp only [tx_spin_ready]
  simp only [bridge_ctx_cap, ne_eq, not_true_eq_false, false_and, if_false, hn0,
    not_false_eq_true, true_and, ge_iff_le, hk, if_true]
  exact ⟨_, rfl, rfl, rfl, rfl⟩

/-- A frame below the cap: the TX slot is written and published, the RX slot is
released and the loop goes on. -/
theorem bridge_frame_below_cap (rnd : Nat → Nat → Nat) (randomize : Bool)
    (n rx_nr tx_nr fuel : Nat) (f : rx_frame) (st : bridge_state) (hs : st.sigint = false)
    (hk : st.frame_count + 1 < n) :
    ∃ st1, bridge_frame (env_tx_ready rnd) (bridge_ctx_cap randomize n rx_nr tx_nr) (fuel + 1) f st =
        some (st1, body_exit.next_slot) ∧
      st1.sigint = false ∧ st1.frame_count = st.frame_count + 1 ∧
      st1.events = st.events ++ [bridge_event.tx_clone st.it_out true f,
        bridge_event.tx_copy st.it_out true f.tp_len, bridge_event.tx_publish st.it_out true,
        bridge_event.rx_release st.it_in] := by
  have hk2 : ¬ (n ≤ st.frame_count + 1) := by omega
  unfold bridge_frame
  simp only [tx_spin_ready]
  simp only [bridge_ctx_cap, ne_eq, not_true_eq_false, false_and, if_false, ge_iff_le, hk2,
    and_false, bridge_next, hs, env_tx_ready, Bool.or_self, Bool.false_eq_true]
  refine ⟨_, rfl, rfl, rfl, ?_⟩
  simp only [List.append_assoc, List.cons_append, List.nil_append]

theorem receive_to_xmit_inner_cap (rnd : Nat → Nat → Nat) (randomize : Bool)
    (n rx_nr tx_nr fuel : Nat) (hn : 1 ≤ n) (rx : List (Option rx_frame)) :
    ∀ st : bridge_state, st.sigint = false → st.frame_count < n →
      n - st.frame_count ≤ rx_ready_count rx →
      ∃ st1, receive_to_xmit_inner (env_tx_ready rnd) (bridge_ctx_cap randomize n rx_nr tx_nr)
          (fuel + 1) rx st = some (st1, true) ∧
        st1.sigint = true ∧ st1.frame_count = n ∧
        tx_published st1.events = tx_published st.events + (n - st.frame_count) ∧
        tx_copied st1.events = tx_copied st.events + (n - st.frame_count) ∧
        ∃ pre slot, st1.events =
          pre ++ [bridge_event.tx_publish slot true, bridge_event.poll] := by
  induction rx with
  | nil =>
    intro st _ hk hrx
    simp only [rx_ready_count] at hrx
    omega
  | cons x rx ih =>
    intro st hs hk hrx
    cases x with
    | none =>
      simp only [rx_ready_count] at hrx
      obtain ⟨st1, h1, h2, h3, h4, h5, h6⟩ := ih
        { st with events := st.events ++ [bridge_event.poll], clock := st.clock + 1 } hs hk hrx
      refine ⟨st1, ?_, h2, h3, ?_, ?_, h6⟩
      · simp only [receive_to_xmit_inner, hs, env_tx_ready, Bool.or_self, Bool.false_eq_true,
          if_false]
        simp only [env_tx_ready, hs] at h1
        exact h1
      · rw [h4, tx_published_append]
        simp [tx_published]
      · rw [h5, tx_copied_append]
        simp [tx_copied]
    | some f =>
      simp only [rx_ready_count] at hrx
      by_cases hcap : n ≤ st.frame_count + 1
      · obtain ⟨st1, hb, hsig, hfc, hev⟩ :=
          bridge_frame_at_cap rnd randomize n rx_nr tx_nr fuel f st hn hcap
        refine ⟨{ st1 with events := st1.events ++ [bridge_event.poll] }, ?_, hsig, ?_, ?_, ?_, ?_⟩
        · simp only [receive_to_xmit_inner, hb]
        · show st1.frame_count = n
          omega
        · show tx_published (st1.events ++ [bridge_event.poll]) = _
          rw [hev, tx_published_append, tx_published_append]
          simp only [tx_published]
          omega
        · show tx_copied (st1.events ++ [bridge_event.poll]) = _
          rw [hev, tx_copied_append, tx_copied_append]
          simp only [tx_copied]
          omega
        · refine ⟨st.events ++ [bridge_event.tx_clone st.it_out true f,
            bridge_event.tx_copy st.it_out true f.tp_len], st.it_out, ?_⟩
          show st1.events ++ [bridge_event.poll] = _
          rw [hev]
          simp only [List.append_assoc, List.cons_append, List.nil_append]
      · obtain ⟨st1, hb, hsig, hfc, hev⟩ :=
          bridge_frame_below_cap rnd randomize n rx_nr tx_nr fuel f st hs (by omega)
        obtain ⟨st2, h1, h2, h3, h4, h5, h6⟩ := ih st1 hsig (by omega) (by omega)
        refine ⟨st2, ?_, h2, h3, ?_, ?_, h6⟩
        · simp only [receive_to_xmit_inner, hb]
          exact h1
        · rw [h4, hev, tx_published_append]
          simp only [tx_published]
          omega
        · rw [h5, hev, tx_copied_append]
          simp only [tx_copied]
          omega

/-- C10. The bridge with cap `n ≥ 1`, no packet-type filter, at least `n` ready RX
slots and TX slots that are ready whenever asked for: the loops are left with the
stop flag set, `n` frames counted, exactly `n` TX slots written and `n` published,
and the `n`-th publication is the last thing the loop does to a ring (only the
`poll` behind the inner loop follows). -/
theorem receive_to_xmit_frame_cap (rnd : Nat → Nat → Nat) (randomize : Bool)
    (n rx_nr tx_nr spin_fuel : Nat) (rx : List (Option rx_frame))
    (hn : 1 ≤ n) (hfuel : 1 ≤ spin_fuel) (hrx : n ≤ rx_ready_count rx) :
    ∃ st, receive_to_xmit_loop (env_tx_ready rnd) (bridge_ctx_cap randomize n rx_nr tx_nr)
        spin_fuel rx = some (st, true) ∧
      st.sigint = true ∧ st.frame_count = n ∧
      tx_published st.events = n ∧ tx_copied st.events = n ∧
      ∃ pre slot, st.events = pre ++ [bridge_event.tx_publish slot true, bridge_event.poll] := by
  obtain ⟨fuel, rfl⟩ : ∃ fuel, spin_fuel = fuel + 1 := ⟨spin_fuel - 1, by omega⟩
  obtain ⟨st, h1, h2, h3, h4, h5, h6⟩ := receive_to_xmit_inner_cap rnd randomize n rx_nr tx_nr
    fuel hn rx
    { sigint := false, frame_count := 0, it_in := 0, it_out := 0, clock := 1, events := [] }
    rfl (by show 0 < n; omega) (by show n - 0 ≤ _; omega)
  refine ⟨st, ?_, h2, h3, ?_, ?_, h6⟩
  · simp only [receive_to_xmit_loop, env_tx_ready, Bool.false_eq_true, if_false]
    exact h1
  · rw [h4]; simp [tx_published]
  · rw [h5]; simp [tx_copied]

/-- A witness of C10: cap 2, three ready slots and a pause in between. -/
theorem receive_to_xmit_frame_cap_witness :
    ∃ st, receive_to_xmit_loop (env_tx_ready fun _ s => s) (bridge_ctx_cap false 2 4 4) 1
        [some ⟨60, 60, 0⟩, none, some ⟨61, 61, 0⟩, some ⟨62, 62, 0⟩] = some (st, true) ∧
      st.sigint = true ∧ st.frame_count = 2 ∧
      tx_published st.events = 2 ∧ tx_copied st.events = 2 ∧
      ∃ pre slot, st.events = pre ++ [bridge_event.tx_publish slot true, bridge_event.poll] :=
  receive_to_xmit_frame_cap (fun _ s => s) false 2 4 4 1
    [some ⟨60, 60, 0⟩, none, some ⟨61, 61, 0⟩, some ⟨62, 62, 0⟩] (by decide) (by decide)
    (by decide)
/-! ## The steps behind the label `next` -/

@[simp] theorem interval_add_sigint (c : recv_ctx) (v : Nat) (st : recv_state) :
    (interval_add c v st).sigint = st.sigint := by
  unfold interval_add; split_ifs <;> rfl

@[simp] theorem interval_add_itimer (c : recv_ctx) (v : Nat) (st : recv_state) :
    (interval_add c v st).itimer = st.itimer := by
  unfold interval_add; split_ifs <;> rfl

@[simp] theorem interval_add_dump_dir (c : recv_ctx) (v : Nat) (st : recv_state) :
    (interval_add c v st).dump_dir = st.dump_dir := by
  unfold interval_add; split_ifs <;> rfl

@[simp] theorem interval_add_frame_count (c : recv_ctx) (v : Nat) (st : recv_state) :
    (interval_add c v st).frame_count = st.frame_count := by
  unfold interval_add; split_ifs <;> rfl

@[simp] theorem interval_add_skipped (c : recv_ctx) (v : Nat) (st : recv_state) :
    (interval_add c v st).skipped = st.skipped := by
  unfold interval_add; split_ifs <;> rfl

@[simp] theorem interval_add_it (c : recv_ctx) (v : Nat) (st : recv_state) :
    (interval_add c v st).it = st.it := by
  unfold interval_add; split_ifs <;> rfl

@[simp] theorem interval_add_clock (c : recv_ctx) (v : Nat) (st : recv_state) :
    (interval_add c v st).clock = st.clock := by
  unfold interval_add; split_ifs <;> rfl

@[simp] theorem interval_add_events (c : recv_ctx) (v : Nat) (st : recv_state) :
    (interval_add c v st).events = st.events := by
  unfold interval_add; split_ifs <;> rfl

@[simp] theorem recv_size_step_sigint (env : recv_env) (c : recv_ctx) (f : rx_frame)
    (st : recv_state) : (recv_size_step env c f st).sigint = st.sigint := by
  unfold recv_size_step; split_ifs
  · exact interval_add_sigint c _ st
  · rfl

@[simp] theorem recv_size_step_itimer (env : recv_env) (c : recv_ctx) (f : rx_frame)
    (st : recv_state) : (recv_size_step env c f st).itimer = st.itimer := by
  unfold recv_size_step; split_ifs
  · exact interval_add_itimer c _ st
  · rfl

@[simp] theorem recv_size_step_dump_dir (env : recv_env) (c : recv_ctx) (f : rx_frame)
    (st : recv_state) : (recv_size_step env c f st).dump_dir = st.dump_dir := by
  unfold recv_size_step; split_ifs
  · exact interval_add_dump_dir c _ st
  · rfl

@[simp] theorem recv_size_step_frame_count (env : recv_env) (c : recv_ctx) (f : rx_frame)
    (st : recv_state) : (recv_size_step env c f st).frame_count = st.frame_count := by
  unfold recv_size_step; split_ifs
  · exact interval_add_frame_count c _ st
  · rfl

@[simp] theorem recv_size_step_skipped (env : recv_env) (c : recv_ctx) (f : rx_frame)
    (st : recv_state) : (recv_size_step env c f st).skipped = st.skipped := by
  unfold recv_size_step; split_ifs
  · exact interval_add_skipped c _ st
  · rfl

@[simp] theorem recv_size_step_it (env : recv_env) (c : recv_ctx) (f : rx_frame)
    (st : recv_state) : (recv_size_step env c f st).it = st.it := by
  unfold recv_size_step; split_ifs
  · exact interval_add_it c _ st
  · rfl

@[simp] theorem recv_size_step_clock (env : recv_env) (c : recv_ctx) (f : rx_frame)
    (st : recv_state) : (recv_size_step env c f st).clock = st.clock := by
  unfold recv_size_step; split_ifs
  · exact interval_add_clock c _ st
  · rfl

@[simp] theorem recv_size_step_events (env : recv_env) (c : recv_ctx) (f : rx_frame)
    (st : recv_state) : (recv_size_step env c f st).events = st.events := by
  unfold recv_size_step; split_ifs
  · exact interval_add_events c _ st
  · rfl

@[simp] theorem timer_next_dump_sigint (env : recv_env) (st : recv_state) :
    (timer_next_dump env st).sigint = st.sigint := by
  unfold timer_next_dump; split_ifs <;> rfl

@[simp] theorem timer_next_dump_interval (env : recv_env) (st : recv_state) :
    (timer_next_dump env st).interval = st.interval := by
  unfold timer_next_dump; split_ifs <;> rfl

@[simp] theorem timer_next_dump_dump_dir (env : recv_env) (st : recv_state) :
    (timer_next_dump env st).dump_dir = st.dump_dir := by
  unfold timer_next_dump; split_ifs <;> rfl

@[simp] theorem timer_next_dump_frame_count (env : recv_env) (st : recv_state) :
    (timer_next_dump env st).frame_count = st.frame_count := by
  unfold timer_next_dump; split_ifs <;> rfl

@[simp] theorem timer_next_dump_skipped (env : recv_env) (st : recv_state) :
    (timer_next_dump env st).skipped = st.skipped := by
  unfold timer_next_dump; split_ifs <;> rfl

@[simp] theorem timer_next_dump_it (env : recv_env) (st : recv_state) :
    (timer_next_dump env st).it = st.it := by
  unfold timer_next_dump; split_ifs <;> rfl

@[simp] theorem timer_next_dump_clock (env : recv_env) (st : recv_state) :
    (timer_next_dump env st).clock = st.clock := by
  unfold timer_next_dump; split_ifs <;> rfl

@[simp] theorem recv_rotate_sigint (c : recv_ctx) (st : recv_state) :
    (recv_rotate c st).1.sigint = st.sigint := by
  unfold recv_rotate; split_ifs <;> rfl

@[simp] theorem recv_rotate_interval (c : recv_ctx) (st : recv_state) :
    (recv_rotate c st).1.interval = st.interval := by
  unfold recv_rotate; split_ifs <;> rfl

@[simp] theorem recv_rotate_itimer (c : recv_ctx) (st : recv_state) :
    (recv_rotate c st).1.itimer = st.itimer := by
  unfold recv_rotate; split_ifs <;> rfl

@[simp] theorem recv_rotate_dump_dir (c : recv_ctx) (st : recv_state) :
    (recv_rotate c st).1.dump_dir = st.dump_dir := by
  unfold recv_rotate; split_ifs <;> rfl

@[simp] theorem recv_rotate_frame_count (c : recv_ctx) (st : recv_state) :
    (recv_rotate c st).1.frame_count = st.frame_count := by
  unfold recv_rotate; split_ifs <;> rfl

@[simp] theorem recv_rotate_skipped (c : recv_ctx) (st : recv_state) :
    (recv_rotate c st).1.skipped = st.skipped := by
  unfold recv_rotate; split_ifs <;> rfl

@[simp] theorem recv_rotate_it (c : recv_ctx) (st : recv_state) :
    (recv_rotate c st).1.it = st.it := by
  unfold recv_rotate; split_ifs <;> rfl

@[simp] theorem recv_rotate_clock (c : recv_ctx) (st : recv_state) :
    (recv_rotate c st).1.clock = st.clock := by
  unfold recv_rotate; split_ifs <;> rfl

theorem recv_rotate_exit (c : recv_ctx) (st : recv_state) :
    (recv_rotate c st).2 = if st.dump_dir = true then recv_exit.next_slot else recv_exit.die := by
  unfold recv_rotate; split_ifs <;> rfl

theorem recv_rotate_dir (c : recv_ctx) (st : recv_state) (h : st.dump_dir = true) :
    recv_rotate c st =
      ({ st with next_dump := false,
                 events := st.events ++ [recv_event.rotate] ++
                   (if c.verbose then [recv_event.print_stats] else []) },
        recv_exit.next_slot) := by
  unfold recv_rotate; rw [if_pos h]

theorem recv_rotate_file (c : recv_ctx) (st : recv_state) (h : st.dump_dir = false) :
    recv_rotate c st =
      ({ st with events := st.events ++ [recv_event.rotate_die] }, recv_exit.die) := by
  unfold recv_rotate; rw [if_neg (by rw [h]; decide)]

theorem timer_next_dump_disarmed (env : recv_env) (st : recv_state)
    (h : st.itimer = (0, 0)) : timer_next_dump env st = st := by
  unfold timer_next_dump
  rw [if_neg]
  intro hh
  exact hh.1 h

/-- The code behind the label `next`, by cases. -/
theorem recv_next_eq (env : recv_env) (c : recv_ctx) (f : rx_frame) (st : recv_state) :
    recv_next env c f st =
      if (st.sigint || env.sigint_at st.clock) = true then
        ({ recv_tick (recv_release c st) with sigint := true }, recv_exit.break_inner)
      else if c.dump = true then
        if (timer_next_dump env
            (recv_size_step env c f (recv_tick (recv_release c st)))).next_dump = true then
          recv_rotate c
            (timer_next_dump env (recv_size_step env c f (recv_tick (recv_release c st))))
        else
          (timer_next_dump env (recv_size_step env c f (recv_tick (recv_release c st))),
            recv_exit.next_slot)
      else (recv_tick (recv_release c st), recv_exit.next_slot) := by
  rfl

/-! ## The receive loop -/

/-- C11. The cap `n = 1` with two ready RX slots, in `recv_only_or_dump` (no dump)
and in `receive_to_xmit` (TX slots ready): the first slot makes the frame count
reach the cap, the stop flag is set and the loops are left by `break`, which jumps
over the label `next`: slot 0 is never released (no `rx_release` among the events,
which end with the `poll` behind the inner loop) and the RX cursor still stands
at 0. -/
theorem frame_cap_slot_not_released :
    ((recv_only_or_dump recv_env_quiet (recv_ctx_cap 1) false 10
        [some ⟨60, 60, 0⟩, some ⟨61, 61, 0⟩]).1.sigint = true ∧
      (recv_only_or_dump recv_env_quiet (recv_ctx_cap 1) false 10
        [some ⟨60, 60, 0⟩, some ⟨61, 61, 0⟩]).1.frame_count = 1 ∧
      (recv_only_or_dump recv_env_quiet (recv_ctx_cap 1) false 10
        [some ⟨60, 60, 0⟩, some ⟨61, 61, 0⟩]).1.events =
          [recv_event.dissect 0 60, recv_event.poll] ∧
      (recv_only_or_dump recv_env_quiet (recv_ctx_cap 1) false 10
        [some ⟨60, 60, 0⟩, some ⟨61, 61, 0⟩]).1.it = 0) ∧
    (receive_to_xmit_loop (env_tx_ready fun _ s => s) (bridge_ctx_cap false 1 64 64) 1
        [some ⟨60, 60, 0⟩, some ⟨61, 61, 0⟩]).map
        (fun r => (r.1.sigint, r.1.frame_count, r.1.events, r.1.it_in)) =
      some (true, 1,
        [bridge_event.tx_clone 0 true ⟨60, 60, 0⟩, bridge_event.tx_copy 0 true 60,
         bridge_event.tx_publish 0 true, bridge_event.poll], 0) := by
  decide

/-- C14. Size-interval rotation into a directory with threshold 1 MiB and the
packet-type filter set to 0 (host): a slot of packet type 4 with 60 captured bytes
is rejected by the filter, nothing is written, and the byte counter goes from 0 to
60; without filter, a slot of 4000 captured bytes is skipped as oversize, nothing
is written, and the byte counter goes from 0 to 4000. -/
theorem size_counter_counts_unwritten_slots :
    ((recv_only_or_dump recv_env_quiet (recv_ctx_size 0 1048576) true 10
        [some ⟨60, 60, 4⟩]).1.events =
          [recv_event.rx_reject 0 ⟨60, 60, 4⟩, recv_event.rx_release 0,
           recv_event.setitimer 0 0] ∧
      (recv_only_or_dump recv_env_quiet (recv_ctx_size 0 1048576) true 10
        [some ⟨60, 60, 4⟩]).1.interval = 60) ∧
    ((recv_only_or_dump recv_env_quiet (recv_ctx_size (-1) 1048576) true 10
        [some ⟨4000, 4000, 0⟩]).1.events =
          [recv_event.rx_skip 0 ⟨4000, 4000, 0⟩, recv_event.rx_release 0,
           recv_event.setitimer 0 0] ∧
      (recv_only_or_dump recv_env_quiet (recv_ctx_size (-1) 1048576) true 10
        [some ⟨4000, 4000, 0⟩]).1.interval = 4000) := by
  decide

/-- C15, as stated, fails: threshold 1024, frames of 2048 bytes, records of the
default flavour (16-byte headers); two slots with 1024 and 2048 captured bytes go
into one file, which is closed by the rotation after the second; its size is
24 + (16 + 1024) + (16 + 2048) = 3128 bytes, more than 1024 + 2048. -/
theorem rotated_file_exceeds_bound :
    emitted_files (recv_only_or_dump recv_env_quiet (recv_ctx_size (-1) 1024) true 10
        [some ⟨1024, 1024, 0⟩, some ⟨2048, 2048, 0⟩]).1.events = [[1024, 2048], []] ∧
    pcap_file_size (pcap_h_host.hdr_size pcap_type.DEFAULT) [1024, 2048] = 3128 ∧
    ¬ (pcap_file_size (pcap_h_host.hdr_size pcap_type.DEFAULT) [1024, 2048] ≤
      (recv_ctx_size (-1) 1024).dump_interval + (recv_ctx_size (-1) 1024).frame_size) := by
  decide

/-- C16. A dump into a single file (the output path is not a directory) with the
size interval 1024 and the global `interval` at 10: after one slot of 1500 captured
bytes the byte counter has been updated (10 + 1500 exceeds 1024, so it is reset to
0) and the rotation step `next_multi_pcap_file` is executed: it closes the file and
ends the program in `open_or_die_m`, so a second ready slot is never looked at.
With the size interval 2048 the counter stands at 1510 after the slot. -/
theorem single_file_rotates_in_size_mode :
    (recv_only_or_dump recv_env_quiet (recv_ctx_size (-1) 1024) false 10
        [some ⟨1500, 1500, 0⟩]).1.events =
      [recv_event.pcap_write 0 1500, recv_event.dissect 0 1500, recv_event.rx_release 0,
       recv_event.rotate_die] ∧
    (recv_only_or_dump recv_env_quiet (recv_ctx_size (-1) 1024) false 10
        [some ⟨1500, 1500, 0⟩]).1.interval = 0 ∧
    (recv_only_or_dump recv_env_quiet (recv_ctx_size (-1) 2048) false 10
        [some ⟨1500, 1500, 0⟩]).1.interval = 1510 ∧
    (recv_only_or_dump recv_env_quiet (recv_ctx_size (-1) 1024) false 10
        [some ⟨1500, 1500, 0⟩, some ⟨60, 60, 0⟩]).1.events =
      [recv_event.pcap_write 0 1500, recv_event.dissect 0 1500, recv_event.rx_release 0,
       recv_event.rotate_die] := by
  decide

/-- C19. The bridge with a TX ring of four slots none of which is ready, one ready RX
slot of 60 bytes and SIGINT delivered at tick 3, while the loop searches for a TX
slot: the search ends on the stop flag at slot 2, whose last answer was 'not
ready', and the loop clones the header into that slot, copies the payload and
publishes it. -/
theorem bridge_writes_kernel_owned_slot :
    (receive_to_xmit_loop (env_tx_busy 3) (bridge_ctx_cap false 0 4 4) 8
        [some ⟨60, 60, 0⟩]).map (fun r => (r.1.sigint, r.1.events)) =
      some (true,
        [bridge_event.tx_clone 2 false ⟨60, 60, 0⟩, bridge_event.tx_copy 2 false 60,
         bridge_event.tx_publish 2 false, bridge_event.rx_release 0]) := by
  decide

/-! ### Accounting of the slots -/

theorem n_rejected_append (es es' : List recv_event) :
    n_rejected (es ++ es') = n_rejected es + n_rejected es' := by
  induction es with
  | nil => simp [n_rejected]
  | cons e es ih => cases e <;> simp [n_rejected, ih, Nat.add_right_comm]

theorem n_skipped_append (es es' : List recv_event) :
    n_skipped (es ++ es') = n_skipped es + n_skipped es' := by
  induction es with
  | nil => simp [n_skipped]
  | cons e es ih => cases e <;> simp [n_skipped, ih, Nat.add_right_comm]

theorem n_accepted_append (es es' : List recv_event) :
    n_accepted (es ++ es') = n_accepted es + n_accepted es' := by
  induction es with
  | nil => simp [n_accepted]
  | cons e es ih => cases e <;> simp [n_accepted, ih, Nat.add_right_comm]

theorem timer_next_dump_counts (env : recv_env) (st : recv_state) :
    recv_counts (timer_next_dump env st) = recv_counts st := by
  unfold timer_next_dump recv_counts
  split_ifs <;>
    simp [n_rejected_append, n_skipped_append, n_accepted_append, n_rejected, n_skipped,
      n_accepted]

theorem recv_rotate_counts (c : recv_ctx) (st : recv_state) :
    recv_counts (recv_rotate c st).1 = recv_counts st := by
  unfold recv_rotate recv_counts
  split_ifs <;>
    simp [n_rejected_append, n_skipped_append, n_accepted_append, n_rejected, n_skipped,
      n_accepted]

theorem recv_size_step_counts (env : recv_env) (c : recv_ctx) (f : rx_frame)
    (st : recv_state) : recv_counts (recv_size_step env c f st) = recv_counts st := by
  simp only [recv_counts, recv_size_step_frame_count, recv_size_step_skipped,
    recv_size_step_events]

theorem recv_release_counts (c : recv_ctx) (st : recv_state) :
    recv_counts (recv_tick (recv_release c st)) = recv_counts st := by
  simp [recv_counts, recv_tick, recv_release, n_rejected_append, n_skipped_append,
    n_accepted_append, n_rejected, n_skipped, n_accepted]

theorem recv_next_counts (env : recv_env) (c : recv_ctx) (f : rx_frame) (st : recv_state) :
    recv_counts (recv_next env c f st).1 = recv_counts st := by
  rw [recv_next_eq]
  split_ifs
  · exact recv_release_counts c st
  · rw [recv_rotate_counts, timer_next_dump_counts, recv_size_step_counts,
      recv_release_counts]
  · show recv_counts (timer_next_dump env _) = _
    rw [timer_next_dump_counts, recv_size_step_counts, recv_release_counts]
  · exact recv_release_counts c st

theorem recv_frame_counts (env : recv_env) (c : recv_ctx) (f : rx_frame) (st : recv_state) :
    recv_counts (recv_frame env c f st).1 =
      if c.packet_type ≠ -1 ∧ c.packet_type ≠ (f.sll_pkttype : Int) then
        (st.frame_count + 1, st.skipped, n_rejected st.events + 1, n_skipped st.events,
         n_accepted st.events)
      else if c.frame_size < f.tp_snaplen then
        (st.frame_count + 1, st.skipped + 1, n_rejected st.events, n_skipped st.events + 1,
         n_accepted st.events)
      else
        (st.frame_count + 1, st.skipped, n_rejected st.events, n_skipped st.events,
         n_accepted st.events + 1) := by
  unfold recv_frame
  simp only []
  split_ifs <;>
    first
    | (rw [recv_next_counts]
       simp [recv_counts, n_rejected_append, n_skipped_append, n_accepted_append,
        n_rejected, n_skipped, n_accepted])
    | simp [recv_counts, n_rejected_append, n_skipped_append, n_accepted_append,
        n_rejected, n_skipped, n_accepted]

theorem recv_frame_accounted (env : recv_env) (c : recv_ctx) (f : rx_frame) (st : recv_state)
    (h : recv_accounted c st) : recv_accounted c (recv_frame env c f st).1 := by
  have hc := recv_frame_counts env c f st
  unfold recv_counts at hc
  unfold recv_accounted at h ⊢
  obtain ⟨h1, h2, h3⟩ := h
  split_ifs at hc with hr hs <;>
    simp only [Prod.mk.injEq] at hc <;>
    obtain ⟨e1, e2, e3, e4, e5⟩ := hc <;>
    rw [e1, e2, e3, e4, e5]
  · refine ⟨by omega, h2, fun hp => absurd hp hr.1⟩
  · exact ⟨by omega, by omega, h3⟩
  · exact ⟨by omega, h2, h3⟩

theorem recv_accounted_poll (c : recv_ctx) (st st1 : recv_state)
    (hf : st1.frame_count = st.frame_count) (hs : st1.skipped = st.skipped)
    (he : st1.events = st.events ++ [recv_event.poll])
    (h : recv_accounted c st) : recv_accounted c st1 := by
  unfold recv_accounted at h ⊢
  rw [hf, hs, he]
  simpa [n_rejected_append, n_skipped_append, n_accepted_append, n_rejected, n_skipped,
    n_accepted] using h

theorem recv_inner_accounted (env : recv_env) (c : recv_ctx) (rx : List (Option rx_frame)) :
    ∀ st, recv_accounted c st → recv_accounted c (recv_only_or_dump_inner env c rx st).1 := by
  induction rx with
  | nil => intro st h; exact h
  | cons o rx ih =>
    intro st h
    cases o with
    | none =>
      unfold recv_only_or_dump_inner
      simp only []
      have h1 : recv_accounted c
          { st with events := st.events ++ [recv_event.poll], clock := st.clock + 1 } :=
        recv_accounted_poll c st _ rfl rfl rfl h
      split_ifs
      · exact recv_accounted_poll c st _ rfl rfl rfl h
      · exact ih _ h1
    | some f =>
      unfold recv_only_or_dump_inner
      have h1 := recv_frame_accounted env c f st h
      generalize recv_frame env c f st = r at h1
      obtain ⟨st1, ex⟩ := r
      cases ex
      · exact ih _ h1
      · exact recv_accounted_poll c st1 _ rfl rfl rfl h1
      · exact h1

theorem recv_frame_frame_count (env : recv_env) (c : recv_ctx) (f : rx_frame)
    (st : recv_state) : (recv_frame env c f st).1.frame_count = st.frame_count + 1 := by
  have hc := recv_frame_counts env c f st
  unfold recv_counts at hc
  split_ifs at hc <;> simp only [Prod.mk.injEq] at hc <;> exact hc.1

theorem recv_inner_frame_count (env : recv_env) (c : recv_ctx) (rx : List (Option rx_frame)) :
    ∀ st, (recv_only_or_dump_inner env c rx st).2 = false →
      (recv_only_or_dump_inner env c rx st).1.frame_count =
        st.frame_count + rx_ready_count rx := by
  induction rx with
  | nil => intro st _; rfl
  | cons o rx ih =>
    intro st
    cases o with
    | none =>
      unfold recv_only_or_dump_inner
      simp only [rx_ready_count]
      split_ifs
      · intro h; exact absurd h (by simp)
      · intro h; exact ih _ h
    | some f =>
      unfold recv_only_or_dump_inner
      have h1 := recv_frame_frame_count env c f st
      generalize recv_frame env c f st = r at h1
      obtain ⟨st1, ex⟩ := r
      cases ex
      · intro h
        simp only [] at h ⊢
        rw [ih _ h, h1, rx_ready_count]
        omega
      · intro h; exact absurd h (by simp)
      · intro h; exact absurd h (by simp)

/-- The shape of `recv_only_or_dump`: setup, entry test of the stop flag, the
loops, teardown; `P0` holds at the start, `P` before the loops, `Q` after them. -/
theorem recv_only_or_dump_rule (P0 P Q : recv_state → Prop) (env : recv_env) (c : recv_ctx)
    (is_dir : Bool) (interval0 : Nat) (rx : List (Option rx_frame))
    (h0 : P0 { sigint := false, next_dump := false, interval := interval0, itimer := (0, 0),
               dump_dir := c.dump && is_dir,
               frame_count := 0, skipped := 0, it := 0, clock := 0, events := [] })
    (hpre : c.dump = true → is_dir = true → ∀ st, P0 st → P (begin_multi_pcap_file c st))
    (hfile : ¬ (c.dump = true ∧ is_dir = true) → ∀ st, P0 st → P st)
    (hexit : ∀ st, P st → Q { st with sigint := true })
    (hinner : ∀ st, P st →
      Q (recv_only_or_dump_inner env c rx { st with clock := st.clock + 1 }).1)
    (hpost : c.dump = true → is_dir = true → ∀ st, Q st → Q (finish_multi_pcap_file st)) :
    Q (recv_only_or_dump env c is_dir interval0 rx).1 := by
  have hrun : ∀ st, P st →
      Q (if st.sigint || env.sigint_at st.clock then
            (({ st with sigint := true } : recv_state), true)
          else recv_only_or_dump_inner env c rx { st with clock := st.clock + 1 }).1 := by
    intro st h
    by_cases hs : (st.sigint || env.sigint_at st.clock) = true
    · rw [if_pos hs]; exact hexit st h
    · rw [if_neg hs]; exact hinner st h
  unfold recv_only_or_dump
  simp only []
  by_cases hd : (c.dump && is_dir) = true
  · have hd2 := hd
    rw [Bool.and_eq_true] at hd2
    simp only [if_pos hd]
    exact hpost hd2.1 hd2.2 _ (hrun _ (hpre hd2.1 hd2.2 _ h0))
  · have hd2 := hd
    rw [Bool.and_eq_true] at hd2
    simp only [if_neg hd]
    exact hrun _ (hfile hd2 _ h0)

theorem recv_only_or_dump_accounted (env : recv_env) (c : recv_ctx) (is_dir : Bool)
    (interval0 : Nat) (rx : List (Option rx_frame)) :
    recv_accounted c (recv_only_or_dump env c is_dir interval0 rx).1 := by
  apply recv_only_or_dump_rule (recv_accounted c) (recv_accounted c) (recv_accounted c)
  · simp [recv_accounted, n_rejected, n_skipped, n_accepted]
  · intro _ _ st h
    unfold recv_accounted begin_multi_pcap_file at *
    split_ifs
    · simpa [n_rejected_append, n_skipped_append, n_accepted_append, n_rejected, n_skipped,
        n_accepted] using h
    · exact h
  · intro _ st h; exact h
  · intro st h; exact h
  · intro st h; exact recv_inner_accounted env c rx _ h
  · intro _ _ st h
    unfold recv_accounted finish_multi_pcap_file at *
    simpa [n_rejected_append, n_skipped_append, n_accepted_append, n_rejected, n_skipped,
      n_accepted] using h

theorem recv_only_or_dump_frame_count (env : recv_env) (c : recv_ctx) (is_dir : Bool)
    (interval0 : Nat) (rx : List (Option rx_frame))
    (h : (recv_only_or_dump env c is_dir interval0 rx).2 = false) :
    (recv_only_or_dump env c is_dir interval0 rx).1.frame_count = rx_ready_count rx := by
  have hb : ∀ st, (begin_multi_pcap_file c st).frame_count = st.frame_count := by
    intro st; unfold begin_multi_pcap_file; split_ifs <;> rfl
  have hrun : ∀ st : recv_state, st.frame_count = 0 →
      (if st.sigint || env.sigint_at st.clock then
            (({ st with sigint := true } : recv_state), true)
          else recv_only_or_dump_inner env c rx { st with clock := st.clock + 1 }).2 = false →
      (if st.sigint || env.sigint_at st.clock then
            (({ st with sigint := true } : recv_state), true)
          else recv_only_or_dump_inner env c rx { st with clock := st.clock + 1 }).1.frame_count
        = rx_ready_count rx := by
    intro st h0
    by_cases hs : (st.sigint || env.sigint_at st.clock) = true
    · rw [if_pos hs]; intro h; exact absurd h (by simp)
    · rw [if_neg hs]; intro h
      rw [recv_inner_frame_count env c rx _ h]
      simp [h0]
  unfold recv_only_or_dump at h ⊢
  simp only [] at h ⊢
  by_cases hd : (c.dump && is_dir) = true
  · simp only [if_pos hd] at h ⊢
    simp only [finish_multi_pcap_file]
    exact hrun _ (by rw [hb]) h
  · simp only [if_neg hd] at h ⊢
    exact hrun { sigint := false, next_dump := false, interval := interval0, itimer := (0, 0),
                 dump_dir := c.dump && is_dir,
                 frame_count := 0, skipped := 0, it := 0, clock := 0, events := [] } rfl h

/-- C12. Slot accounting of `recv_only_or_dump`, for every environment, settings and
script of RX answers, at the point where the script ends or the loop is left: the
frame count is the number of slots rejected by the packet-type filter plus the
number skipped as oversize plus the number accepted, the skipped counter is the
number skipped, with `packet_type = -1` no slot is rejected, and while the loop has
not been left the frame count is the number of ready slots of the script. One
ready slot adds one to the frame count and one to exactly one of the classes. -/
theorem recv_slot_accounting (env : recv_env) (c : recv_ctx) (is_dir : Bool)
    (interval0 : Nat) (rx : List (Option rx_frame)) :
    ((recv_only_or_dump env c is_dir interval0 rx).1.frame_count =
        n_rejected (recv_only_or_dump env c is_dir interval0 rx).1.events +
        n_skipped (recv_only_or_dump env c is_dir interval0 rx).1.events +
        n_accepted (recv_only_or_dump env c is_dir interval0 rx).1.events) ∧
    ((recv_only_or_dump env c is_dir interval0 rx).1.skipped =
        n_skipped (recv_only_or_dump env c is_dir interval0 rx).1.events) ∧
    (c.packet_type = -1 →
        n_rejected (recv_only_or_dump env c is_dir interval0 rx).1.events = 0) ∧
    ((recv_only_or_dump env c is_dir interval0 rx).2 = false →
        (recv_only_or_dump env c is_dir interval0 rx).1.frame_count = rx_ready_count rx) ∧
    (∀ (f : rx_frame) (st : recv_state),
        (recv_frame env c f st).1.frame_count = st.frame_count + 1 ∧
        ((n_rejected (recv_frame env c f st).1.events,
          n_skipped (recv_frame env c f st).1.events,
          n_accepted (recv_frame env c f st).1.events) =
            (n_rejected st.events + 1, n_skipped st.events, n_accepted st.events) ∨
         (n_rejected (recv_frame env c f st).1.events,
          n_skipped (recv_frame env c f st).1.events,
          n_accepted (recv_frame env c f st).1.events) =
            (n_rejected st.events, n_skipped st.events + 1, n_accepted st.events) ∨
         (n_rejected (recv_frame env c f st).1.events,
          n_skipped (recv_frame env c f st).1.events,
          n_accepted (recv_frame env c f st).1.events) =
            (n_rejected st.events, n_skipped st.events, n_accepted st.events + 1))) := by
  obtain ⟨h1, h2, h3⟩ := recv_only_or_dump_accounted env c is_dir interval0 rx
  refine ⟨h1, h2, h3, recv_only_or_dump_frame_count env c is_dir interval0 rx, ?_⟩
  intro f st
  refine ⟨recv_frame_frame_count env c f st, ?_⟩
  have hc := recv_frame_counts env c f st
  unfold recv_counts at hc
  split_ifs at hc <;> simp only [Prod.mk.injEq] at hc <;>
    obtain ⟨_, _, e3, e4, e5⟩ := hc <;> rw [e3, e4, e5] <;> simp

/-- C12 at a run without filter over three ready slots of 60, 4000 and 61 captured
bytes on frames of 2048 bytes: three slots counted, none rejected, one skipped, two
accepted. -/
theorem recv_slot_accounting_witness :
    (recv_ctx_cap 0).packet_type = -1 ∧
    (recv_only_or_dump recv_env_quiet (recv_ctx_cap 0) false 10
      [some ⟨60, 60, 0⟩, some ⟨4000, 4000, 0⟩, none, some ⟨61, 61, 0⟩]).2 = false ∧
    (recv_only_or_dump recv_env_quiet (recv_ctx_cap 0) false 10
      [some ⟨60, 60, 0⟩, some ⟨4000, 4000, 0⟩, none, some ⟨61, 61, 0⟩]).1.frame_count = 3 ∧
    n_rejected (recv_only_or_dump recv_env_quiet (recv_ctx_cap 0) false 10
      [some ⟨60, 60, 0⟩, some ⟨4000, 4000, 0⟩, none, some ⟨61, 61, 0⟩]).1.events = 0 ∧
    n_skipped (recv_only_or_dump recv_env_quiet (recv_ctx_cap 0) false 10
      [some ⟨60, 60, 0⟩, some ⟨4000, 4000, 0⟩, none, some ⟨61, 61, 0⟩]).1.events = 1 ∧
    n_accepted (recv_only_or_dump recv_env_quiet (recv_ctx_cap 0) false 10
      [some ⟨60, 60, 0⟩, some ⟨4000, 4000, 0⟩, none, some ⟨61, 61, 0⟩]).1.events = 2 :=
  ⟨by decide, by decide,
   ((recv_slot_accounting recv_env_quiet (recv_ctx_cap 0) false 10
      [some ⟨60, 60, 0⟩, some ⟨4000, 4000, 0⟩, none, some ⟨61, 61, 0⟩]).2.2.2.1
      (by decide)).trans (by decide),
   (recv_slot_accounting recv_env_quiet (recv_ctx_cap 0) false 10
      [some ⟨60, 60, 0⟩, some ⟨4000, 4000, 0⟩, none, some ⟨61, 61, 0⟩]).2.2.1 (by decide),
   by decide, by decide⟩

/-! ### Oversize slots -/

theorem timer_next_dump_events (env : recv_env) (st : recv_state) :
    (timer_next_dump env st).skipped = st.skipped ∧
    (timer_next_dump env st).it = st.it ∧
    ∃ tail, (timer_next_dump env st).events = st.events ++ tail ∧
      ∀ e ∈ tail, recv_bookkeeping e = true := by
  unfold timer_next_dump
  split_ifs
  · exact ⟨rfl, rfl, [recv_event.alarm, recv_event.setitimer st.interval 0], rfl,
      by simp [recv_bookkeeping]⟩
  · exact ⟨rfl, rfl, [], by simp, by simp⟩

theorem recv_rotate_events (c : recv_ctx) (st : recv_state) :
    ∃ tail, (recv_rotate c st).1.events = st.events ++ tail ∧
      ∀ e ∈ tail, recv_bookkeeping e = true := by
  unfold recv_rotate
  by_cases hd : st.dump_dir = true
  · rw [if_pos hd]
    refine ⟨[recv_event.rotate] ++ (if c.verbose then [recv_event.print_stats] else []), ?_, ?_⟩
    · simp
    · intro e he
      simp only [List.mem_append, List.mem_singleton] at he
      rcases he with he | he
      · rw [he]; rfl
      · split_ifs at he
        · simp only [List.mem_singleton] at he; rw [he]; rfl
        · simp at he
  · rw [if_neg hd]
    exact ⟨[recv_event.rotate_die], rfl, by simp [recv_bookkeeping]⟩

theorem recv_next_events (env : recv_env) (c : recv_ctx) (f : rx_frame) (st : recv_state) :
    (recv_next env c f st).1.skipped = st.skipped ∧
    (recv_next env c f st).1.it = ring_next st.it c.frame_nr ∧
    ∃ tail, (recv_next env c f st).1.events = st.events ++ recv_event.rx_release st.it :: tail ∧
      ∀ e ∈ tail, recv_bookkeeping e = true := by
  rw [recv_next_eq]
  by_cases hs : (st.sigint || env.sigint_at st.clock) = true
  · rw [if_pos hs]
    exact ⟨rfl, rfl, [], rfl, by simp⟩
  · rw [if_neg hs]
    by_cases hd : c.dump = true
    · rw [if_pos hd]
      obtain ⟨_, _, t1, k3, k4⟩ := timer_next_dump_events env
        (recv_size_step env c f (recv_tick (recv_release c st)))
      rw [recv_size_step_events] at k3
      by_cases hn : (timer_next_dump env
          (recv_size_step env c f (recv_tick (recv_release c st)))).next_dump = true
      · rw [if_pos hn]
        obtain ⟨t2, r3, r4⟩ := recv_rotate_events c
          (timer_next_dump env (recv_size_step env c f (recv_tick (recv_release c st))))
        refine ⟨?_, ?_, t1 ++ t2, ?_, ?_⟩
        · rw [recv_rotate_skipped, timer_next_dump_skipped, recv_size_step_skipped]; rfl
        · rw [recv_rotate_it, timer_next_dump_it, recv_size_step_it]; rfl
        · rw [r3, k3]; simp [recv_tick, recv_release]
        · intro e he
          rw [List.mem_append] at he
          rcases he with he | he
          · exact k4 e he
          · exact r4 e he
      · rw [if_neg hn]
        refine ⟨?_, ?_, t1, ?_, k4⟩
        · show (timer_next_dump env _).skipped = _
          rw [timer_next_dump_skipped, recv_size_step_skipped]; rfl
        · show (timer_next_dump env _).it = _
          rw [timer_next_dump_it, recv_size_step_it]; rfl
        · show (timer_next_dump env _).events = _
          rw [k3]; simp [recv_tick, recv_release]
    · rw [if_neg hd]
      exact ⟨rfl, rfl, [], rfl, by simp⟩

/-- C13. One ready slot of `recv_only_or_dump` that passes the packet-type filter.
If its `snaplen` is greater than the frame size of the ring, the skipped counter
grows by 1, the slot is released and the cursor advanced, and the only other
events are those of the rotation and the timer: no record is written and the
dissector is not called. If its `snaplen` is at most the frame size, the skipped
counter is unchanged, the record is written when dumping and the dissector is
called for it. -/
theorem recv_oversize_slot_skipped (env : recv_env) (c : recv_ctx) (f : rx_frame)
    (st : recv_state)
    (hpass : c.packet_type = -1 ∨ c.packet_type = (f.sll_pkttype : Int)) :
    (c.frame_size < f.tp_snaplen →
      (recv_frame env c f st).1.skipped = st.skipped + 1 ∧
      (recv_frame env c f st).1.it = ring_next st.it c.frame_nr ∧
      ∃ tail,
        (recv_frame env c f st).1.events =
          st.events ++ recv_event.rx_skip st.it f :: recv_event.rx_release st.it :: tail ∧
        ∀ e ∈ tail, recv_bookkeeping e = true) ∧
    (f.tp_snaplen ≤ c.frame_size →
      (recv_frame env c f st).1.skipped = st.skipped ∧
      ∃ tail,
        (recv_frame env c f st).1.events =
          st.events ++ (if c.dump then [recv_event.pcap_write st.it f.tp_snaplen] else []) ++
            recv_event.dissect st.it f.tp_snaplen :: tail ∧
        ∀ e ∈ tail, e = recv_event.rx_release st.it ∨ recv_bookkeeping e = true) := by
  have hnf : ¬ (c.packet_type ≠ -1 ∧ c.packet_type ≠ (f.sll_pkttype : Int)) := by
    rintro ⟨h1, h2⟩
    rcases hpass with h | h
    · exact h1 h
    · exact h2 h
  unfold recv_frame
  simp only []
  rw [if_neg hnf]
  constructor
  · intro hbig
    rw [if_pos hbig]
    obtain ⟨k1, k2, tail, k3, k4⟩ := recv_next_events env c f
      { st with frame_count := st.frame_count + 1, skipped := st.skipped + 1,
                events := st.events ++ [recv_event.rx_skip st.it f] }
    refine ⟨k1, k2, tail, ?_, k4⟩
    rw [k3]; simp
  · intro hfit
    rw [if_neg (Nat.not_lt.mpr hfit)]
    by_cases hcap : c.frame_count_max ≠ 0 ∧ st.frame_count + 1 ≥ c.frame_count_max
    · rw [if_pos hcap]
      exact ⟨rfl, [], by simp, by simp⟩
    · rw [if_neg hcap]
      obtain ⟨k1, _, tail, k3, k4⟩ := recv_next_events env c f
        { st with frame_count := st.frame_count + 1,
                  events := st.events ++
                    (if c.dump then [recv_event.pcap_write st.it f.tp_snaplen] else []) ++
                    [recv_event.dissect st.it f.tp_snaplen] }
      refine ⟨k1, recv_event.rx_release st.it :: tail, ?_, ?_⟩
      · rw [k3]; simp
      · intro e he
        simp only [List.mem_cons] at he
        rcases he with he | he
        · exact Or.inl he
        · exact Or.inr (k4 e he)

/-- C13 at a slot of 4000 captured bytes on frames of 2048 bytes, without filter:
it is skipped, the counter goes from 0 to 1 and the cursor from 0 to 1. -/
theorem recv_oversize_slot_skipped_witness :
    (recv_frame recv_env_quiet (recv_ctx_cap 0) ⟨4000, 4000, 0⟩ (recv_start 10)).1.skipped = 1 ∧
    (recv_frame recv_env_quiet (recv_ctx_cap 0) ⟨4000, 4000, 0⟩ (recv_start 10)).1.it = 1 ∧
    (recv_frame recv_env_quiet (recv_ctx_cap 0) ⟨4000, 4000, 0⟩ (recv_start 10)).1.events =
      [recv_event.rx_skip 0 ⟨4000, 4000, 0⟩, recv_event.rx_release 0] :=
  ⟨((recv_oversize_slot_skipped recv_env_quiet (recv_ctx_cap 0) ⟨4000, 4000, 0⟩ (recv_start 10)
      (Or.inl (by decide))).1 (by decide)).1,
   by decide, by decide⟩

/-! ### Size of the rotated files -/

theorem files_of_append (es es' : List recv_event) :
    files_of (es ++ es') = es'.foldl file_step (files_of es) := by
  unfold files_of
  rw [List.foldl_append]

theorem emitted_files_eq (es : List recv_event) :
    emitted_files es = (files_of es).1 ++ [(files_of es).2] := rfl

theorem recv_size_step_exact (env : recv_env) (c : recv_ctx) (f : rx_frame) (st : recv_state)
    (hmode : c.dump_mode = dump_mode.DUMP_INTERVAL_SIZE)
    (hre : env.tp_snaplen_reread st.clock f = f.tp_snaplen)
    (hlt : st.interval + f.tp_snaplen < 2 ^ 64) :
    recv_size_step env c f st =
      if st.interval + f.tp_snaplen > c.dump_interval then
        { st with next_dump := true, interval := 0 }
      else { st with interval := st.interval + f.tp_snaplen } := by
  unfold recv_size_step interval_add
  rw [if_pos hmode, hre, Nat.mod_eq_of_lt hlt]

theorem recv_next_size (env : recv_env) (c : recv_ctx) (f : rx_frame) (st : recv_state)
    (hmode : c.dump_mode = dump_mode.DUMP_INTERVAL_SIZE) (hdump : c.dump = true)
    (hS : c.dump_interval + 2 ^ 32 ≤ 2 ^ 64) (hlen : f.tp_snaplen < 2 ^ 32)
    (hre : ∀ t, env.tp_snaplen_reread t f = f.tp_snaplen)
    (hcl : ∀ x ∈ (files_of st.events).1, x.sum ≤ c.dump_interval + c.frame_size)
    (hopen : (files_of st.events).2.sum ≤ st.interval + f.tp_snaplen)
    (hopenZ : (files_of st.events).2.sum ≤ c.dump_interval + c.frame_size)
    (hint : st.interval ≤ c.dump_interval)
    (hit : st.itimer = (0, 0)) (hnd : st.next_dump = false) :
    ((recv_next env c f st).2 = recv_exit.next_slot →
      size_inv c (c.dump_interval + c.frame_size) (recv_next env c f st).1) ∧
    size_post (c.dump_interval + c.frame_size) (recv_next env c f st).1 := by
  rw [recv_next_eq]
  have e_it : (recv_tick (recv_release c st)).itimer = (0, 0) := hit
  have e_nd : (recv_tick (recv_release c st)).next_dump = false := hnd
  have e_iv : (recv_tick (recv_release c st)).interval = st.interval := rfl
  have e_ev : files_of (recv_tick (recv_release c st)).events = files_of st.events := by
    show files_of (st.events ++ [recv_event.rx_release st.it]) = _
    simp [files_of_append, file_step]
  have hstep := recv_size_step_exact env c f (recv_tick (recv_release c st)) hmode (hre _)
    (by rw [e_iv]; omega)
  rw [e_iv] at hstep
  by_cases hs : (st.sigint || env.sigint_at st.clock) = true
  · rw [if_pos hs]
    refine ⟨fun h => absurd h (by simp), ?_⟩
    show (∀ x ∈ (files_of (recv_tick (recv_release c st)).events).1, _) ∧
      (files_of (recv_tick (recv_release c st)).events).2.sum ≤ _
    rw [e_ev]
    exact ⟨hcl, hopenZ⟩
  · rw [if_neg hs, if_pos hdump, hstep]
    generalize recv_tick (recv_release c st) = st2 at e_it e_nd e_ev
    by_cases hover : st.interval + f.tp_snaplen > c.dump_interval
    · rw [if_pos hover]
      have ht : timer_next_dump env ({ st2 with next_dump := true, interval := 0 } : recv_state) =
          { st2 with next_dump := true, interval := 0 } :=
        timer_next_dump_disarmed env _ e_it
      rw [ht]
      simp only [if_true]
      have hall : ∀ x ∈ (files_of st.events).1 ++ [(files_of st.events).2],
          x.sum ≤ c.dump_interval + c.frame_size := by
        intro x hx
        rw [List.mem_append, List.mem_singleton] at hx
        rcases hx with h | h
        · exact hcl x h
        · rw [h]; exact hopenZ
      by_cases hdir : st2.dump_dir = true
      · rw [recv_rotate_dir c ({ st2 with next_dump := true, interval := 0 } : recv_state) hdir]
        have hfiles : files_of (st2.events ++ [recv_event.rotate] ++
            if c.verbose = true then [recv_event.print_stats] else []) =
            ((files_of st.events).1 ++ [(files_of st.events).2], []) := by
          split_ifs <;> simp [files_of_append, file_step, e_ev]
        simp only [size_inv, size_post, hfiles]
        exact ⟨fun _ => ⟨hall, by simp, Nat.zero_le _, e_it, trivial⟩, hall, by simp⟩
      · have hfile : st2.dump_dir = false := by simpa using hdir
        rw [recv_rotate_file c ({ st2 with next_dump := true, interval := 0 } : recv_state) hfile]
        refine ⟨fun h => absurd h (by simp), ?_⟩
        have hfiles : files_of (st2.events ++ [recv_event.rotate_die]) = files_of st.events := by
          simp [files_of_append, file_step, e_ev]
        simp only [size_post, hfiles]
        exact ⟨hcl, hopenZ⟩
    · rw [if_neg hover]
      have ht : timer_next_dump env
          ({ st2 with interval := st.interval + f.tp_snaplen } : recv_state) =
          { st2 with interval := st.interval + f.tp_snaplen } :=
        timer_next_dump_disarmed env _ e_it
      rw [ht]
      simp only [e_nd, Bool.false_eq_true, if_false]
      simp only [size_inv, size_post, e_ev]
      exact ⟨fun _ => ⟨hcl, hopen, by omega, e_it, trivial⟩, hcl, hopenZ⟩

theorem recv_frame_size (env : recv_env) (c : recv_ctx) (f : rx_frame) (st : recv_state)
    (hmode : c.dump_mode = dump_mode.DUMP_INTERVAL_SIZE) (hdump : c.dump = true)
    (hS : c.dump_interval + 2 ^ 32 ≤ 2 ^ 64) (hlen : f.tp_snaplen < 2 ^ 32)
    (hre : ∀ t, env.tp_snaplen_reread t f = f.tp_snaplen)
    (h : size_inv c (c.dump_interval + c.frame_size) st) :
    ((recv_frame env c f st).2 = recv_exit.next_slot →
      size_inv c (c.dump_interval + c.frame_size) (recv_frame env c f st).1) ∧
    size_post (c.dump_interval + c.frame_size) (recv_frame env c f st).1 := by
  obtain ⟨hcl, hopen, hint, hit, hnd⟩ := h
  unfold recv_frame
  simp only []
  by_cases hr : c.packet_type ≠ -1 ∧ c.packet_type ≠ (f.sll_pkttype : Int)
  · rw [if_pos hr]
    have hf : files_of (st.events ++ [recv_event.rx_reject st.it f]) = files_of st.events := by
      simp [files_of_append, file_step]
    refine recv_next_size env c f _ hmode hdump hS hlen hre ?_ ?_ ?_ hint hit hnd
    · simp only [hf]; exact hcl
    · simp only [hf]; omega
    · simp only [hf]; omega
  · rw [if_neg hr]
    by_cases hbig : c.frame_size < f.tp_snaplen
    · rw [if_pos hbig]
      have hf : files_of (st.events ++ [recv_event.rx_skip st.it f]) = files_of st.events := by
        simp [files_of_append, file_step]
      refine recv_next_size env c f _ hmode hdump hS hlen hre ?_ ?_ ?_ hint hit hnd
      · simp only [hf]; exact hcl
      · simp only [hf]; omega
      · simp only [hf]; omega
    · rw [if_neg hbig, if_pos hdump]
      have hf : files_of (st.events ++ [recv_event.pcap_write st.it f.tp_snaplen] ++
          [recv_event.dissect st.it f.tp_snaplen]) =
          ((files_of st.events).1, (files_of st.events).2 ++ [f.tp_snaplen]) := by
        simp [files_of_append, file_step]
      have hsum : ((files_of st.events).2 ++ [f.tp_snaplen]).sum =
          (files_of st.events).2.sum + f.tp_snaplen := by simp
      by_cases hcap : c.frame_count_max ≠ 0 ∧ st.frame_count + 1 ≥ c.frame_count_max
      · rw [if_pos hcap]
        refine ⟨fun hx => absurd hx (by simp), ?_⟩
        simp only [size_post, hf, hsum]
        exact ⟨hcl, by omega⟩
      · rw [if_neg hcap]
        refine recv_next_size env c f _ hmode hdump hS hlen hre ?_ ?_ ?_ hint hit hnd
        · simp only [hf]; exact hcl
        · simp only [hf, hsum]; omega
        · simp only [hf, hsum]; omega

theorem recv_inner_size (env : recv_env) (c : recv_ctx)
    (hmode : c.dump_mode = dump_mode.DUMP_INTERVAL_SIZE) (hdump : c.dump = true)
    (hS : c.dump_interval + 2 ^ 32 ≤ 2 ^ 64) (rx : List (Option rx_frame)) :
    (∀ f, some f ∈ rx → f.tp_snaplen < 2 ^ 32) →
    (∀ t f, some f ∈ rx → env.tp_snaplen_reread t f = f.tp_snaplen) →
    ∀ st, size_inv c (c.dump_interval + c.frame_size) st →
      size_post (c.dump_interval + c.frame_size) (recv_only_or_dump_inner env c rx st).1 := by
  have hpoll : ∀ st : recv_state,
      files_of (st.events ++ [recv_event.poll]) = files_of st.events := by
    intro st; simp [files_of_append, file_step]
  induction rx with
  | nil =>
    intro _ _ st h
    have h2 := h.2.1
    have h3 := h.2.2.1
    unfold recv_only_or_dump_inner
    exact ⟨h.1, show (files_of st.events).2.sum ≤ _ by omega⟩
  | cons o rx ih =>
    intro hlen hre st h
    have ih1 := ih (fun f hf => hlen f (List.mem_cons_of_mem _ hf))
      (fun t f hf => hre t f (List.mem_cons_of_mem _ hf))
    cases o with
    | none =>
      unfold recv_only_or_dump_inner
      simp only []
      split_ifs
      · simp only [size_post, hpoll]
        exact ⟨h.1, by have := h.2.1; have := h.2.2.1; omega⟩
      · apply ih1
        simp only [size_inv, hpoll]
        exact h
    | some f =>
      unfold recv_only_or_dump_inner
      have h1 := recv_frame_size env c f st hmode hdump hS
        (hlen f (List.mem_cons_self _ _)) (fun t => hre t f (List.mem_cons_self _ _)) h
      generalize recv_frame env c f st = r at h1
      obtain ⟨st1, ex⟩ := r
      cases ex
      · exact ih1 _ (h1.1 rfl)
      · simp only [size_post, hpoll]; exact h1.2
      · exact h1.2

theorem pcap_file_size_eq (hdr_size : Nat) (caplens : List Nat) :
    pcap_file_size hdr_size caplens = 24 + caplens.length * hdr_size + caplens.sum := by
  unfold pcap_file_size
  induction caplens with
  | nil => simp
  | cons x xs ih =>
    simp only [List.map_cons, List.sum_cons, List.length_cons] at ih ⊢
    rw [Nat.add_mul]
    omega

/-- C15, amended. Size-interval rotation into a directory with threshold
`dump_interval`, where `dump_interval + 2 ^ 32 ≤ 2 ^ 64`, every captured length
is below `2 ^ 32`, and the length the loop reads from a slot behind its release is
still the captured length of the frame (the kernel has not filled the slot anew):
for every delivery of SIGINT and every script of RX answers, the captured lengths
of the records of each emitted capture file sum to at most
`dump_interval + frame_size`, so a file of `k` records has at most
`24 + k * hdr_size + dump_interval + frame_size` bytes. -/
theorem rotated_file_payload_bound (env : recv_env) (c : recv_ctx) (interval0 hdr_size : Nat)
    (rx : List (Option rx_frame))
    (hmode : c.dump_mode = dump_mode.DUMP_INTERVAL_SIZE) (hdump : c.dump = true)
    (hS : c.dump_interval + 2 ^ 32 ≤ 2 ^ 64)
    (hlen : ∀ f, some f ∈ rx → f.tp_snaplen < 2 ^ 32)
    (hre : ∀ t f, some f ∈ rx → env.tp_snaplen_reread t f = f.tp_snaplen) :
    ∀ file ∈ emitted_files (recv_only_or_dump env c true interval0 rx).1.events,
      file.sum ≤ c.dump_interval + c.frame_size ∧
      pcap_file_size hdr_size file ≤
        24 + file.length * hdr_size + c.dump_interval + c.frame_size := by
  have hpost : size_post (c.dump_interval + c.frame_size)
      (recv_only_or_dump env c true interval0 rx).1 := by
    apply recv_only_or_dump_rule
      (fun st => st.events = [] ∧ st.itimer = (0, 0) ∧ st.next_dump = false)
      (size_inv c (c.dump_interval + c.frame_size))
      (size_post (c.dump_interval + c.frame_size))
    · exact ⟨rfl, rfl, rfl⟩
    · intro _ _ st h
      obtain ⟨h1, h2, h3⟩ := h
      unfold begin_multi_pcap_file
      rw [if_neg (by rw [hmode]; decide)]
      simp only [size_inv, h1, h2, h3]
      simp [files_of]
    · intro hn; exact absurd ⟨hdump, rfl⟩ hn
    · intro st h
      exact ⟨h.1, show (files_of st.events).2.sum ≤ _ by have := h.2.1; have := h.2.2.1; omega⟩
    · intro st h
      exact recv_inner_size env c hmode hdump hS rx hlen hre _ h
    · intro _ _ st h
      have hf : files_of (st.events ++ [recv_event.setitimer 0 0]) = files_of st.events := by
        simp [files_of_append, file_step]
      simp only [size_post, finish_multi_pcap_file, hf]
      exact h
  intro file hfile
  rw [emitted_files_eq, List.mem_append, List.mem_singleton] at hfile
  have hsum : file.sum ≤ c.dump_interval + c.frame_size := by
    rcases hfile with h | h
    · exact hpost.1 file h
    · rw [h]; exact hpost.2
  refine ⟨hsum, ?_⟩
  rw [pcap_file_size_eq]
  omega

/-- C15, amended, at the run that refutes the bound on the file size: the file of
the two records of 1024 and 2048 captured bytes holds 3072 captured bytes and
24 + 2 * 16 + 3072 bytes in all. -/
theorem rotated_file_payload_bound_witness :
    [1024, 2048] ∈ emitted_files (recv_only_or_dump recv_env_quiet (recv_ctx_size (-1) 1024)
        true 10 [some ⟨1024, 1024, 0⟩, some ⟨2048, 2048, 0⟩]).1.events ∧
    [1024, 2048].sum ≤
      (recv_ctx_size (-1) 1024).dump_interval + (recv_ctx_size (-1) 1024).frame_size ∧
    pcap_file_size 16 [1024, 2048] ≤
      24 + [1024, 2048].length * 16 + (recv_ctx_size (-1) 1024).dump_interval +
        (recv_ctx_size (-1) 1024).frame_size :=
  ⟨by decide,
   rotated_file_payload_bound recv_env_quiet (recv_ctx_size (-1) 1024) 10 16
     [some ⟨1024, 1024, 0⟩, some ⟨2048, 2048, 0⟩] rfl rfl (by decide)
     (fun f hf => by
       simp only [List.mem_cons, Option.some.injEq, List.mem_singleton, List.not_mem_nil,
         or_false] at hf
       rcases hf with h | h <;> rw [h] <;> decide)
     (fun _ _ _ => rfl) [1024, 2048] (by decide)⟩

/-- The condition on the length read behind the release is needed. Threshold 1024
into a directory, three slots of 2048 captured bytes, and an environment in which
the kernel has refilled each slot by the time the loop reads its length again, with
a frame of length 0: the byte counter stays at 0, there is no rotation, and the one
file holds 6144 captured bytes, more than 1024 + 2048. -/
theorem rotated_file_unbounded_on_refill :
    emitted_files (recv_only_or_dump recv_env_refill (recv_ctx_size (-1) 1024) true 10
        [some ⟨2048, 2048, 0⟩, some ⟨2048, 2048, 0⟩, some ⟨2048, 2048, 0⟩]).1.events =
      [[2048, 2048, 2048]] ∧
    (recv_only_or_dump recv_env_refill (recv_ctx_size (-1) 1024) true 10
        [some ⟨2048, 2048, 0⟩, some ⟨2048, 2048, 0⟩, some ⟨2048, 2048, 0⟩]).1.interval = 0 ∧
    ¬ ([2048, 2048, 2048].sum ≤
      (recv_ctx_size (-1) 1024).dump_interval + (recv_ctx_size (-1) 1024).frame_size) := by
  decide

/-! ### The timer in size mode -/

theorem timer_idle_events (st : recv_state) (es : List recv_event)
    (hes : ∀ e ∈ es, e ≠ recv_event.alarm ∧ ∀ s u, e = recv_event.setitimer s u → s = 0 ∧ u = 0)
    (h : timer_idle st) (st1 : recv_state) (hi : st1.itimer = st.itimer)
    (he : st1.events = st.events ++ es) : timer_idle st1 := by
  obtain ⟨hit, ha, hs⟩ := h
  refine ⟨hi.trans hit, ?_, ?_⟩
  · rw [he, List.mem_append]
    rintro (h | h)
    · exact ha h
    · exact (hes _ h).1 rfl
  · intro s u hm
    rw [he, List.mem_append] at hm
    rcases hm with h | h
    · exact hs s u h
    · exact (hes _ h).2 s u rfl

theorem recv_size_step_timer_idle (env : recv_env) (c : recv_ctx) (f : rx_frame)
    (st : recv_state) (h : timer_idle st) : timer_idle (recv_size_step env c f st) := by
  unfold timer_idle at h ⊢
  rw [recv_size_step_itimer, recv_size_step_events]
  exact h

theorem recv_rotate_timer_idle (c : recv_ctx) (st : recv_state) (h : timer_idle st) :
    timer_idle (recv_rotate c st).1 := by
  unfold recv_rotate
  by_cases hd : st.dump_dir = true
  · rw [if_pos hd]
    refine timer_idle_events st
      ([recv_event.rotate] ++ (if c.verbose then [recv_event.print_stats] else [])) ?_ h _ rfl
      (by simp)
    split_ifs <;> simp
  · rw [if_neg hd]
    exact timer_idle_events st [recv_event.rotate_die] (by simp) h _ rfl rfl

theorem recv_next_timer_idle (env : recv_env) (c : recv_ctx) (f : rx_frame) (st : recv_state)
    (h : timer_idle st) : timer_idle (recv_next env c f st).1 := by
  rw [recv_next_eq]
  have h2 : timer_idle (recv_tick (recv_release c st)) :=
    timer_idle_events st [recv_event.rx_release st.it] (by simp) h _ rfl rfl
  have h3 := recv_size_step_timer_idle env c f _ h2
  have h4 : timer_next_dump env (recv_size_step env c f (recv_tick (recv_release c st))) =
      recv_size_step env c f (recv_tick (recv_release c st)) :=
    timer_next_dump_disarmed env _ h3.1
  rw [h4]
  split_ifs
  · exact timer_idle_events st [recv_event.rx_release st.it] (by simp) h _ rfl rfl
  · exact recv_rotate_timer_idle c _ h3
  · exact h3
  · exact h2

theorem recv_frame_timer_idle (env : recv_env) (c : recv_ctx) (f : rx_frame) (st : recv_state)
    (h : timer_idle st) : timer_idle (recv_frame env c f st).1 := by
  unfold recv_frame
  simp only []
  by_cases hr : c.packet_type ≠ -1 ∧ c.packet_type ≠ (f.sll_pkttype : Int)
  · rw [if_pos hr]
    apply recv_next_timer_idle
    exact timer_idle_events st [recv_event.rx_reject st.it f] (by simp) h _ rfl rfl
  · rw [if_neg hr]
    by_cases hbig : c.frame_size < f.tp_snaplen
    · rw [if_pos hbig]
      apply recv_next_timer_idle
      exact timer_idle_events st [recv_event.rx_skip st.it f] (by simp) h _ rfl rfl
    · rw [if_neg hbig]
      have hes : ∀ e ∈ (if c.dump then [recv_event.pcap_write st.it f.tp_snaplen] else []) ++
          [recv_event.dissect st.it f.tp_snaplen],
          e ≠ recv_event.alarm ∧ ∀ s u, e = recv_event.setitimer s u → s = 0 ∧ u = 0 := by
        split_ifs <;> simp
      by_cases hcap : c.frame_count_max ≠ 0 ∧ st.frame_count + 1 ≥ c.frame_count_max
      · rw [if_pos hcap]
        exact timer_idle_events st _ hes h _ rfl (by simp)
      · rw [if_neg hcap]
        apply recv_next_timer_idle
        exact timer_idle_events st _ hes h _ rfl (by simp)

theorem recv_inner_timer_idle (env : recv_env) (c : recv_ctx) (rx : List (Option rx_frame)) :
    ∀ st, timer_idle st → timer_idle (recv_only_or_dump_inner env c rx st).1 := by
  induction rx with
  | nil => intro st h; exact h
  | cons o rx ih =>
    intro st h
    cases o with
    | none =>
      unfold recv_only_or_dump_inner
      simp only []
      split_ifs
      · exact timer_idle_events st [recv_event.poll] (by simp) h _ rfl rfl
      · exact ih _ (timer_idle_events st [recv_event.poll] (by simp) h _ rfl rfl)
    | some f =>
      unfold recv_only_or_dump_inner
      have h1 := recv_frame_timer_idle env c f st h
      generalize recv_frame env c f st = r at h1
      obtain ⟨st1, ex⟩ := r
      cases ex
      · exact ih _ h1
      · exact timer_idle_events st1 [recv_event.poll] (by simp) h1 _ rfl rfl
      · exact h1

/-- C17. A run of `recv_only_or_dump` in size mode, for every environment (whatever
the timer would do if it were armed), output kind, settings and script of RX
answers: from setup to teardown the handler `timer_next_dump` never runs, every
call of `setitimer` has the value zero, and the timer is disarmed at the end. -/
theorem size_mode_timer_never_armed (env : recv_env) (c : recv_ctx) (is_dir : Bool)
    (interval0 : Nat) (rx : List (Option rx_frame))
    (hmode : c.dump_mode = dump_mode.DUMP_INTERVAL_SIZE) :
    recv_event.alarm ∉ (recv_only_or_dump env c is_dir interval0 rx).1.events ∧
    (∀ s u, recv_event.setitimer s u ∈ (recv_only_or_dump env c is_dir interval0 rx).1.events →
      s = 0 ∧ u = 0) ∧
    (recv_only_or_dump env c is_dir interval0 rx).1.itimer = (0, 0) := by
  have key : timer_idle (recv_only_or_dump env c is_dir interval0 rx).1 := by
    apply recv_only_or_dump_rule timer_idle timer_idle timer_idle
    · exact ⟨rfl, by simp, by simp⟩
    · intro _ _ st h
      unfold begin_multi_pcap_file
      rw [if_neg (by rw [hmode]; decide)]
      exact h
    · intro _ st h; exact h
    · intro st h; exact h
    · intro st h; exact recv_inner_timer_idle env c rx _ h
    · intro _ _ st h
      exact timer_idle_events st [recv_event.setitimer 0 0] (by simp) h _
        (show (0, 0) = st.itimer from h.1.symm) rfl
  exact ⟨key.2.1, key.2.2, key.1⟩

/-- C17 at a run in size mode into a directory, with an environment whose timer
would expire at every tick: two rotations, no expiry, one `setitimer` of zero. -/
theorem size_mode_timer_never_armed_witness :
    (recv_only_or_dump recv_env_alarms (recv_ctx_size (-1) 1024) true 10
      [some ⟨1024, 1024, 0⟩, some ⟨2048, 2048, 0⟩, some ⟨1500, 1500, 0⟩]).1.events =
      [recv_event.pcap_write 0 1024, recv_event.dissect 0 1024, recv_event.rx_release 0,
       recv_event.pcap_write 1 2048, recv_event.dissect 1 2048, recv_event.rx_release 1,
       recv_event.rotate,
       recv_event.pcap_write 2 1500, recv_event.dissect 2 1500, recv_event.rx_release 2,
       recv_event.rotate, recv_event.setitimer 0 0] ∧
    recv_event.alarm ∉ (recv_only_or_dump recv_env_alarms
      (recv_ctx_size (-1) 1024) true 10
      [some ⟨1024, 1024, 0⟩, some ⟨2048, 2048, 0⟩, some ⟨1500, 1500, 0⟩]).1.events :=
  ⟨by decide,
   (size_mode_timer_never_armed recv_env_alarms (recv_ctx_size (-1) 1024) true 10
      [some ⟨1024, 1024, 0⟩, some ⟨2048, 2048, 0⟩, some ⟨1500, 1500, 0⟩] rfl).1⟩

/-! ### The timer at the return of the loops -/

theorem timer_elapsed_iterate (interval alarms : Nat) :
    Nat.iterate (timer_elapsed interval) alarms (0, interval) = (0, interval) := by
  induction alarms with
  | zero => rfl
  | succ n ih => rw [Function.iterate_succ_apply']; rw [ih]; rfl

/-- On every exit path of `pcap_to_xmit` the timer is, at the return, what the setup
made it. -/
theorem pcap_to_xmit_timer_at_return (h : pcap_h) (env : xmit_env) (c : xmit_ctx)
    (kpull interval0 alarms fuel : Nat) (fd : List uint8_t) (sg : sg_state)
    (r : xmit_state × (Nat × Nat))
    (hr : pcap_to_xmit h env c kpull interval0 alarms fuel fd sg = some r) :
    r.2 = (0, tx_interval kpull interval0) := by
  unfold pcap_to_xmit at hr
  simp only [timer_elapsed_iterate] at hr
  cases hl : pcap_to_xmit_loop h env c fuel false (xmit_start fd sg) with
  | none => rw [hl] at hr; exact absurd hr (by simp)
  | some st =>
    rw [hl] at hr
    simp only [Option.some.injEq] at hr
    rw [← hr]

/-- On every exit path of `receive_to_xmit` the timer is, at the return, what the
setup made it. -/
theorem receive_to_xmit_timer_at_return (env : bridge_env) (c : bridge_ctx)
    (kpull interval0 alarms spin_fuel : Nat) (rx : List (Option rx_frame))
    (r : (bridge_state × Bool) × (Nat × Nat))
    (hr : receive_to_xmit env c kpull interval0 alarms spin_fuel rx = some r) :
    r.2 = (0, tx_interval kpull interval0) := by
  unfold receive_to_xmit at hr
  simp only [timer_elapsed_iterate] at hr
  cases hl : receive_to_xmit_loop env c spin_fuel rx with
  | none => rw [hl] at hr; exact absurd hr (by simp)
  | some st =>
    rw [hl] at hr
    simp only [Option.some.injEq] at hr
    rw [← hr]

/-- C18. The timer at the return of the three loops, with the global `interval` at
10 and no `kpull`. `pcap_to_xmit` left on a read error (the file of the oversize
record) returns with the timer still set to 10 microseconds; `receive_to_xmit`
left on the cap of one frame, and left on SIGINT, returns with the timer still set
to 10 microseconds; `recv_only_or_dump` in time mode into a directory returns with
the timer disarmed by `finish_multi_pcap_file`. -/
theorem tx_loops_return_with_timer_armed :
    (∃ st, pcap_to_xmit pcap_h_host xmit_env_ready xmit_ctx_2048 0 10 3 8 [] oversize_pool =
      some (st, (0, 10))) ∧
    (receive_to_xmit (env_tx_ready fun _ s => s) (bridge_ctx_cap false 1 64 64) 0 10 3 1
        [some ⟨60, 60, 0⟩]).map (fun r => (r.1.1.sigint, r.1.2, r.2)) =
      some (true, true, (0, 10)) ∧
    (receive_to_xmit (env_tx_ready_sigint 2) (bridge_ctx_cap false 0 64 64) 0 10 3 1
        [none, some ⟨60, 60, 0⟩]).map (fun r => (r.1.1.sigint, r.1.2, r.2)) =
      some (true, true, (0, 10)) ∧
    (recv_only_or_dump recv_env_quiet (recv_ctx_time 60) true 10
        [some ⟨60, 60, 0⟩]).1.events =
      [recv_event.setitimer 60 0, recv_event.pcap_write 0 60, recv_event.dissect 0 60,
       recv_event.rx_release 0, recv_event.setitimer 0 0] ∧
    (recv_only_or_dump recv_env_quiet (recv_ctx_time 60) true 10
        [some ⟨60, 60, 0⟩]).1.itimer = (0, 0) := by
  refine ⟨?_, by decide, by decide, by decide, by decide⟩
  have hread := pcap_sg_read_oversize [] (List.replicate 2048 0)
  have hloop := pcap_to_xmit_loop_read_error pcap_h_host xmit_env_ready xmit_ctx_2048 6
    (xmit_start [] oversize_pool) _ rfl rfl rfl hread (by decide)
  unfold pcap_to_xmit
  simp only [timer_elapsed_iterate]
  rw [hloop]
  exact ⟨_, rfl⟩

/-! ### The ring cursors -/

theorem ring_next_mod (it n : Nat) (hn : 1 ≤ n) (hit : it < n) :
    ring_next it n = (it + 1) % n ∧ ring_next it n < n := by
  unfold ring_next
  split_ifs with h
  · have e : it + 1 = n := by omega
    rw [e, Nat.mod_self]
    exact ⟨rfl, by omega⟩
  · rw [Nat.mod_eq_of_lt (by omega)]
    exact ⟨rfl, by omega⟩

theorem recv_in_ring_append (n : Nat) (st st1 : recv_state) (es : List recv_event)
    (h : recv_in_ring n st)
    (hes : ∀ e ∈ es, ∀ s, recv_event_slot e = some s → s < n)
    (hit : st1.it < n) (he : st1.events = st.events ++ es) : recv_in_ring n st1 := by
  refine ⟨hit, ?_⟩
  intro e hm s hs
  rw [he, List.mem_append] at hm
  rcases hm with hm | hm
  · exact h.2 e hm s hs
  · exact hes e hm s hs

theorem recv_bookkeeping_slot (e : recv_event) (h : recv_bookkeeping e = true) :
    recv_event_slot e = none := by
  cases e <;> simp [recv_bookkeeping] at h <;> rfl

theorem recv_next_in_ring (env : recv_env) (c : recv_ctx) (f : rx_frame) (st : recv_state)
    (hn : 1 ≤ c.frame_nr) (h : recv_in_ring c.frame_nr st) :
    recv_in_ring c.frame_nr (recv_next env c f st).1 := by
  obtain ⟨_, k2, tail, k3, k4⟩ := recv_next_events env c f st
  refine recv_in_ring_append c.frame_nr st _ (recv_event.rx_release st.it :: tail) h ?_ ?_ k3
  · intro e hm s hs
    rw [List.mem_cons] at hm
    rcases hm with hm | hm
    · rw [hm] at hs
      simp only [recv_event_slot, Option.some.injEq] at hs
      rw [← hs]; exact h.1
    · rw [recv_bookkeeping_slot e (k4 e hm)] at hs
      exact absurd hs (by simp)
  · rw [k2]
    exact (ring_next_mod st.it c.frame_nr hn h.1).2

theorem recv_frame_in_ring (env : recv_env) (c : recv_ctx) (f : rx_frame) (st : recv_state)
    (hn : 1 ≤ c.frame_nr) (h : recv_in_ring c.frame_nr st) :
    recv_in_ring c.frame_nr (recv_frame env c f st).1 := by
  have hslot : ∀ es : List recv_event,
      (∀ e ∈ es, ∀ s, recv_event_slot e = some s → s = st.it) →
      ∀ e ∈ es, ∀ s, recv_event_slot e = some s → s < c.frame_nr := by
    intro es hes e hm s hs
    rw [hes e hm s hs]; exact h.1
  unfold recv_frame
  simp only []
  by_cases hr : c.packet_type ≠ -1 ∧ c.packet_type ≠ (f.sll_pkttype : Int)
  · rw [if_pos hr]
    apply recv_next_in_ring _ _ _ _ hn
    exact recv_in_ring_append _ st _ [recv_event.rx_reject st.it f] h
      (hslot _ (by simp [recv_event_slot])) h.1 rfl
  · rw [if_neg hr]
    by_cases hbig : c.frame_size < f.tp_snaplen
    · rw [if_pos hbig]
      apply recv_next_in_ring _ _ _ _ hn
      exact recv_in_ring_append _ st _ [recv_event.rx_skip st.it f] h
        (hslot _ (by simp [recv_event_slot])) h.1 rfl
    · rw [if_neg hbig]
      have hes : ∀ e ∈ (if c.dump then [recv_event.pcap_write st.it f.tp_snaplen] else []) ++
          [recv_event.dissect st.it f.tp_snaplen],
          ∀ s, recv_event_slot e = some s → s = st.it := by
        split_ifs <;> simp [recv_event_slot]
      by_cases hcap : c.frame_count_max ≠ 0 ∧ st.frame_count + 1 ≥ c.frame_count_max
      · rw [if_pos hcap]
        exact recv_in_ring_append _ st _ _ h (hslot _ hes) h.1 (by simp)
      · rw [if_neg hcap]
        apply recv_next_in_ring _ _ _ _ hn
        exact recv_in_ring_append _ st _ _ h (hslot _ hes) h.1 (by simp)

theorem recv_inner_in_ring (env : recv_env) (c : recv_ctx) (hn : 1 ≤ c.frame_nr)
    (rx : List (Option rx_frame)) :
    ∀ st, recv_in_ring c.frame_nr st →
      recv_in_ring c.frame_nr (recv_only_or_dump_inner env c rx st).1 := by
  induction rx with
  | nil => intro st h; exact h
  | cons o rx ih =>
    intro st h
    cases o with
    | none =>
      unfold recv_only_or_dump_inner
      simp only []
      split_ifs
      · exact recv_in_ring_append _ st _ [recv_event.poll] h (by simp [recv_event_slot]) h.1 rfl
      · exact ih _
          (recv_in_ring_append _ st _ [recv_event.poll] h (by simp [recv_event_slot]) h.1 rfl)
    | some f =>
      unfold recv_only_or_dump_inner
      have h1 := recv_frame_in_ring env c f st hn h
      generalize recv_frame env c f st = r at h1
      obtain ⟨st1, ex⟩ := r
      cases ex
      · exact ih _ h1
      · exact recv_in_ring_append _ st1 _ [recv_event.poll] h1 (by simp [recv_event_slot])
          h1.1 rfl
      · exact h1

theorem recv_only_or_dump_in_ring (env : recv_env) (c : recv_ctx) (is_dir : Bool)
    (interval0 : Nat) (rx : List (Option rx_frame)) (hn : 1 ≤ c.frame_nr) :
    recv_in_ring c.frame_nr (recv_only_or_dump env c is_dir interval0 rx).1 := by
  apply recv_only_or_dump_rule (recv_in_ring c.frame_nr) (recv_in_ring c.frame_nr)
    (recv_in_ring c.frame_nr)
  · exact ⟨hn, by simp⟩
  · intro _ _ st h
    unfold begin_multi_pcap_file
    split_ifs
    · exact recv_in_ring_append _ st _ [recv_event.setitimer c.dump_interval 0] h
        (by simp [recv_event_slot]) h.1 rfl
    · exact h
  · intro _ st h; exact h
  · intro st h; exact h
  · intro st h; exact recv_inner_in_ring env c hn rx _ h
  · intro _ _ st h
    exact recv_in_ring_append _ st _ [recv_event.setitimer 0 0] h
      (by simp [recv_event_slot]) h.1 rfl

theorem bridge_in_ring_append (c : bridge_ctx) (st st1 : bridge_state) (es : List bridge_event)
    (h : bridge_in_ring c st) (hes : ∀ e ∈ es, bridge_event_in_ring c e)
    (hin : st1.it_in < c.rx_frame_nr) (hout : st1.it_out < c.tx_frame_nr)
    (he : st1.events = st.events ++ es) : bridge_in_ring c st1 := by
  refine ⟨hin, hout, ?_⟩
  intro e hm
  rw [he, List.mem_append] at hm
  rcases hm with hm | hm
  · exact h.2.2 e hm
  · exact hes e hm

theorem tx_next_in_ring (env : bridge_env) (c : bridge_ctx) (st : bridge_state)
    (hseq : c.randomize = false) (hn : 1 ≤ c.tx_frame_nr) (h : st.it_out < c.tx_frame_nr) :
    tx_next env c st < c.tx_frame_nr := by
  unfold tx_next
  rw [hseq]
  exact (ring_next_mod st.it_out c.tx_frame_nr hn h).2

theorem tx_spin_in_ring (env : bridge_env) (c : bridge_ctx) (hseq : c.randomize = false)
    (hn : 1 ≤ c.tx_frame_nr) (fuel : Nat) :
    ∀ st r, bridge_in_ring c st → tx_spin env c fuel st = some r →
      bridge_in_ring c r.1 ∧ r.1.frame_count = st.frame_count := by
  induction fuel with
  | zero => intro st r _ hr; exact absurd hr (by simp [tx_spin])
  | succ fuel ih =>
    intro st r h hr
    unfold tx_spin at hr
    split_ifs at hr
    · simp only [Option.some.injEq] at hr
      rw [← hr]; exact ⟨h, rfl⟩
    · simp only [Option.some.injEq] at hr
      rw [← hr]; exact ⟨h, rfl⟩
    · have h1 : bridge_in_ring c
          { st with clock := st.clock + 1, it_out := tx_next env c st } :=
        ⟨h.1, tx_next_in_ring env c st hseq hn h.2.1, h.2.2⟩
      exact ih { st with clock := st.clock + 1, it_out := tx_next env c st } r h1 hr

theorem bridge_next_in_ring (env : bridge_env) (c : bridge_ctx) (st : bridge_state)
    (hn : 1 ≤ c.rx_frame_nr) (h : bridge_in_ring c st) :
    bridge_in_ring c (bridge_next env c st).1 := by
  have hin := (ring_next_mod st.it_in c.rx_frame_nr hn h.1).2
  have hes : ∀ e ∈ [bridge_event.rx_release st.it_in], bridge_event_in_ring c e := by
    intro e hm
    rw [List.mem_singleton] at hm
    rw [hm]; exact h.1
  unfold bridge_next
  simp only []
  split_ifs
  · exact bridge_in_ring_append c st _ _ h hes hin h.2.1 rfl
  · exact bridge_in_ring_append c st _ _ h hes hin h.2.1 rfl

theorem bridge_frame_in_ring (env : bridge_env) (c : bridge_ctx) (spin_fuel : Nat)
    (f : rx_frame) (hseq : c.randomize = false) (hrx : 1 ≤ c.rx_frame_nr)
    (htx : 1 ≤ c.tx_frame_nr) (st : bridge_state) (r : bridge_state × body_exit)
    (h : bridge_in_ring c st) (hr : bridge_frame env c spin_fuel f st = some r) :
    bridge_in_ring c r.1 := by
  unfold bridge_frame at hr
  simp only [] at hr
  by_cases hf : c.packet_type ≠ -1 ∧ c.packet_type ≠ (f.sll_pkttype : Int)
  · rw [if_pos hf] at hr
    simp only [Option.some.injEq] at hr
    rw [← hr]
    exact bridge_next_in_ring env c _ hrx h
  · rw [if_neg hf] at hr
    cases hs : tx_spin env c spin_fuel { st with frame_count := st.frame_count + 1 } with
    | none => rw [hs] at hr; exact absurd hr (by simp)
    | some r2 =>
      obtain ⟨st2, ready⟩ := r2
      rw [hs] at hr
      simp only [] at hr
      have h2 := (tx_spin_in_ring env c hseq htx spin_fuel _ _
        (show bridge_in_ring c { st with frame_count := st.frame_count + 1 } from h) hs).1
      simp only [] at h2
      have hes : ∀ e ∈ [bridge_event.tx_clone st2.it_out ready f,
          bridge_event.tx_copy st2.it_out ready f.tp_len,
          bridge_event.tx_publish st2.it_out ready], bridge_event_in_ring c e := by
        intro e hm
        simp only [List.mem_cons, List.mem_singleton, List.not_mem_nil, or_false] at hm
        rcases hm with hm | hm | hm <;> (rw [hm]; exact h2.2.1)
      have h3 : bridge_in_ring c
          { st2 with
            events := st2.events ++
              [bridge_event.tx_clone st2.it_out ready f,
               bridge_event.tx_copy st2.it_out ready f.tp_len,
               bridge_event.tx_publish st2.it_out ready],
            it_out := tx_next env c st2 } :=
        bridge_in_ring_append c st2 _ _ h2 hes h2.1
          (tx_next_in_ring env c st2 hseq htx h2.2.1) rfl
      split_ifs at hr
      · simp only [Option.some.injEq] at hr
        rw [← hr]; exact h3
      · simp only [Option.some.injEq] at hr
        rw [← hr]
        exact bridge_next_in_ring env c _ hrx h3

theorem receive_to_xmit_inner_in_ring (env : bridge_env) (c : bridge_ctx) (spin_fuel : Nat)
    (hseq : c.randomize = false) (hrx : 1 ≤ c.rx_frame_nr) (htx : 1 ≤ c.tx_frame_nr)
    (rx : List (Option rx_frame)) :
    ∀ st r, bridge_in_ring c st → receive_to_xmit_inner env c spin_fuel rx st = some r →
      bridge_in_ring c r.1 := by
  have hpoll : ∀ e ∈ [bridge_event.poll], bridge_event_in_ring c e := by
    intro e hm
    rw [List.mem_singleton] at hm
    rw [hm]; trivial
  induction rx with
  | nil =>
    intro st r h hr
    unfold receive_to_xmit_inner at hr
    simp only [Option.some.injEq] at hr
    rw [← hr]; exact h
  | cons o rx ih =>
    intro st r h hr
    cases o with
    | none =>
      unfold receive_to_xmit_inner at hr
      simp only [] at hr
      have h1 : bridge_in_ring c
          { st with events := st.events ++ [bridge_event.poll], clock := st.clock + 1 } :=
        bridge_in_ring_append c st _ _ h hpoll h.1 h.2.1 rfl
      split_ifs at hr
      · simp only [Option.some.injEq] at hr
        rw [← hr]; exact h1
      · exact ih _ r h1 hr
    | some f =>
      unfold receive_to_xmit_inner at hr
      cases hb : bridge_frame env c spin_fuel f st with
      | none => rw [hb] at hr; exact absurd hr (by simp)
      | some r1 =>
        have h1 := bridge_frame_in_ring env c spin_fuel f hseq hrx htx st r1 h hb
        obtain ⟨st1, ex⟩ := r1
        rw [hb] at hr
        cases ex
        · exact ih _ r h1 hr
        · simp only [Option.some.injEq] at hr
          rw [← hr]
          exact bridge_in_ring_append c st1 _ _ h1 hpoll h1.1 h1.2.1 rfl
        · simp only [Option.some.injEq] at hr
          rw [← hr]; exact h1

theorem receive_to_xmit_loop_in_ring (env : bridge_env) (c : bridge_ctx) (spin_fuel : Nat)
    (hseq : c.randomize = false) (hrx : 1 ≤ c.rx_frame_nr) (htx : 1 ≤ c.tx_frame_nr)
    (rx : List (Option rx_frame)) (r : bridge_state × Bool)
    (hr : receive_to_xmit_loop env c spin_fuel rx = some r) : bridge_in_ring c r.1 := by
  unfold receive_to_xmit_loop at hr
  have h0 : ∀ b, bridge_in_ring c
      { sigint := b, frame_count := 0, it_in := 0, it_out := 0, clock := 1, events := [] } :=
    fun b => ⟨hrx, htx, by simp⟩
  split_ifs at hr
  · simp only [Option.some.injEq] at hr
    rw [← hr]; exact h0 true
  · exact receive_to_xmit_inner_in_ring env c spin_fuel hseq hrx htx rx _ r (h0 false) hr

theorem pcap_to_xmit_read_cursor (h : pcap_h) (env : xmit_env) (c : xmit_ctx) (fuel : Nat) :
    ∀ st out r, pcap_to_xmit_read h env c fuel st out = some r →
      r.1.it = st.it ∧ r.1.sent = st.sent := by
  induction fuel with
  | zero => intro st out r hr; exact absurd hr (by simp [pcap_to_xmit_read])
  | succ fuel ih =>
    intro st out r hr
    unfold pcap_to_xmit_read at hr
    cases hrd : pcap_sg_read h st.fd st.sg st.phdr c.type out c.frame_size with
    | none => rw [hrd] at hr; exact absurd hr (by simp)
    | some rd =>
      rw [hrd] at hr
      simp only [] at hr
      split_ifs at hr
      all_goals
        first
        | (have k := ih _ _ r hr; exact k)
        | (simp only [Option.some.injEq] at hr; rw [← hr]; exact ⟨rfl, rfl⟩)

theorem pcap_to_xmit_loop_in_ring (h : pcap_h) (env : xmit_env) (c : xmit_ctx)
    (hn : 1 ≤ c.frame_nr) (fuel : Nat) :
    ∀ inner st r, xmit_in_ring c.frame_nr st →
      pcap_to_xmit_loop h env c fuel inner st = some r → xmit_in_ring c.frame_nr r := by
  induction fuel with
  | zero => intro inner st r _ hr; exact absurd hr (by simp [pcap_to_xmit_loop])
  | succ fuel ih =>
    intro inner st r hst hr
    unfold pcap_to_xmit_loop at hr
    by_cases h1 : (!inner && (st.sigint || env.sigint_at st.clock)) = true
    · rw [if_pos h1] at hr
      simp only [Option.some.injEq] at hr
      rw [← hr]; exact hst
    · rw [if_neg h1] at hr
      by_cases h2 : env.tx_ready st.clock st.it = true
      · rw [if_pos h2] at hr
        cases hrd : pcap_to_xmit_read h env c fuel { st with clock := st.clock + 1 }
            (List.replicate c.frame_size 0) with
        | none => rw [hrd] at hr; exact absurd hr (by simp)
        | some p =>
          obtain ⟨k1, k2⟩ := pcap_to_xmit_read_cursor h env c fuel _ _ p hrd
          obtain ⟨st1, o⟩ := p
          rw [hrd] at hr
          simp only [] at k1 k2
          have hst1 : xmit_in_ring c.frame_nr st1 := by
            refine ⟨by rw [k1]; exact hst.1, ?_⟩
            rw [k2]; exact hst.2
          cases o with
          | none =>
            simp only [Option.some.injEq] at hr
            rw [← hr]; exact hst1
          | some out =>
            simp only [] at hr
            have hst2 : xmit_in_ring c.frame_nr
                { st1 with
                  tx_bytes := st1.tx_bytes + env.tp_len st1.phdr,
                  tx_packets := st1.tx_packets + 1,
                  sent := st1.sent ++
                    [({ slot := st1.it, phdr := st1.phdr,
                        data := out.take (h.pcap_get_length st1.phdr c.type) } : tx_sent)],
                  it := ring_next st1.it c.frame_nr } := by
              refine ⟨(ring_next_mod st1.it c.frame_nr hn hst1.1).2, ?_⟩
              intro x hx
              simp only [List.mem_append, List.mem_singleton] at hx
              rcases hx with hx | hx
              · exact hst1.2 x hx
              · rw [hx]; exact hst1.1
            split_ifs at hr
            · simp only [Option.some.injEq] at hr
              rw [← hr]; exact hst2
            · simp only [Option.some.injEq] at hr
              rw [← hr]; exact hst2
            · refine ih _ _ r ?_ hr
              exact hst2
      · rw [if_neg h2] at hr
        refine ih _ _ r ?_ hr
        exact hst

/-- C20. The increment-and-wrap step on a ring of `n ≥ 1` frames, at a cursor
`it < n`, gives `(it + 1) mod n`, again below `n`; and in `recv_only_or_dump`, in
`receive_to_xmit` without randomisation and in `pcap_to_xmit`, on rings of at least
one frame, the cursors stay below the number of frames, and so does the slot of
every access: of every event of the two RX loops and of every frame sent by
`pcap_to_xmit`. -/
theorem ring_cursor_sequential (n it : Nat) (hn : 1 ≤ n) (hit : it < n) :
    ring_next it n = (it + 1) % n ∧ ring_next it n < n ∧
    (∀ (env : recv_env) (c : recv_ctx) (is_dir : Bool) (interval0 : Nat)
        (rx : List (Option rx_frame)), c.frame_nr = n →
      recv_in_ring n (recv_only_or_dump env c is_dir interval0 rx).1) ∧
    (∀ (env : bridge_env) (c : bridge_ctx) (spin_fuel : Nat) (rx : List (Option rx_frame))
        (r : bridge_state × Bool), c.randomize = false → c.rx_frame_nr = n →
        1 ≤ c.tx_frame_nr → receive_to_xmit_loop env c spin_fuel rx = some r →
      bridge_in_ring c r.1) ∧
    (∀ (h : pcap_h) (env : xmit_env) (c : xmit_ctx) (fuel : Nat) (fd : List uint8_t)
        (sg : sg_state) (r : xmit_state), c.frame_nr = n →
        pcap_to_xmit_loop h env c fuel false (xmit_start fd sg) = some r →
      xmit_in_ring n r) := by
  refine ⟨(ring_next_mod it n hn hit).1, (ring_next_mod it n hn hit).2, ?_, ?_, ?_⟩
  · intro env c is_dir interval0 rx hc
    rw [← hc]
    exact recv_only_or_dump_in_ring env c is_dir interval0 rx (by rw [hc]; exact hn)
  · intro env c spin_fuel rx r hseq hc htx hr
    exact receive_to_xmit_loop_in_ring env c spin_fuel hseq (by rw [hc]; exact hn) htx rx r hr
  · intro h env c fuel fd sg r hc hr
    rw [← hc]
    refine pcap_to_xmit_loop_in_ring h env c (by rw [hc]; exact hn) fuel false _ r ?_ hr
    exact ⟨by rw [hc]; exact hn, by simp [xmit_start]⟩

/-- C20 on a ring of 64 frames: the step from the last slot wraps to slot 0, and a
run of `recv_only_or_dump` over 65 ready slots keeps the cursor and the slot of
every event below 64. -/
theorem ring_cursor_sequential_witness :
    ring_next 63 64 = (63 + 1) % 64 ∧ ring_next 63 64 < 64 ∧ ring_next 63 64 = 0 ∧
    recv_in_ring 64 (recv_only_or_dump recv_env_quiet (recv_ctx_cap 0) false 10
      (List.replicate 65 (some ⟨60, 60, 0⟩))).1 :=
  ⟨(ring_cursor_sequential 64 63 (by decide) (by decide)).1,
   (ring_cursor_sequential 64 63 (by decide) (by decide)).2.1,
   by decide,
   (ring_cursor_sequential 64 63 (by decide) (by decide)).2.2.1 recv_env_quiet (recv_ctx_cap 0)
     false 10 (List.replicate 65 (some ⟨60, 60, 0⟩)) rfl⟩

/-! ### The slot that reaches the cap -/

theorem tx_spin_keeps (env : bridge_env) (c : bridge_ctx) (fuel : Nat) :
    ∀ st r, tx_spin env c fuel st = some r →
      r.1.events = st.events ∧ r.1.it_in = st.it_in ∧ r.1.frame_count = st.frame_count := by
  induction fuel with
  | zero => intro st r hr; exact absurd hr (by simp [tx_spin])
  | succ fuel ih =>
    intro st r hr
    unfold tx_spin at hr
    split_ifs at hr
    · simp only [Option.some.injEq] at hr
      rw [← hr]; exact ⟨rfl, rfl, rfl⟩
    · simp only [Option.some.injEq] at hr
      rw [← hr]; exact ⟨rfl, rfl, rfl⟩
    · have k := ih _ r hr
      exact k

/-- The slot that reaches the cap, in general. With the cap `n ≥ 1`, a ready RX
slot that passes the packet-type filter (and, in `recv_only_or_dump`, fits the
frame) and makes the frame count reach `n`: the stop flag is set and the inner loop
is left by `break` at once. In `recv_only_or_dump` the record is written (when
dumping) and dissected, in `receive_to_xmit` the TX slot is written and published;
in both the RX slot is not released and the RX cursor is not advanced. -/
theorem frame_cap_break_keeps_slot (n : Nat) (hn : 1 ≤ n) :
    (∀ (env : recv_env) (c : recv_ctx) (f : rx_frame) (st : recv_state),
      c.frame_count_max = n →
      (c.packet_type = -1 ∨ c.packet_type = (f.sll_pkttype : Int)) →
      f.tp_snaplen ≤ c.frame_size → n ≤ st.frame_count + 1 →
      (recv_frame env c f st).2 = recv_exit.break_inner ∧
      (recv_frame env c f st).1.sigint = true ∧
      (recv_frame env c f st).1.it = st.it ∧
      (recv_frame env c f st).1.events =
        st.events ++ (if c.dump then [recv_event.pcap_write st.it f.tp_snaplen] else []) ++
          [recv_event.dissect st.it f.tp_snaplen]) ∧
    (∀ (env : bridge_env) (c : bridge_ctx) (spin_fuel : Nat) (f : rx_frame)
        (st : bridge_state) (r : bridge_state × body_exit),
      c.frame_count_max = n →
      (c.packet_type = -1 ∨ c.packet_type = (f.sll_pkttype : Int)) →
      n ≤ st.frame_count + 1 →
      bridge_frame env c spin_fuel f st = some r →
      r.2 = body_exit.break_inner ∧ r.1.sigint = true ∧ r.1.it_in = st.it_in ∧
      ∃ slot ready, r.1.events =
        st.events ++ [bridge_event.tx_clone slot ready f, bridge_event.tx_copy slot ready f.tp_len,
          bridge_event.tx_publish slot ready]) := by
  constructor
  · intro env c f st hc hpass hfit hk
    have hnf : ¬ (c.packet_type ≠ -1 ∧ c.packet_type ≠ (f.sll_pkttype : Int)) := by
      rintro ⟨h1, h2⟩
      rcases hpass with h | h
      · exact h1 h
      · exact h2 h
    have hcap : c.frame_count_max ≠ 0 ∧ st.frame_count + 1 ≥ c.frame_count_max := by
      rw [hc]; exact ⟨by omega, hk⟩
    unfold recv_frame
    simp only []
    rw [if_neg hnf, if_neg (Nat.not_lt.mpr hfit), if_pos hcap]
    exact ⟨rfl, rfl, rfl, rfl⟩
  · intro env c spin_fuel f st r hc hpass hk hr
    have hnf : ¬ (c.packet_type ≠ -1 ∧ c.packet_type ≠ (f.sll_pkttype : Int)) := by
      rintro ⟨h1, h2⟩
      rcases hpass with h | h
      · exact h1 h
      · exact h2 h
    unfold bridge_frame at hr
    simp only [] at hr
    rw [if_neg hnf] at hr
    cases hs : tx_spin env c spin_fuel { st with frame_count := st.frame_count + 1 } with
    | none => rw [hs] at hr; exact absurd hr (by simp)
    | some r2 =>
      obtain ⟨k1, k2, k3⟩ := tx_spin_keeps env c spin_fuel _ r2 hs
      obtain ⟨st2, ready⟩ := r2
      simp only [] at k1 k2 k3
      rw [hs] at hr
      simp only [] at hr
      have hcap : c.frame_count_max ≠ 0 ∧ st2.frame_count ≥ c.frame_count_max := by
        rw [hc, k3]; exact ⟨by omega, hk⟩
      rw [if_pos hcap] at hr
      simp only [Option.some.injEq] at hr
      rw [← hr]
      exact ⟨rfl, rfl, k2, st2.it_out, ready, by simp only [k1]⟩

/-- The slot that reaches the cap, at the cap 1 and a first slot of 60 bytes: the
body of `recv_only_or_dump` is left by `break` with the cursor still at slot 0 and
the dissection as its only event. -/
theorem frame_cap_break_keeps_slot_witness :
    (recv_frame recv_env_quiet (recv_ctx_cap 1) ⟨60, 60, 0⟩ (recv_start 10)).2 =
      recv_exit.break_inner ∧
    (recv_frame recv_env_quiet (recv_ctx_cap 1) ⟨60, 60, 0⟩ (recv_start 10)).1.sigint = true ∧
    (recv_frame recv_env_quiet (recv_ctx_cap 1) ⟨60, 60, 0⟩ (recv_start 10)).1.it = 0 ∧
    (recv_frame recv_env_quiet (recv_ctx_cap 1) ⟨60, 60, 0⟩ (recv_start 10)).1.events =
      [recv_event.dissect 0 60] :=
  (frame_cap_break_keeps_slot 1 (by decide)).1 recv_env_quiet (recv_ctx_cap 1) ⟨60, 60, 0⟩
    (recv_start 10) rfl (Or.inl rfl) (by decide) (by decide)

/-! ## The option `-F` -/

/-- C21. The option `-F` at arguments whose text behind the digits is not one of the
seven units: `10KiBxyz`, `5seconds`, `3minutes` and `2sx` are not rejected, they
give 10 KiB, 5 seconds, 3 minutes and 2 seconds, because each unit is compared on
the length of the unit only. (Arguments with one of the seven units, like `10KiB`
and `2hrs`, give the documented values, and an argument without unit is
rejected.) -/
theorem main_opt_F_accepts_unit_prefix :
    main_opt_F "10KiBxyz" = Except.ok (dump_mode.DUMP_INTERVAL_SIZE, 10 * 2 ^ 10) ∧
    main_opt_F "5seconds" = Except.ok (dump_mode.DUMP_INTERVAL_TIME, 5) ∧
    main_opt_F "3minutes" = Except.ok (dump_mode.DUMP_INTERVAL_TIME, 180) ∧
    main_opt_F "2sx" = Except.ok (dump_mode.DUMP_INTERVAL_TIME, 2) ∧
    main_opt_F "10KiB" = Except.ok (dump_mode.DUMP_INTERVAL_SIZE, 10 * 2 ^ 10) ∧
    main_opt_F "2hrs" = Except.ok (dump_mode.DUMP_INTERVAL_TIME, 7200) ∧
    main_opt_F "10" = Except.error "Syntax error in time/size param!" := by
  exact ⟨rfl, rfl, rfl, rfl, rfl, rfl, rfl⟩

theorem takeWhile_append_stop (p : Char → Bool) (ds r : List Char) (c : Char)
    (hds : ∀ d ∈ ds, p d = true) (hc : p c = false) :
    (ds ++ c :: r).takeWhile p = ds ∧ (ds ++ c :: r).dropWhile p = c :: r := by
  induction ds with
  | nil => simp [List.takeWhile, List.dropWhile, hc]
  | cons d ds ih =>
    have hd := hds d (List.mem_cons_self _ _)
    obtain ⟨i1, i2⟩ := ih (fun e he => hds e (List.mem_cons_of_mem _ he))
    rw [List.cons_append, List.takeWhile_cons, List.dropWhile_cons, hd]
    simp only [if_true, i1, i2, and_self]

theorem takeWhile_all (p : Char → Bool) (ds : List Char) (hds : ∀ d ∈ ds, p d = true) :
    ds.takeWhile p = ds := by
  induction ds with
  | nil => rfl
  | cons d ds ih =>
    have hd := hds d (List.mem_cons_self _ _)
    rw [List.takeWhile_cons, hd]
    simp only [if_true, ih (fun e he => hds e (List.mem_cons_of_mem _ he))]

/-- A number without a leading zero, small enough for a `long`, is read by `strtol`
as its decimal value. -/
theorem strtol_base0_decimal (ds : List Char) (hdig : ∀ c ∈ ds, isdigit c = true)
    (hlead : ds.head? ≠ some '0') (hlong : digits_val 10 ds < 2 ^ 63) :
    strtol_base0 ds = digits_val 10 ds := by
  unfold strtol_base0
  cases ds with
  | nil => rfl
  | cons c rest =>
    have hc : c ≠ '0' := fun h => hlead (by rw [h]; rfl)
    simp only [if_neg hc, takeWhile_all isdigit (c :: rest) hdig]
    exact Nat.min_eq_left (by omega)

/-- The documented part of `-F`: a decimal number without a leading zero followed
by exactly one of the seven units gives the factor of the unit times the number,
when that fits an `unsigned long` and the number fits a `long`. -/
theorem main_opt_F_exact_units (ds : List Char) (u : String) (factor : Nat) (mode : dump_mode)
    (hdig : ∀ c ∈ ds, isdigit c = true) (hlead : ds.head? ≠ some '0')
    (hu : (u, factor, mode) ∈ dump_interval_units)
    (hlong : digits_val 10 ds < 2 ^ 63) (hfit : factor * digits_val 10 ds < 2 ^ 64) :
    main_opt_F (String.mk (ds ++ u.toList)) = Except.ok (mode, factor * digits_val 10 ds) := by
  have hs := strtol_base0_decimal ds hdig hlead hlong
  have key : ∀ (c : Char) (r : List Char), isdigit c = false →
      dump_interval_unit (String.mk (c :: r)) = some (factor, mode) →
      main_opt_F (String.mk (ds ++ c :: r)) = Except.ok (mode, factor * digits_val 10 ds) := by
    intro c r hc hunit
    obtain ⟨t1, t2⟩ := takeWhile_append_stop isdigit ds r c hdig hc
    unfold main_opt_F
    simp only [String.toList, t1, t2, hunit, hs, Nat.mod_eq_of_lt hfit]
  simp only [dump_interval_units, List.mem_cons, Prod.mk.injEq, List.mem_singleton,
    List.not_mem_nil, or_false] at hu
  rcases hu with h | h | h | h | h | h | h <;> obtain ⟨h1, h2, h3⟩ := h <;> subst h1 h2 h3
  · exact key 'K' ['i', 'B'] (by decide) (by decide)
  · exact key 'M' ['i', 'B'] (by decide) (by decide)
  · exact key 'G' ['i', 'B'] (by decide) (by decide)
  · exact key 's' [] (by decide) (by decide)
  · exact key 's' ['e', 'c'] (by decide) (by decide)
  · exact key 'm' ['i', 'n'] (by decide) (by decide)
  · exact key 'h' ['r', 's'] (by decide) (by decide)

/-- The number of `-F` is read with base 0 and multiplied in an `unsigned long`: a
leading zero makes it octal (`010KiB` is 8 KiB, `08KiB` is 0), and the product is
taken modulo 2 ^ 64 (`18014398509481984KiB` is 0). -/
theorem main_opt_F_octal_and_wrap :
    main_opt_F "010KiB" = Except.ok (dump_mode.DUMP_INTERVAL_SIZE, 8 * 2 ^ 10) ∧
    main_opt_F "08KiB" = Except.ok (dump_mode.DUMP_INTERVAL_SIZE, 0) ∧
    main_opt_F "18014398509481984KiB" = Except.ok (dump_mode.DUMP_INTERVAL_SIZE, 0) ∧
    main_opt_F "KiB" = Except.ok (dump_mode.DUMP_INTERVAL_SIZE, 0) := by
  exact ⟨rfl, rfl, rfl, rfl⟩

/-! ## The standard-stream endpoints -/

/-- The test `strncmp("-", s, strlen("-")) == 0` holds for every string that begins
with `-`. -/
theorem strncmp_dash_iff (s : String) :
    strncmp_eq "-" s "-".length = true ↔ s.toList.head? = some '-' := by
  have hl : "-".length = 1 := rfl
  simp only [strncmp_eq, hl, beq_iff_eq]
  show List.take 1 ['-'] = List.take 1 s.toList ↔ _
  cases s.toList with
  | nil => simp
  | cons a t =>
    simp only [List.take_succ_cons, List.take_zero, List.head?_cons, Option.some.injEq,
      List.cons.injEq, and_true]
    exact eq_comm

/-- C22. The endpoints `-trace.pcap` and `-out.pcap`, both paths of files that can be
opened: the input of `pcap_to_xmit` and `read_pcap` is taken from stdin, and the
output of `read_pcap` and of `begin_single_pcap_file` goes to stdout; no file is
opened, because only the first character is compared with `-`. -/
theorem dash_prefix_taken_for_stream :
    open_pcap_input (fun _ => true)
        { device_in := "-trace.pcap", device_out := some "-out.pcap", dump := 0,
          pcap := pcap_ops_groups.PCAP_OPS_SG } =
      Except.ok (fd_source.dup_stdin,
        { device_in := "-trace.pcap", device_out := some "-out.pcap", dump := 0,
          pcap := pcap_ops_groups.PCAP_OPS_SG }) ∧
    open_pcap_output (fun _ => true)
        { device_in := "-trace.pcap", device_out := some "-out.pcap", dump := 0,
          pcap := pcap_ops_groups.PCAP_OPS_SG } =
      Except.ok (some fd_source.dup_stdout) ∧
    (begin_single_pcap_file (fun _ => true)
        { device_in := "eth0", device_out := some "-out.pcap", dump := 1,
          pcap := pcap_ops_groups.PCAP_OPS_SG }).map (fun r => r.1) =
      Except.ok fd_source.dup_stdout ∧
    open_pcap_input (fun _ => true)
        { device_in := "trace.pcap", device_out := some "out.pcap", dump := 0,
          pcap := pcap_ops_groups.PCAP_OPS_SG } =
      Except.ok (fd_source.opened "trace.pcap",
        { device_in := "trace.pcap", device_out := some "out.pcap", dump := 0,
          pcap := pcap_ops_groups.PCAP_OPS_SG }) := by
  exact ⟨rfl, rfl, rfl, rfl⟩

/-! ## The cap and the slots that are not accepted -/

theorem recv_accepts_iff (c : recv_ctx) (f : rx_frame) :
    recv_accepts c f = true ↔
      ¬ (c.packet_type ≠ -1 ∧ c.packet_type ≠ (f.sll_pkttype : Int)) ∧
      ¬ (c.frame_size < f.tp_snaplen) := by
  simp only [recv_accepts, Bool.and_eq_true, Bool.not_eq_true', decide_eq_false_iff_not]

theorem n_accepted_rx_add (acc : rx_frame → Bool) (rx : List (Option rx_frame)) :
    n_accepted_rx acc rx + n_unaccepted acc rx = rx_ready_count rx := by
  induction rx with
  | nil => rfl
  | cons o rx ih =>
    cases o with
    | none => simpa only [n_accepted_rx, n_unaccepted, rx_ready_count] using ih
    | some f =>
      simp only [n_accepted_rx, n_unaccepted, rx_ready_count]
      split_ifs <;> omega

theorem n_accepted_rx_none (acc : rx_frame → Bool) (rx : List (Option rx_frame))
    (h : ∀ g, some g ∈ rx → acc g = false) : n_accepted_rx acc rx = 0 := by
  induction rx with
  | nil => rfl
  | cons o rx ih =>
    have ih1 := ih (fun g hg => h g (List.mem_cons_of_mem _ hg))
    cases o with
    | none => simpa only [n_accepted_rx] using ih1
    | some f =>
      have hf := h f (List.mem_cons_self _ _)
      simp only [n_accepted_rx, hf, ih1, Bool.false_eq_true, if_false]

theorem recv_next_quiet (env : recv_env) (c : recv_ctx) (f : rx_frame) (st : recv_state)
    (hq : ∀ t, env.sigint_at t = false) (hs : st.sigint = false) (hnd : recv_no_die c st) :
    (recv_next env c f st).2 = recv_exit.next_slot ∧ (recv_next env c f st).1.sigint = false ∧
    recv_no_die c (recv_next env c f st).1 := by
  rw [recv_next_eq]
  have hns : ¬ (st.sigint || env.sigint_at st.clock) = true := by
    rw [hs, hq]; simp
  rw [if_neg hns]
  by_cases hd : c.dump = true
  · rw [if_pos hd]
    rcases hnd with h | h | h
    · rw [hd] at h; exact absurd h (by simp)
    · have hdd : (timer_next_dump env
          (recv_size_step env c f (recv_tick (recv_release c st)))).dump_dir = true := by
        rw [timer_next_dump_dump_dir, recv_size_step_dump_dir]; exact h
      have hsg : (timer_next_dump env
          (recv_size_step env c f (recv_tick (recv_release c st)))).sigint = false := by
        rw [timer_next_dump_sigint, recv_size_step_sigint]; exact hs
      generalize timer_next_dump env
        (recv_size_step env c f (recv_tick (recv_release c st))) = st4 at hdd hsg
      by_cases hn : st4.next_dump = true
      · rw [if_pos hn, recv_rotate_dir c st4 hdd]
        exact ⟨rfl, hsg, Or.inr (Or.inl hdd)⟩
      · rw [if_neg hn]
        exact ⟨rfl, hsg, Or.inr (Or.inl hdd)⟩
    · obtain ⟨hm, hi, hn0⟩ := h
      have e1 : recv_size_step env c f (recv_tick (recv_release c st)) =
          recv_tick (recv_release c st) := by
        unfold recv_size_step
        rw [if_neg (by rw [hm]; decide)]
      have e2 : timer_next_dump env (recv_tick (recv_release c st)) =
          recv_tick (recv_release c st) := timer_next_dump_disarmed env _ hi
      rw [e1, e2]
      have hn : ¬ (recv_tick (recv_release c st)).next_dump = true := by
        show ¬ st.next_dump = true
        rw [hn0]; simp
      rw [if_neg hn]
      exact ⟨rfl, hs, Or.inr (Or.inr ⟨hm, hi, hn0⟩)⟩
  · rw [if_neg hd]
    exact ⟨rfl, hs, Or.inl (by simpa using hd)⟩

/-- One ready slot without SIGINT, in a state in which no rotation ends the program:
the body is left by `break` with the stop flag set exactly when the slot is accepted
and the frame count has reached the cap. -/
theorem recv_frame_quiet (env : recv_env) (c : recv_ctx) (f : rx_frame) (st : recv_state)
    (hq : ∀ t, env.sigint_at t = false) (hs : st.sigint = false) (hnd : recv_no_die c st) :
    (recv_frame env c f st).1.frame_count = st.frame_count + 1 ∧
    n_accepted (recv_frame env c f st).1.events =
      n_accepted st.events + (if recv_accepts c f then 1 else 0) ∧
    (if recv_accepts c f = true ∧ c.frame_count_max ≠ 0 ∧
          c.frame_count_max ≤ st.frame_count + 1 then
      (recv_frame env c f st).2 = recv_exit.break_inner ∧ (recv_frame env c f st).1.sigint = true
    else
      (recv_frame env c f st).2 = recv_exit.next_slot ∧
        (recv_frame env c f st).1.sigint = false ∧ recv_no_die c (recv_frame env c f st).1) := by
  refine ⟨recv_frame_frame_count env c f st, ?_, ?_⟩
  · have hc := recv_frame_counts env c f st
    unfold recv_counts at hc
    have ha := recv_accepts_iff c f
    split_ifs at hc with h1 h2 <;> simp only [Prod.mk.injEq] at hc <;>
      obtain ⟨_, _, _, _, e5⟩ := hc <;> rw [e5]
    · have : recv_accepts c f = false := by
        rw [Bool.eq_false_iff]; intro h; exact (ha.mp h).1 h1
      simp [this]
    · have : recv_accepts c f = false := by
        rw [Bool.eq_false_iff]; intro h; exact (ha.mp h).2 h2
      simp [this]
    · have : recv_accepts c f = true := ha.mpr ⟨h1, h2⟩
      simp [this]
  · have ha := recv_accepts_iff c f
    unfold recv_frame
    simp only []
    by_cases h1 : c.packet_type ≠ -1 ∧ c.packet_type ≠ (f.sll_pkttype : Int)
    · have hna : ¬ (recv_accepts c f = true) := fun h => (ha.mp h).1 h1
      rw [if_pos h1, if_neg (fun h => hna h.1)]
      exact recv_next_quiet env c f _ hq hs hnd
    · rw [if_neg h1]
      by_cases h2 : c.frame_size < f.tp_snaplen
      · have hna : ¬ (recv_accepts c f = true) := fun h => (ha.mp h).2 h2
        rw [if_pos h2, if_neg (fun h => hna h.1)]
        exact recv_next_quiet env c f _ hq hs hnd
      · have hacc : recv_accepts c f = true := ha.mpr ⟨h1, h2⟩
        rw [if_neg h2]
        by_cases hcap : c.frame_count_max ≠ 0 ∧ st.frame_count + 1 ≥ c.frame_count_max
        · rw [if_pos hcap, if_pos ⟨hacc, hcap.1, hcap.2⟩]
          exact ⟨rfl, rfl⟩
        · rw [if_neg hcap, if_neg (fun h => hcap ⟨h.2.1, h.2.2⟩)]
          exact recv_next_quiet env c f _ hq hs hnd

theorem recv_inner_none (env : recv_env) (c : recv_ctx) (rx : List (Option rx_frame))
    (st : recv_state) :
    recv_only_or_dump_inner env c (none :: rx) st =
      if (st.sigint || env.sigint_at (st.clock + 1)) = true then
        ({ st with events := st.events ++ [recv_event.poll], clock := st.clock + 1,
                   sigint := true }, true)
      else recv_only_or_dump_inner env c rx
        { st with events := st.events ++ [recv_event.poll], clock := st.clock + 1 } := by
  rw [recv_only_or_dump_inner]

theorem recv_inner_some (env : recv_env) (c : recv_ctx) (f : rx_frame)
    (rx : List (Option rx_frame)) (st : recv_state) :
    recv_only_or_dump_inner env c (some f :: rx) st =
      if (recv_frame env c f st).2 = recv_exit.next_slot then
        recv_only_or_dump_inner env c rx (recv_frame env c f st).1
      else if (recv_frame env c f st).2 = recv_exit.break_inner then
        ({ (recv_frame env c f st).1 with
            events := (recv_frame env c f st).1.events ++ [recv_event.poll] }, true)
      else ((recv_frame env c f st).1, true) := by
  rw [recv_only_or_dump_inner]
  generalize recv_frame env c f st = r
  obtain ⟨st1, ex⟩ := r
  cases ex <;> rfl

theorem recv_inner_append (env : recv_env) (c : recv_ctx) (rx1 rx2 : List (Option rx_frame)) :
    ∀ st, (recv_only_or_dump_inner env c rx1 st).2 = false →
      recv_only_or_dump_inner env c (rx1 ++ rx2) st =
        recv_only_or_dump_inner env c rx2 (recv_only_or_dump_inner env c rx1 st).1 := by
  induction rx1 with
  | nil => intro st _; rfl
  | cons o rx1 ih =>
    intro st h
    cases o with
    | none =>
      rw [List.cons_append, recv_inner_none]
      rw [recv_inner_none] at h ⊢
      by_cases hs : (st.sigint || env.sigint_at (st.clock + 1)) = true
      · rw [if_pos hs] at h; exact absurd h (by simp)
      · rw [if_neg hs] at h
        simp only [if_neg hs]
        exact ih _ h
    | some f =>
      rw [List.cons_append, recv_inner_some]
      rw [recv_inner_some] at h ⊢
      by_cases hs : (recv_frame env c f st).2 = recv_exit.next_slot
      · rw [if_pos hs] at h
        simp only [if_pos hs]
        exact ih _ h
      · rw [if_neg hs] at h
        split_ifs at h

/-- A stretch of the script in which no accepted slot reaches the cap and no
rotation ends the program: the loop goes through it, counting every ready slot. -/
theorem recv_inner_no_stop (env : recv_env) (c : recv_ctx)
    (hq : ∀ t, env.sigint_at t = false) (rx : List (Option rx_frame)) :
    ∀ st, st.sigint = false → recv_no_die c st →
      ((∃ g, some g ∈ rx ∧ recv_accepts c g = true) →
        st.frame_count + rx_ready_count rx < c.frame_count_max) →
      (recv_only_or_dump_inner env c rx st).2 = false ∧
      (recv_only_or_dump_inner env c rx st).1.sigint = false ∧
      (recv_only_or_dump_inner env c rx st).1.frame_count = st.frame_count + rx_ready_count rx ∧
      n_accepted (recv_only_or_dump_inner env c rx st).1.events =
        n_accepted st.events + n_accepted_rx (recv_accepts c) rx ∧
      recv_no_die c (recv_only_or_dump_inner env c rx st).1 := by
  induction rx with
  | nil => intro st hs hnd _; exact ⟨rfl, hs, rfl, rfl, hnd⟩
  | cons o rx ih =>
    intro st hs hnd hb
    cases o with
    | none =>
      rw [recv_inner_none]
      have hns : ¬ (st.sigint || env.sigint_at (st.clock + 1)) = true := by
        rw [hs, hq]; simp
      rw [if_neg hns]
      have k := ih { st with events := st.events ++ [recv_event.poll], clock := st.clock + 1 } hs
        hnd
        (by
          rintro ⟨g, hg, ha⟩
          have := hb ⟨g, List.mem_cons_of_mem _ hg, ha⟩
          simpa only [rx_ready_count] using this)
      obtain ⟨k1, k2, k3, k4, k5⟩ := k
      refine ⟨k1, k2, ?_, ?_, k5⟩
      · rw [k3]; rfl
      · rw [k4, n_accepted_append]; simp [n_accepted, n_accepted_rx]
    | some f =>
      obtain ⟨q1, q2, q3⟩ := recv_frame_quiet env c f st hq hs hnd
      have hno : ¬ (recv_accepts c f = true ∧ c.frame_count_max ≠ 0 ∧
          c.frame_count_max ≤ st.frame_count + 1) := by
        rintro ⟨ha, _, hle⟩
        have := hb ⟨f, List.mem_cons_self _ _, ha⟩
        simp only [rx_ready_count] at this
        omega
      rw [if_neg hno] at q3
      rw [recv_inner_some, if_pos q3.1]
      have k := ih (recv_frame env c f st).1 q3.2.1 q3.2.2
        (by
          rintro ⟨g, hg, ha⟩
          have := hb ⟨g, List.mem_cons_of_mem _ hg, ha⟩
          simp only [rx_ready_count] at this
          rw [q1]; omega)
      obtain ⟨k1, k2, k3, k4, k5⟩ := k
      refine ⟨k1, k2, ?_, ?_, k5⟩
      · rw [k3, q1]; simp only [rx_ready_count]; omega
      · rw [k4, q2]; simp only [n_accepted_rx]; omega

/-- The loops of `recv_only_or_dump` on a script whose first `n - 1` ready slots are
followed by slots that are not accepted and then by an accepted one. -/
theorem recv_inner_cap_stop (env : recv_env) (c : recv_ctx) (n : Nat) (hn : 1 ≤ n)
    (hq : ∀ t, env.sigint_at t = false) (hc : c.frame_count_max = n)
    (rxA rxB rx2 : List (Option rx_frame)) (f : rx_frame)
    (hA : rx_ready_count rxA = n - 1)
    (hB : ∀ g, some g ∈ rxB → recv_accepts c g = false) (hf : recv_accepts c f = true)
    (st : recv_state) (hs : st.sigint = false) (hnd : recv_no_die c st)
    (h0 : st.frame_count = 0) :
    (recv_only_or_dump_inner env c (rxA ++ rxB ++ some f :: rx2) st).2 = true ∧
    (recv_only_or_dump_inner env c (rxA ++ rxB ++ some f :: rx2) st).1.sigint = true ∧
    (recv_only_or_dump_inner env c (rxA ++ rxB ++ some f :: rx2) st).1.frame_count =
      n + rx_ready_count rxB ∧
    n_accepted (recv_only_or_dump_inner env c (rxA ++ rxB ++ some f :: rx2) st).1.events +
      n_unaccepted (recv_accepts c) rxA = n_accepted st.events + n := by
  obtain ⟨a1, a2, a3, a4, a5⟩ := recv_inner_no_stop env c hq rxA st hs hnd
    (fun _ => by rw [h0, hA, hc]; omega)
  obtain ⟨b1, b2, b3, b4, b5⟩ := recv_inner_no_stop env c hq rxB
    (recv_only_or_dump_inner env c rxA st).1 a2 a5
    (by
      rintro ⟨g, hg, ha⟩
      rw [hB g hg] at ha
      exact absurd ha (by simp))
  rw [List.append_assoc, recv_inner_append env c rxA _ st a1,
    recv_inner_append env c rxB _ _ b1]
  generalize (recv_only_or_dump_inner env c rxB (recv_only_or_dump_inner env c rxA st).1).1 = stB
    at b2 b3 b4 b5
  obtain ⟨q1, q2, q3⟩ := recv_frame_quiet env c f stB hq b2 b5
  have hcap : recv_accepts c f = true ∧ c.frame_count_max ≠ 0 ∧
      c.frame_count_max ≤ stB.frame_count + 1 := by
    refine ⟨hf, by rw [hc]; omega, ?_⟩
    rw [hc, b3, a3, h0, hA]; omega
  rw [if_pos hcap] at q3
  have hex : ¬ ((recv_frame env c f stB).2 = recv_exit.next_slot) := by
    rw [q3.1]; decide
  rw [recv_inner_some, if_neg hex, if_pos q3.1]
  refine ⟨rfl, q3.2, ?_, ?_⟩
  · show (recv_frame env c f stB).1.frame_count = _
    rw [q1, b3, a3, h0, hA]; omega
  · show n_accepted ((recv_frame env c f stB).1.events ++ [recv_event.poll]) + _ = _
    have hadd := n_accepted_rx_add (recv_accepts c) rxA
    have hBz := n_accepted_rx_none (recv_accepts c) rxB hB
    rw [n_accepted_append, q2, b4, a4, hBz, hf]
    simp only [n_accepted, if_true]
    omega

/-- Without SIGINT the function `recv_only_or_dump` is its loops, entered with
nothing counted, up to the timer calls of setup and teardown; if a dump in size
mode goes into a directory, no rotation ends the program. -/
theorem recv_only_or_dump_quiet (env : recv_env) (c : recv_ctx) (is_dir : Bool)
    (interval0 : Nat) (rx : List (Option rx_frame)) (hq : ∀ t, env.sigint_at t = false)
    (hrot : c.dump = true → c.dump_mode = dump_mode.DUMP_INTERVAL_SIZE → is_dir = true) :
    ∃ st0 : recv_state, st0.sigint = false ∧ st0.frame_count = 0 ∧ n_accepted st0.events = 0 ∧
      recv_no_die c st0 ∧
      (recv_only_or_dump env c is_dir interval0 rx).2 =
        (recv_only_or_dump_inner env c rx st0).2 ∧
      (recv_only_or_dump env c is_dir interval0 rx).1.sigint =
        (recv_only_or_dump_inner env c rx st0).1.sigint ∧
      (recv_only_or_dump env c is_dir interval0 rx).1.frame_count =
        (recv_only_or_dump_inner env c rx st0).1.frame_count ∧
      n_accepted (recv_only_or_dump env c is_dir interval0 rx).1.events =
        n_accepted (recv_only_or_dump_inner env c rx st0).1.events := by
  have hb : ∀ st : recv_state, (begin_multi_pcap_file c st).sigint = st.sigint ∧
      (begin_multi_pcap_file c st).frame_count = st.frame_count ∧
      n_accepted (begin_multi_pcap_file c st).events = n_accepted st.events ∧
      (begin_multi_pcap_file c st).dump_dir = st.dump_dir := by
    intro st
    unfold begin_multi_pcap_file
    split_ifs
    · refine ⟨rfl, rfl, ?_, rfl⟩
      rw [n_accepted_append]; simp [n_accepted]
    · exact ⟨rfl, rfl, rfl, rfl⟩
  have hrun : ∀ st1 : recv_state, st1.sigint = false →
      (if (st1.sigint || env.sigint_at st1.clock) = true then
          (({ st1 with sigint := true } : recv_state), true)
        else recv_only_or_dump_inner env c rx { st1 with clock := st1.clock + 1 }) =
      recv_only_or_dump_inner env c rx { st1 with clock := st1.clock + 1 } := by
    intro st1 h
    have hns : ¬ (st1.sigint || env.sigint_at st1.clock) = true := by
      rw [h, hq]; simp
    rw [if_neg hns]
  unfold recv_only_or_dump
  simp only []
  by_cases hd : (c.dump && is_dir) = true
  · simp only [if_pos hd]
    obtain ⟨b1, b2, b3, b4⟩ := hb
      { sigint := false, next_dump := false, interval := interval0, itimer := (0, 0),
        dump_dir := c.dump && is_dir,
        frame_count := 0, skipped := 0, it := 0, clock := 0, events := [] }
    rw [hrun _ b1]
    have b5 : (begin_multi_pcap_file c
      { sigint := false, next_dump := false, interval := interval0, itimer := (0, 0),
        dump_dir := c.dump && is_dir,
        frame_count := 0, skipped := 0, it := 0, clock := 0, events := [] }).dump_dir = true :=
      b4.trans hd
    generalize begin_multi_pcap_file c
      { sigint := false, next_dump := false, interval := interval0, itimer := (0, 0),
        dump_dir := c.dump && is_dir,
        frame_count := 0, skipped := 0, it := 0, clock := 0, events := [] } = stb
      at b1 b2 b3 b5
    refine ⟨{ stb with clock := stb.clock + 1 }, b1, b2, b3, Or.inr (Or.inl b5), rfl, rfl, rfl,
      ?_⟩
    simp only [finish_multi_pcap_file]
    rw [n_accepted_append]; simp [n_accepted]
  · have hns : ¬ (false || env.sigint_at 0) = true := by
      rw [hq]; simp
    have hd2 : (c.dump && is_dir) = false := by simpa using hd
    simp only [hd2, Bool.false_eq_true, if_false, if_neg hns]
    refine ⟨recv_start interval0, rfl, rfl, rfl, ?_, rfl, rfl, rfl, rfl⟩
    by_cases hdump : c.dump = true
    · cases hm : c.dump_mode with
      | DUMP_INTERVAL_TIME => exact Or.inr (Or.inr ⟨hm, rfl, rfl⟩)
      | DUMP_INTERVAL_SIZE =>
        have hdir := hrot hdump hm
        rw [hdump, hdir] at hd2
        exact absurd hd2 (by decide)
    · exact Or.inl (by simpa using hdump)

theorem bridge_accepts_iff (c : bridge_ctx) (f : rx_frame) :
    bridge_accepts c f = true ↔
      ¬ (c.packet_type ≠ -1 ∧ c.packet_type ≠ (f.sll_pkttype : Int)) := by
  simp only [bridge_accepts, Bool.not_eq_true', decide_eq_false_iff_not]

theorem tx_spin_always_ready (env : bridge_env) (c : bridge_ctx) (fuel : Nat) (st : bridge_state)
    (hready : ∀ t s, env.tx_ready t s = true) :
    tx_spin env c (fuel + 1) st = some ({ st with clock := st.clock + 1 }, true) := by
  simp [tx_spin, hready]

theorem bridge_next_quiet (env : bridge_env) (c : bridge_ctx) (st : bridge_state)
    (hq : ∀ t, env.sigint_at t = false) (hs : st.sigint = false) :
    (bridge_next env c st).2 = body_exit.next_slot ∧ (bridge_next env c st).1.sigint = false ∧
    (bridge_next env c st).1.frame_count = st.frame_count ∧
    tx_published (bridge_next env c st).1.events = tx_published st.events := by
  unfold bridge_next
  have hns : ¬ (st.sigint || env.sigint_at st.clock) = true := by
    rw [hs, hq]; simp
  simp only []
  rw [if_neg hns]
  refine ⟨rfl, hs, rfl, ?_⟩
  show tx_published (st.events ++ [bridge_event.rx_release st.it_in]) = _
  rw [tx_published_append]; simp [tx_published]

/-- One ready slot of the bridge with TX slots always ready and no SIGINT. -/
theorem bridge_frame_quiet (env : bridge_env) (c : bridge_ctx) (fuel : Nat) (f : rx_frame)
    (st : bridge_state) (hq : ∀ t, env.sigint_at t = false)
    (hready : ∀ t s, env.tx_ready t s = true) (hs : st.sigint = false) :
    ∃ r, bridge_frame env c (fuel + 1) f st = some r ∧
      r.1.frame_count = st.frame_count + 1 ∧
      tx_published r.1.events =
        tx_published st.events + (if bridge_accepts c f then 1 else 0) ∧
      (if bridge_accepts c f = true ∧ c.frame_count_max ≠ 0 ∧
            c.frame_count_max ≤ st.frame_count + 1 then
        r.2 = body_exit.break_inner ∧ r.1.sigint = true
      else r.2 = body_exit.next_slot ∧ r.1.sigint = false) := by
  have ha := bridge_accepts_iff c f
  unfold bridge_frame
  simp only [tx_spin_always_ready env c fuel _ hready]
  by_cases h1 : c.packet_type ≠ -1 ∧ c.packet_type ≠ (f.sll_pkttype : Int)
  · have hna : bridge_accepts c f = false := by
      rw [Bool.eq_false_iff]; intro h; exact (ha.mp h) h1
    rw [if_pos h1]
    obtain ⟨n1, n2, n3, n4⟩ := bridge_next_quiet env c
      { st with frame_count := st.frame_count + 1 } hq hs
    refine ⟨_, rfl, n3, ?_, ?_⟩
    · rw [n4, hna]; rfl
    · rw [hna]
      simp only [Bool.false_eq_true, false_and, if_false]
      exact ⟨n1, n2⟩
  · have hacc : bridge_accepts c f = true := ha.mpr h1
    rw [if_neg h1]
    by_cases hcap : c.frame_count_max ≠ 0 ∧ st.frame_count + 1 ≥ c.frame_count_max
    · rw [if_pos hcap]
      refine ⟨_, rfl, rfl, ?_, ?_⟩
      · simp only [hacc, if_true]
        rw [tx_published_append]; simp [tx_published]
      · rw [if_pos ⟨hacc, hcap.1, hcap.2⟩]
        exact ⟨rfl, rfl⟩
    · rw [if_neg hcap]
      obtain ⟨n1, n2, n3, n4⟩ := bridge_next_quiet env c
        { st with
          frame_count := st.frame_count + 1, clock := st.clock + 1,
          events := st.events ++
            [bridge_event.tx_clone st.it_out true f, bridge_event.tx_copy st.it_out true f.tp_len,
             bridge_event.tx_publish st.it_out true],
          it_out := tx_next env c
            { st with frame_count := st.frame_count + 1, clock := st.clock + 1 } } hq hs
      refine ⟨_, rfl, n3, ?_, ?_⟩
      · rw [n4, hacc]
        simp only [if_true]
        rw [tx_published_append]; simp [tx_published]
      · rw [if_neg (fun h => hcap ⟨h.2.1, h.2.2⟩)]
        exact ⟨n1, n2⟩

theorem bridge_inner_none (env : bridge_env) (c : bridge_ctx) (spin_fuel : Nat)
    (rx : List (Option rx_frame)) (st : bridge_state) :
    receive_to_xmit_inner env c spin_fuel (none :: rx) st =
      if (st.sigint || env.sigint_at (st.clock + 1)) = true then
        some ({ st with events := st.events ++ [bridge_event.poll], clock := st.clock + 1,
                        sigint := true }, true)
      else receive_to_xmit_inner env c spin_fuel rx
        { st with events := st.events ++ [bridge_event.poll], clock := st.clock + 1 } := by
  rw [receive_to_xmit_inner]

theorem bridge_inner_some (env : bridge_env) (c : bridge_ctx) (spin_fuel : Nat) (f : rx_frame)
    (rx : List (Option rx_frame)) (st : bridge_state) (r : bridge_state × body_exit)
    (hr : bridge_frame env c spin_fuel f st = some r) :
    receive_to_xmit_inner env c spin_fuel (some f :: rx) st =
      if r.2 = body_exit.next_slot then receive_to_xmit_inner env c spin_fuel rx r.1
      else if r.2 = body_exit.break_inner then
        some ({ r.1 with events := r.1.events ++ [bridge_event.poll] }, true)
      else some (r.1, true) := by
  rw [receive_to_xmit_inner, hr]
  obtain ⟨st1, ex⟩ := r
  cases ex <;> rfl

theorem bridge_inner_append (env : bridge_env) (c : bridge_ctx) (spin_fuel : Nat)
    (rx1 rx2 : List (Option rx_frame)) :
    ∀ st st1, receive_to_xmit_inner env c spin_fuel rx1 st = some (st1, false) →
      receive_to_xmit_inner env c spin_fuel (rx1 ++ rx2) st =
        receive_to_xmit_inner env c spin_fuel rx2 st1 := by
  induction rx1 with
  | nil =>
    intro st st1 h
    rw [receive_to_xmit_inner] at h
    simp only [Option.some.injEq, Prod.mk.injEq, and_true] at h
    rw [← h]; rfl
  | cons o rx1 ih =>
    intro st st1 h
    cases o with
    | none =>
      rw [List.cons_append, bridge_inner_none]
      rw [bridge_inner_none] at h
      by_cases hs : (st.sigint || env.sigint_at (st.clock + 1)) = true
      · rw [if_pos hs] at h; exact absurd h (by simp)
      · rw [if_neg hs] at h ⊢
        exact ih _ _ h
    | some f =>
      cases hb : bridge_frame env c spin_fuel f st with
      | none =>
        rw [receive_to_xmit_inner, hb] at h
        exact absurd h (by simp)
      | some r =>
        rw [List.cons_append, bridge_inner_some env c spin_fuel f _ st r hb]
        rw [bridge_inner_some env c spin_fuel f _ st r hb] at h
        by_cases hs : r.2 = body_exit.next_slot
        · rw [if_pos hs] at h ⊢
          exact ih _ _ h
        · rw [if_neg hs] at h
          split_ifs at h <;> exact absurd h (by simp)

/-- A stretch of the script in which no accepted slot reaches the cap: the bridge
goes through it, counting every ready slot. -/
theorem bridge_inner_no_stop (env : bridge_env) (c : bridge_ctx) (fuel : Nat)
    (hq : ∀ t, env.sigint_at t = false) (hready : ∀ t s, env.tx_ready t s = true)
    (rx : List (Option rx_frame)) :
    ∀ st, st.sigint = false →
      ((∃ g, some g ∈ rx ∧ bridge_accepts c g = true) →
        st.frame_count + rx_ready_count rx < c.frame_count_max) →
      ∃ st1, receive_to_xmit_inner env c (fuel + 1) rx st = some (st1, false) ∧
        st1.sigint = false ∧
        st1.frame_count = st.frame_count + rx_ready_count rx ∧
        tx_published st1.events = tx_published st.events + n_accepted_rx (bridge_accepts c) rx := by
  induction rx with
  | nil => intro st hs _; exact ⟨st, by rw [receive_to_xmit_inner], hs, rfl, rfl⟩
  | cons o rx ih =>
    intro st hs hb
    cases o with
    | none =>
      rw [bridge_inner_none]
      have hns : ¬ (st.sigint || env.sigint_at (st.clock + 1)) = true := by
        rw [hs, hq]; simp
      rw [if_neg hns]
      obtain ⟨st1, k1, k2, k3, k4⟩ :=
        ih { st with events := st.events ++ [bridge_event.poll], clock := st.clock + 1 } hs
        (by
          rintro ⟨g, hg, ha⟩
          have := hb ⟨g, List.mem_cons_of_mem _ hg, ha⟩
          simpa only [rx_ready_count] using this)
      refine ⟨st1, k1, k2, ?_, ?_⟩
      · rw [k3]; rfl
      · rw [k4, tx_published_append]; simp [tx_published, n_accepted_rx]
    | some f =>
      obtain ⟨r, hr, q1, q2, q3⟩ := bridge_frame_quiet env c fuel f st hq hready hs
      have hno : ¬ (bridge_accepts c f = true ∧ c.frame_count_max ≠ 0 ∧
          c.frame_count_max ≤ st.frame_count + 1) := by
        rintro ⟨ha, _, hle⟩
        have := hb ⟨f, List.mem_cons_self _ _, ha⟩
        simp only [rx_ready_count] at this
        omega
      rw [if_neg hno] at q3
      rw [bridge_inner_some env c (fuel + 1) f rx st r hr, if_pos q3.1]
      obtain ⟨st1, k1, k2, k3, k4⟩ := ih r.1 q3.2
        (by
          rintro ⟨g, hg, ha⟩
          have := hb ⟨g, List.mem_cons_of_mem _ hg, ha⟩
          simp only [rx_ready_count] at this
          rw [q1]; omega)
      refine ⟨st1, k1, k2, ?_, ?_⟩
      · rw [k3, q1]; simp only [rx_ready_count]; omega
      · rw [k4, q2]; simp only [n_accepted_rx]; omega

/-- The loops of the bridge on a script whose first `n - 1` ready slots are followed
by slots that are not accepted and then by an accepted one. -/
theorem bridge_inner_cap_stop (env : bridge_env) (c : bridge_ctx) (fuel n : Nat) (hn : 1 ≤ n)
    (hq : ∀ t, env.sigint_at t = false) (hready : ∀ t s, env.tx_ready t s = true)
    (hc : c.frame_count_max = n) (rxA rxB rx2 : List (Option rx_frame)) (f : rx_frame)
    (hA : rx_ready_count rxA = n - 1)
    (hB : ∀ g, some g ∈ rxB → bridge_accepts c g = false) (hf : bridge_accepts c f = true)
    (st : bridge_state) (hs : st.sigint = false) (h0 : st.frame_count = 0) :
    ∃ st1, receive_to_xmit_inner env c (fuel + 1) (rxA ++ rxB ++ some f :: rx2) st =
        some (st1, true) ∧
      st1.sigint = true ∧ st1.frame_count = n + rx_ready_count rxB ∧
      tx_published st1.events + n_unaccepted (bridge_accepts c) rxA =
        tx_published st.events + n := by
  obtain ⟨stA, a1, a2, a3, a4⟩ := bridge_inner_no_stop env c fuel hq hready rxA st hs
    (fun _ => by rw [h0, hA, hc]; omega)
  obtain ⟨stB, b1, b2, b3, b4⟩ := bridge_inner_no_stop env c fuel hq hready rxB stA a2
    (by
      rintro ⟨g, hg, ha⟩
      rw [hB g hg] at ha
      exact absurd ha (by simp))
  rw [List.append_assoc, bridge_inner_append env c (fuel + 1) rxA _ st stA a1,
    bridge_inner_append env c (fuel + 1) rxB _ stA stB b1]
  obtain ⟨r, hr, q1, q2, q3⟩ := bridge_frame_quiet env c fuel f stB hq hready b2
  have hcap : bridge_accepts c f = true ∧ c.frame_count_max ≠ 0 ∧
      c.frame_count_max ≤ stB.frame_count + 1 := by
    refine ⟨hf, by rw [hc]; omega, ?_⟩
    rw [hc, b3, a3, h0, hA]; omega
  rw [if_pos hcap] at q3
  have hex : ¬ (r.2 = body_exit.next_slot) := by
    rw [q3.1]; decide
  rw [bridge_inner_some env c (fuel + 1) f rx2 stB r hr, if_neg hex, if_pos q3.1]
  refine ⟨_, rfl, q3.2, ?_, ?_⟩
  · show r.1.frame_count = _
    rw [q1, b3, a3, h0, hA]; omega
  · show tx_published (r.1.events ++ [bridge_event.poll]) + _ = _
    have hadd := n_accepted_rx_add (bridge_accepts c) rxA
    have hBz := n_accepted_rx_none (bridge_accepts c) rxB hB
    rw [tx_published_append, q2, b4, a4, hBz, hf]
    simp only [tx_published, if_true]
    omega

/-- C23, as stated, fails. The cap `n = 1` with the packet-type filter set to 0 (host),
a first ready slot of packet type 4 and a second of packet type 0: the first slot is
counted and rejected, the loop stops at the second, and the number of accepted
frames is 1, which is not less than `n`, although an earlier slot was rejected. The
same in the bridge. -/
theorem frame_cap_rejected_slot_keeps_count :
    ((recv_only_or_dump recv_env_quiet (recv_ctx_filter_cap 0 1) false 10
        [some ⟨60, 60, 4⟩, some ⟨60, 60, 0⟩, some ⟨61, 61, 0⟩]).1.sigint = true ∧
      (recv_only_or_dump recv_env_quiet (recv_ctx_filter_cap 0 1) false 10
        [some ⟨60, 60, 4⟩, some ⟨60, 60, 0⟩, some ⟨61, 61, 0⟩]).1.frame_count = 2 ∧
      n_rejected (recv_only_or_dump recv_env_quiet (recv_ctx_filter_cap 0 1) false 10
        [some ⟨60, 60, 4⟩, some ⟨60, 60, 0⟩, some ⟨61, 61, 0⟩]).1.events = 1 ∧
      n_accepted (recv_only_or_dump recv_env_quiet (recv_ctx_filter_cap 0 1) false 10
        [some ⟨60, 60, 4⟩, some ⟨60, 60, 0⟩, some ⟨61, 61, 0⟩]).1.events = 1 ∧
      ¬ (n_accepted (recv_only_or_dump recv_env_quiet (recv_ctx_filter_cap 0 1) false 10
        [some ⟨60, 60, 4⟩, some ⟨60, 60, 0⟩, some ⟨61, 61, 0⟩]).1.events < 1)) ∧
    (receive_to_xmit_loop (env_tx_ready fun _ s => s) (bridge_ctx_filter_cap 0 1) 1
        [some ⟨60, 60, 4⟩, some ⟨60, 60, 0⟩, some ⟨61, 61, 0⟩]).map
        (fun r => (r.1.sigint, r.1.frame_count, tx_published r.1.events, r.1.events)) =
      some (true, 2, 1,
        [bridge_event.rx_release 0, bridge_event.tx_clone 0 true ⟨60, 60, 0⟩,
         bridge_event.tx_copy 0 true 60, bridge_event.tx_publish 0 true, bridge_event.poll]) := by
  decide

/-- The condition on the output is needed. A dump in size mode with threshold 1024
into a single file, cap 2, two ready slots: behind the first slot the rotation ends
the program, one slot counted, the stop flag not set, the second slot never looked
at. -/
theorem frame_cap_not_reached_into_single_file :
    (recv_only_or_dump recv_env_quiet (recv_ctx_size_cap 1024 2) false 10
        [some ⟨1500, 1500, 0⟩, some ⟨60, 60, 0⟩]).1.sigint = false ∧
    (recv_only_or_dump recv_env_quiet (recv_ctx_size_cap 1024 2) false 10
        [some ⟨1500, 1500, 0⟩, some ⟨60, 60, 0⟩]).1.frame_count = 1 ∧
    (recv_only_or_dump recv_env_quiet (recv_ctx_size_cap 1024 2) false 10
        [some ⟨1500, 1500, 0⟩, some ⟨60, 60, 0⟩]).1.events =
      [recv_event.pcap_write 0 1500, recv_event.dissect 0 1500, recv_event.rx_release 0,
       recv_event.rotate_die] := by
  decide

/-- C23, amended. With the cap `n ≥ 1` and no SIGINT, on a script whose first `n - 1`
ready slots (`rxA`) are followed by ready slots that are not accepted (`rxB`) and
then by an accepted slot `f`: every ready slot is counted, the slots of `rxB` pass
although the count has reached `n`, the loop stops at `f` with the stop flag set
and `n` plus the ready slots of `rxB` counted, and the number of accepted frames
is `n` minus the number of slots of `rxA` that were not accepted. For
`recv_only_or_dump`, where a dump in size mode goes into a directory (into a single
file the first rotation ends the program before the cap), and for `receive_to_xmit`
with TX slots that are always ready. -/
theorem frame_cap_counts_every_ready_slot (n : Nat) (hn : 1 ≤ n) :
    (∀ (env : recv_env) (c : recv_ctx) (is_dir : Bool) (interval0 : Nat)
        (rxA rxB rx2 : List (Option rx_frame)) (f : rx_frame),
      (∀ t, env.sigint_at t = false) → c.frame_count_max = n →
      (c.dump = true → c.dump_mode = dump_mode.DUMP_INTERVAL_SIZE → is_dir = true) →
      rx_ready_count rxA = n - 1 →
      (∀ g, some g ∈ rxB → recv_accepts c g = false) → recv_accepts c f = true →
      (recv_only_or_dump env c is_dir interval0 (rxA ++ rxB ++ some f :: rx2)).2 = true ∧
      (recv_only_or_dump env c is_dir interval0 (rxA ++ rxB ++ some f :: rx2)).1.sigint = true ∧
      (recv_only_or_dump env c is_dir interval0 (rxA ++ rxB ++ some f :: rx2)).1.frame_count =
        n + rx_ready_count rxB ∧
      n_accepted (recv_only_or_dump env c is_dir interval0
          (rxA ++ rxB ++ some f :: rx2)).1.events +
        n_unaccepted (recv_accepts c) rxA = n) ∧
    (∀ (env : bridge_env) (c : bridge_ctx) (spin_fuel : Nat)
        (rxA rxB rx2 : List (Option rx_frame)) (f : rx_frame),
      (∀ t, env.sigint_at t = false) → (∀ t s, env.tx_ready t s = true) → 1 ≤ spin_fuel →
      c.frame_count_max = n → rx_ready_count rxA = n - 1 →
      (∀ g, some g ∈ rxB → bridge_accepts c g = false) → bridge_accepts c f = true →
      ∃ st, receive_to_xmit_loop env c spin_fuel (rxA ++ rxB ++ some f :: rx2) =
          some (st, true) ∧
        st.sigint = true ∧ st.frame_count = n + rx_ready_count rxB ∧
        tx_published st.events + n_unaccepted (bridge_accepts c) rxA = n) := by
  constructor
  · intro env c is_dir interval0 rxA rxB rx2 f hq hc hrot hA hB hf
    obtain ⟨st0, s1, s2, s3, s4, e0, e1, e2, e3⟩ :=
      recv_only_or_dump_quiet env c is_dir interval0 (rxA ++ rxB ++ some f :: rx2) hq hrot
    obtain ⟨k0, k1, k2, k3⟩ :=
      recv_inner_cap_stop env c n hn hq hc rxA rxB rx2 f hA hB hf st0 s1 s4 s2
    rw [e0, e1, e2, e3]
    exact ⟨k0, k1, k2, by rw [k3, s3]; omega⟩
  · intro env c spin_fuel rxA rxB rx2 f hq hready hfuel hc hA hB hf
    obtain ⟨fuel, rfl⟩ : ∃ fuel, spin_fuel = fuel + 1 := ⟨spin_fuel - 1, by omega⟩
    obtain ⟨st1, k0, k1, k2, k3⟩ :=
      bridge_inner_cap_stop env c fuel n hn hq hready hc rxA rxB rx2 f hA hB hf
        { sigint := false, frame_count := 0, it_in := 0, it_out := 0, clock := 1, events := [] }
        rfl rfl
    refine ⟨st1, ?_, k1, k2, ?_⟩
    · unfold receive_to_xmit_loop
      rw [hq 0]
      simp only [Bool.false_eq_true, if_false]
      exact k0
    · rw [k3]; simp [tx_published]

/-- C23, amended, at the cap 2 with the filter set to 0: a rejected slot, a second
rejected slot and an accepted one; three slots are counted and the one accepted
frame is 2 minus the one slot not accepted among the first. -/
theorem frame_cap_counts_every_ready_slot_witness :
    (recv_only_or_dump recv_env_quiet (recv_ctx_filter_cap 0 2) false 10
        ([some ⟨60, 60, 4⟩] ++ [some ⟨61, 61, 4⟩] ++ some ⟨62, 62, 0⟩ :: [])).2 = true ∧
    (recv_only_or_dump recv_env_quiet (recv_ctx_filter_cap 0 2) false 10
        ([some ⟨60, 60, 4⟩] ++ [some ⟨61, 61, 4⟩] ++ some ⟨62, 62, 0⟩ :: [])).1.sigint = true ∧
    (recv_only_or_dump recv_env_quiet (recv_ctx_filter_cap 0 2) false 10
        ([some ⟨60, 60, 4⟩] ++ [some ⟨61, 61, 4⟩] ++ some ⟨62, 62, 0⟩ :: [])).1.frame_count =
      2 + rx_ready_count [some ⟨61, 61, 4⟩] ∧
    n_accepted (recv_only_or_dump recv_env_quiet (recv_ctx_filter_cap 0 2) false 10
        ([some ⟨60, 60, 4⟩] ++ [some ⟨61, 61, 4⟩] ++ some ⟨62, 62, 0⟩ :: [])).1.events +
      n_unaccepted (recv_accepts (recv_ctx_filter_cap 0 2)) [some ⟨60, 60, 4⟩] = 2 :=
  (frame_cap_counts_every_ready_slot 2 (by decide)).1 recv_env_quiet (recv_ctx_filter_cap 0 2)
    false 10 [some ⟨60, 60, 4⟩] [some ⟨61, 61, 4⟩] [] ⟨62, 62, 0⟩ (fun _ => rfl) rfl
    (fun h => absurd h (by decide)) rfl
    (fun g hg => by
      simp only [List.mem_singleton, Option.some.injEq] at hg
      rw [hg]; decide)
    (by decide)

/-! ## The payload copied by the bridge -/

theorem bridge_next_events (env : bridge_env) (c : bridge_ctx) (st : bridge_state) :
    (bridge_next env c st).1.events = st.events ++ [bridge_event.rx_release st.it_in] := by
  unfold bridge_next
  simp only []
  split_ifs <;> rfl

/-- C24. One ready RX slot `f` of the bridge, for every environment, setting and
state, whenever the search for a TX slot ends. If the slot passes the packet-type
test, the events of the slot are the clone of the header, one copy of exactly
`f.tp_len` bytes and the publication, all for the same TX slot, followed at most by
the release of the RX slot; the length of the copy is `tp_len` whatever `tp_snaplen`
is, and no frame size enters. If the slot does not pass the test, nothing is
copied. -/
theorem bridge_copies_tp_len (env : bridge_env) (c : bridge_ctx) (spin_fuel : Nat)
    (f : rx_frame) (st : bridge_state) (r : bridge_state × body_exit)
    (hr : bridge_frame env c spin_fuel f st = some r) :
    (bridge_accepts c f = true →
      ∃ slot ready tail,
        r.1.events = st.events ++
          [bridge_event.tx_clone slot ready f, bridge_event.tx_copy slot ready f.tp_len,
           bridge_event.tx_publish slot ready] ++ tail ∧
        (tail = [] ∨ tail = [bridge_event.rx_release st.it_in])) ∧
    (bridge_accepts c f = false →
      r.1.events = st.events ++ [bridge_event.rx_release st.it_in]) := by
  have ha := bridge_accepts_iff c f
  unfold bridge_frame at hr
  simp only [] at hr
  constructor
  · intro hacc
    rw [if_neg (ha.mp hacc)] at hr
    cases hs : tx_spin env c spin_fuel { st with frame_count := st.frame_count + 1 } with
    | none => rw [hs] at hr; exact absurd hr (by simp)
    | some r2 =>
      obtain ⟨k1, k2, _⟩ := tx_spin_keeps env c spin_fuel _ r2 hs
      obtain ⟨st2, ready⟩ := r2
      simp only [] at k1 k2
      rw [hs] at hr
      simp only [] at hr
      split_ifs at hr
      · simp only [Option.some.injEq] at hr
        rw [← hr]
        exact ⟨st2.it_out, ready, [], by simp only [k1, List.append_nil], Or.inl rfl⟩
      · simp only [Option.some.injEq] at hr
        rw [← hr, bridge_next_events]
        exact ⟨st2.it_out, ready, [bridge_event.rx_release st.it_in],
          by simp only [k1, k2], Or.inr rfl⟩
  · intro hrej
    have h1 : c.packet_type ≠ -1 ∧ c.packet_type ≠ (f.sll_pkttype : Int) := by
      by_contra hn
      rw [ha.mpr hn] at hrej
      exact absurd hrej (by simp)
    rw [if_pos h1] at hr
    simp only [Option.some.injEq] at hr
    rw [← hr, bridge_next_events]

/-- C24 at a slot with an original length of 9000 bytes of which 60 were captured:
9000 bytes are copied into the TX slot. -/
theorem bridge_copies_tp_len_witness :
    bridge_frame (env_tx_ready fun _ s => s) (bridge_ctx_cap false 0 64 64) 1 ⟨9000, 60, 0⟩
        { sigint := false, frame_count := 0, it_in := 0, it_out := 0, clock := 1, events := [] } =
      some ({ sigint := false, frame_count := 1, it_in := 1, it_out := 1, clock := 3,
              events := [bridge_event.tx_clone 0 true ⟨9000, 60, 0⟩,
                bridge_event.tx_copy 0 true 9000, bridge_event.tx_publish 0 true,
                bridge_event.rx_release 0] }, body_exit.next_slot) ∧
    ∃ slot ready tail,
      [bridge_event.tx_clone 0 true ⟨9000, 60, 0⟩,
        bridge_event.tx_copy 0 true 9000, bridge_event.tx_publish 0 true,
        bridge_event.rx_release 0] =
        [] ++ [bridge_event.tx_clone slot ready ⟨9000, 60, 0⟩,
          bridge_event.tx_copy slot ready (9000 : Nat), bridge_event.tx_publish slot ready] ++
          tail ∧
      (tail = [] ∨ tail = [bridge_event.rx_release 0]) :=
  ⟨by decide,
   (bridge_copies_tp_len (env_tx_ready fun _ s => s) (bridge_ctx_cap false 0 64 64) 1
      ⟨9000, 60, 0⟩
      { sigint := false, frame_count := 0, it_in := 0, it_out := 0, clock := 1, events := [] }
      ({ sigint := false, frame_count := 1, it_in := 1, it_out := 1, clock := 3,
         events := [bridge_event.tx_clone 0 true ⟨9000, 60, 0⟩,
           bridge_event.tx_copy 0 true 9000, bridge_event.tx_publish 0 true,
           bridge_event.rx_release 0] }, body_exit.next_slot)
      (by decide)).1 (by decide)⟩

/-! ## The names of the rotated files -/

theorem file_records_open_trunc (files : List (String × List Nat)) (fname : String) :
    file_records (open_trunc files fname) fname = some [] := by
  simp [open_trunc, file_records]

theorem dump_write_all_open (dev fname : String) (rest : List (String × List Nat))
    (hrest : ∀ p ∈ rest, p.1 ≠ fname) (ws : List Nat) :
    ∀ recs, dump_write_all { device_out := dev, fname := fname, files := (fname, recs) :: rest } ws =
      { device_out := dev, fname := fname, files := (fname, recs ++ ws) :: rest } := by
  induction ws with
  | nil => intro recs; simp [dump_write_all]
  | cons w ws ih =>
    intro recs
    have hmap : rest.map (fun p => if p.1 = fname then (p.1, p.2 ++ [w]) else p) = rest := by
      conv_rhs => rw [← List.map_id rest]
      apply List.map_congr_left
      intro p hp
      simp [hrest p hp]
    have hstep : dump_write
        { device_out := dev, fname := fname, files := (fname, recs) :: rest } w =
        { device_out := dev, fname := fname, files := (fname, recs ++ [w]) :: rest } := by
      simp only [dump_write, List.map_cons, if_true, hmap]
    unfold dump_write_all at ih ⊢
    rw [List.foldl_cons, hstep, ih (recs ++ [w])]
    simp

theorem open_trunc_rest (files : List (String × List Nat)) (fname : String) :
    ∀ p ∈ files.filter (fun p => decide (p.1 ≠ fname)), p.1 ≠ fname := by
  intro p hp
  simpa using (List.mem_filter.mp hp).2

/-- The records written behind a rotation are those of the new file, and the same
name opened again leaves none of them. -/
theorem next_multi_pcap_file_twice (slprintf : Nat → String → String) (pfx : Option String)
    (now : Nat) (d : dump_files) (ws : List Nat) :
    (dump_write_all (next_multi_pcap_file slprintf pfx now d) ws).fname =
      (next_multi_pcap_file slprintf pfx now d).fname ∧
    (dump_write_all (next_multi_pcap_file slprintf pfx now d) ws).device_out = d.device_out ∧
    file_records (dump_write_all (next_multi_pcap_file slprintf pfx now d) ws).files
      (next_multi_pcap_file slprintf pfx now d).fname = some ws ∧
    (next_multi_pcap_file slprintf pfx now
      (dump_write_all (next_multi_pcap_file slprintf pfx now d) ws)).fname =
      (next_multi_pcap_file slprintf pfx now d).fname ∧
    file_records (next_multi_pcap_file slprintf pfx now
      (dump_write_all (next_multi_pcap_file slprintf pfx now d) ws)).files
      (next_multi_pcap_file slprintf pfx now d).fname = some [] := by
  have hw := dump_write_all_open d.device_out
    (slprintf 512 (multi_pcap_fname_text d.device_out pfx now))
    (d.files.filter (fun p =>
      decide (p.1 ≠ slprintf 512 (multi_pcap_fname_text d.device_out pfx now))))
    (open_trunc_rest d.files _) ws []
  have hn : next_multi_pcap_file slprintf pfx now d =
      { device_out := d.device_out,
        fname := slprintf 512 (multi_pcap_fname_text d.device_out pfx now),
        files := (slprintf 512 (multi_pcap_fname_text d.device_out pfx now), []) ::
          d.files.filter (fun p =>
            decide (p.1 ≠ slprintf 512 (multi_pcap_fname_text d.device_out pfx now))) } := rfl
  rw [hn, hw]
  refine ⟨rfl, rfl, ?_, rfl, ?_⟩
  · simp [file_records]
  · exact file_records_open_trunc _ _

theorem slprintf_cut_fits (n : Nat) (s : String) (h : s.length < n) : slprintf_cut n s = s := by
  unfold slprintf_cut
  have hl : s.toList.length ≤ n - 1 := by
    have : s.toList.length = s.length := rfl
    omega
  rw [List.take_of_length_le hl]
  cases s
  rfl

/-- The names that fit the buffers. For a formatting helper that stores a text
that fits its buffer unchanged, a directory path `device_out` (not empty), a prefix
(`dump-` when none is set) and names that fit 255 characters: the first file,
opened at second `t0`, is named `dir/prefix` followed by the decimal `t0` and
`.pcap`, where `dir` is `device_out` without one trailing `/`; the file of a
rotation at second `t` is named the same way with `t`. A rotation within the
second `t0` opens the name of the first file again, truncated: its records `ws0`
are gone. Two rotations within one second `t` give the same name, and the records
`ws` written between them are gone. -/
theorem rotated_fname_same_second (slprintf : Nat → String → String)
    (hfmt : ∀ n s, s.length < n → slprintf n s = s)
    (device_out : String) (pfx : Option String) (files : List (String × List Nat))
    (t0 t : Nat) (ws0 ws : List Nat) (hdir : device_out ≠ "")
    (hfit0 : (multi_pcap_fname_text (trim_dir device_out) pfx t0).length < 256)
    (hfit : (multi_pcap_fname_text (trim_dir device_out) pfx t).length < 256) :
    ∃ d0, begin_multi_pcap_open slprintf device_out pfx t0 files = some d0 ∧
      d0.fname = trim_dir device_out ++ "/" ++ pfx.getD "dump-" ++ toString t0 ++ ".pcap" ∧
      (next_multi_pcap_file slprintf pfx t (dump_write_all d0 ws0)).fname =
        trim_dir device_out ++ "/" ++ pfx.getD "dump-" ++ toString t ++ ".pcap" ∧
      (file_records (dump_write_all d0 ws0).files d0.fname = some ws0 ∧
        (next_multi_pcap_file slprintf pfx t0 (dump_write_all d0 ws0)).fname = d0.fname ∧
        file_records (next_multi_pcap_file slprintf pfx t0 (dump_write_all d0 ws0)).files
          d0.fname = some []) ∧
      (file_records
          (dump_write_all (next_multi_pcap_file slprintf pfx t (dump_write_all d0 ws0)) ws).files
          (next_multi_pcap_file slprintf pfx t (dump_write_all d0 ws0)).fname = some ws ∧
        (next_multi_pcap_file slprintf pfx t
          (dump_write_all (next_multi_pcap_file slprintf pfx t (dump_write_all d0 ws0)) ws)).fname =
          (next_multi_pcap_file slprintf pfx t (dump_write_all d0 ws0)).fname ∧
        file_records (next_multi_pcap_file slprintf pfx t
          (dump_write_all (next_multi_pcap_file slprintf pfx t (dump_write_all d0 ws0)) ws)).files
          (next_multi_pcap_file slprintf pfx t (dump_write_all d0 ws0)).fname = some []) := by
  have h256 := hfmt 256 _ hfit0
  have h512a := hfmt 512 _ (Nat.lt_trans hfit0 (by decide : 256 < 512))
  have h512 := hfmt 512 _ (Nat.lt_trans hfit (by decide : 256 < 512))
  have hw := dump_write_all_open (trim_dir device_out)
    (slprintf 256 (multi_pcap_fname_text (trim_dir device_out) pfx t0))
    (files.filter (fun p =>
      decide (p.1 ≠ slprintf 256 (multi_pcap_fname_text (trim_dir device_out) pfx t0))))
    (open_trunc_rest files _) ws0 []
  refine ⟨{ device_out := trim_dir device_out
            fname := slprintf 256 (multi_pcap_fname_text (trim_dir device_out) pfx t0)
            files := open_trunc files
              (slprintf 256 (multi_pcap_fname_text (trim_dir device_out) pfx t0)) },
    ?_, ?_, ?_, ⟨?_, ?_, ?_⟩, ?_⟩
  · unfold begin_multi_pcap_open
    rw [if_neg hdir]
  · show slprintf 256 _ = _
    rw [h256]; rfl
  · show (next_multi_pcap_file slprintf pfx t (dump_write_all _ ws0)).fname = _
    unfold open_trunc
    rw [hw]
    show slprintf 512 _ = _
    rw [h512]; rfl
  · unfold open_trunc
    rw [hw]
    simp [file_records]
  · unfold open_trunc
    rw [hw]
    show slprintf 512 _ = slprintf 256 _
    rw [h512a, h256]
  · unfold open_trunc
    rw [hw]
    have e : slprintf 256 (multi_pcap_fname_text (trim_dir device_out) pfx t0) =
        slprintf 512 (multi_pcap_fname_text (trim_dir device_out) pfx t0) := by
      rw [h512a, h256]
    rw [e]
    exact file_records_open_trunc _ _
  · have k := next_multi_pcap_file_twice slprintf pfx t
      (dump_write_all
        { device_out := trim_dir device_out
          fname := slprintf 256 (multi_pcap_fname_text (trim_dir device_out) pfx t0)
          files := open_trunc files
            (slprintf 256 (multi_pcap_fname_text (trim_dir device_out) pfx t0)) } ws0) ws
    exact ⟨k.2.2.1, k.2.2.2.1, k.2.2.2.2⟩

/-- The names that fit the buffers, at the directory `/tmp/caps/` without prefix:
the first file is opened at second 1700000000 and one record is written, a rotation follows within the same
second: the name `/tmp/caps/dump-1700000000.pcap` is opened again and the record is
gone. -/
theorem rotated_fname_same_second_witness :
    ∃ d0, begin_multi_pcap_open slprintf_cut "/tmp/caps/" none 1700000000 [] = some d0 ∧
      d0.fname = "/tmp/caps/dump-1700000000.pcap" ∧
      file_records (dump_write_all d0 [60]).files d0.fname = some [60] ∧
      (next_multi_pcap_file slprintf_cut none 1700000000 (dump_write_all d0 [60])).fname =
        d0.fname ∧
      file_records (next_multi_pcap_file slprintf_cut none 1700000000
        (dump_write_all d0 [60])).files d0.fname = some [] := by
  obtain ⟨d0, h1, h2, _, ⟨h4, h5, h6⟩, _⟩ :=
    rotated_fname_same_second slprintf_cut slprintf_cut_fits "/tmp/caps/" none [] 1700000000
      1700000001 [60] [61, 62] (by decide) (by decide) (by decide)
  exact ⟨d0, h1, h2.trans (by decide), h4, h5, h6⟩

theorem slprintf_cut_length (n : Nat) (s : String) (hn : 0 < n) :
    (slprintf_cut n s).length < n := by
  unfold slprintf_cut
  show (s.toList.take (n - 1)).length < n
  rw [List.length_take]
  omega

theorem file_records_open_trunc_other (files : List (String × List Nat)) (fname name : String)
    (h : name ≠ fname) :
    file_records (open_trunc files fname) name = file_records files name := by
  unfold open_trunc
  have hne : ¬ fname = name := fun e => h e.symm
  simp only [file_records, if_neg hne]
  induction files with
  | nil => rfl
  | cons p fs ih =>
    by_cases hp : p.1 = fname
    · have hpn : ¬ p.1 = name := fun e => h (e.symm.trans hp)
      rw [List.filter_cons_of_neg (by simpa using hp), ih]
      simp only [file_records, if_neg hpn]
    · rw [List.filter_cons_of_pos (by simpa using hp)]
      simp only [file_records, ih]

/-- A name too long for the buffer of `begin_multi_pcap_file`. For a formatting
helper that stores a text that fits its buffer unchanged and, whatever the text,
stores fewer characters than the buffer has bytes, and a name of 256 to 511
characters: the first file is not named `dir/prefix` followed by the second and
`.pcap`, the rotation within the same second opens that name, which is another
file, and the records `ws0` of the first file stay. -/
theorem first_fname_cut (slprintf : Nat → String → String)
    (hfmt : ∀ n s, s.length < n → slprintf n s = s)
    (hbuf : ∀ n s, 0 < n → (slprintf n s).length < n)
    (device_out : String) (pfx : Option String) (files : List (String × List Nat))
    (t0 : Nat) (ws0 : List Nat) (hdir : device_out ≠ "")
    (hlong : 256 ≤ (multi_pcap_fname_text (trim_dir device_out) pfx t0).length)
    (hfit : (multi_pcap_fname_text (trim_dir device_out) pfx t0).length < 512) :
    ∃ d0, begin_multi_pcap_open slprintf device_out pfx t0 files = some d0 ∧
      d0.fname.length < 256 ∧
      d0.fname ≠ multi_pcap_fname_text (trim_dir device_out) pfx t0 ∧
      (next_multi_pcap_file slprintf pfx t0 (dump_write_all d0 ws0)).fname =
        multi_pcap_fname_text (trim_dir device_out) pfx t0 ∧
      file_records (next_multi_pcap_file slprintf pfx t0 (dump_write_all d0 ws0)).files
        d0.fname = some ws0 := by
  have hlen := hbuf 256 (multi_pcap_fname_text (trim_dir device_out) pfx t0) (by decide)
  have h512 := hfmt 512 _ hfit
  have hne : slprintf 256 (multi_pcap_fname_text (trim_dir device_out) pfx t0) ≠
      multi_pcap_fname_text (trim_dir device_out) pfx t0 := by
    intro e
    rw [e] at hlen
    omega
  have hw := dump_write_all_open (trim_dir device_out)
    (slprintf 256 (multi_pcap_fname_text (trim_dir device_out) pfx t0))
    (files.filter (fun p =>
      decide (p.1 ≠ slprintf 256 (multi_pcap_fname_text (trim_dir device_out) pfx t0))))
    (open_trunc_rest files _) ws0 []
  refine ⟨{ device_out := trim_dir device_out
            fname := slprintf 256 (multi_pcap_fname_text (trim_dir device_out) pfx t0)
            files := open_trunc files
              (slprintf 256 (multi_pcap_fname_text (trim_dir device_out) pfx t0)) },
    ?_, hlen, hne, ?_, ?_⟩
  · unfold begin_multi_pcap_open
    rw [if_neg hdir]
  · show (next_multi_pcap_file slprintf pfx t0 (dump_write_all _ ws0)).fname = _
    unfold open_trunc
    rw [hw]
    show slprintf 512 _ = _
    rw [h512]
  · unfold open_trunc
    rw [hw]
    show file_records (open_trunc _ (slprintf 512 _)) _ = _
    rw [h512, file_records_open_trunc_other _ _ _ hne]
    simp [file_records]

set_option maxRecDepth 65536 in
theorem long_dir_fname_length :
    (multi_pcap_fname_text (trim_dir long_dir) none 1700000000).length = 271 := by
  decide

set_option maxRecDepth 65536 in
theorem long_dir_ne_empty : long_dir ≠ "" := by
  decide

/-- C25. The directory `long_dir` of 250 characters without prefix, the first file
opened at second 1700000000 by `begin_multi_pcap_file` and one record written, a
rotation within the same second: the name `dir/dump-1700000000.pcap` has 271
characters, the first file is opened under a name of fewer than 256 characters,
which is not that name; the rotation, with its buffer of 512 bytes, opens the full
name, which is another file, and the record of the first file is still there. -/
theorem first_fname_cut_in_long_dir :
    (multi_pcap_fname_text (trim_dir long_dir) none 1700000000).length = 271 ∧
    ∃ d0, begin_multi_pcap_open slprintf_cut long_dir none 1700000000 [] = some d0 ∧
      d0.fname.length < 256 ∧
      d0.fname ≠ multi_pcap_fname_text (trim_dir long_dir) none 1700000000 ∧
      (next_multi_pcap_file slprintf_cut none 1700000000 (dump_write_all d0 [60])).fname =
        multi_pcap_fname_text (trim_dir long_dir) none 1700000000 ∧
      file_records (next_multi_pcap_file slprintf_cut none 1700000000
        (dump_write_all d0 [60])).files d0.fname = some [60] :=
  ⟨long_dir_fname_length,
   first_fname_cut slprintf_cut slprintf_cut_fits slprintf_cut_length long_dir none []
     1700000000 [60] long_dir_ne_empty (by rw [long_dir_fname_length]; decide)
     (by rw [long_dir_fname_length]; decide)⟩

/-! ## The user messages -/

theorem take_64_iff (a b : List uint8_t) :
    (a.take 32 = b.take 32 ∧ (a.drop 32).take 32 = (b.drop 32).take 32) ↔
      a.take 64 = b.take 64 := by
  have ha : a.take 64 = a.take 32 ++ (a.drop 32).take 32 := List.take_add a 32 32
  have hb : b.take 64 = b.take 32 ++ (b.drop 32).take 32 := List.take_add b 32 32
  constructor
  · rintro ⟨h1, h2⟩
    rw [ha, hb, h1, h2]
  · intro h
    have h1 : (a.take 64).take 32 = (b.take 64).take 32 := by rw [h]
    have h2 : (a.take 64).drop 32 = (b.take 64).drop 32 := by rw [h]
    rw [List.take_take, List.take_take] at h1
    rw [List.drop_take, List.drop_take] at h2
    exact ⟨h1, h2⟩

theorem is_ts_good_iff (x : usermgmt_ext) (ts arrival : taia)
    (hless : ∀ a b, x.taia_less a b = true ↔ taia_atto a < taia_atto b)
    (hsub : ∀ a b, taia_atto b ≤ taia_atto a →
      taia_atto (x.taia_sub a b) = taia_atto a - taia_atto b) :
    (if x.taia_less arrival ts then
        if x.taia_less (x.taia_sub ts arrival) tolerance_taia then true else false
      else
        if x.taia_less (x.taia_sub arrival ts) tolerance_taia then true else false) = true ↔
      taia_dist ts arrival < taia_atto tolerance_taia := by
  unfold taia_dist
  by_cases h : x.taia_less arrival ts = true
  · have hlt := (hless _ _).mp h
    have hs := hsub ts arrival (Nat.le_of_lt hlt)
    rw [if_pos h]
    constructor
    · intro hg
      split_ifs at hg with h2
      · have := (hless _ _).mp h2
        omega
    · intro hd
      have h2 : x.taia_less (x.taia_sub ts arrival) tolerance_taia = true :=
        (hless _ _).mpr (by omega)
      rw [if_pos h2]
  · have hge : taia_atto ts ≤ taia_atto arrival := by
      by_contra hc
      exact h ((hless _ _).mpr (by omega))
    have hs := hsub arrival ts hge
    rw [if_neg h]
    constructor
    · intro hg
      split_ifs at hg with h2
      · have := (hless _ _).mp h2
        omega
    · intro hd
      have h2 : x.taia_less (x.taia_sub arrival ts) tolerance_taia = true :=
        (hless _ _).mpr (by omega)
      rw [if_pos h2]

/-- C26. The decision table of `username_msg_is_user`, for a comparison
`crypto_verify_32` that returns 0 exactly for equal 32 bytes and functions
`taia_less`, `taia_sub` that compare and subtract times. The result is
`USERNAMES_ERR` exactly when `slen` is smaller than the message structure.
Otherwise, with `h` the hash of the user name followed by the decimal salt of the
message (cut to 511 characters): `USERNAMES_OK` exactly when the 64 bytes of the
hash of the message equal `h` and the time stamp is less than 250 ms from the
arrival, `USERNAMES_TS` exactly when the hash is equal and the time stamp is not,
`USERNAMES_NE` exactly when the hash differs. -/
theorem username_msg_is_user_table (x : usermgmt_ext) (us : username_struct) (slen : Nat)
    (username : String) (len : Nat) (arrival : taia)
    (hverify : ∀ a b, x.crypto_verify_32 a b = 0 ↔ a.take 32 = b.take 32)
    (hless : ∀ a b, x.taia_less a b = true ↔ taia_atto a < taia_atto b)
    (hsub : ∀ a b, taia_atto b ≤ taia_atto a →
      taia_atto (x.taia_sub a b) = taia_atto a - taia_atto b) :
    (username_msg_is_user x us slen username len arrival = is_user_enum.USERNAMES_ERR ↔
      slen < x.sizeof_username_struct) ∧
    (¬ slen < x.sizeof_username_struct →
      (username_msg_is_user x us slen username len arrival = is_user_enum.USERNAMES_OK ↔
        (x.crypto_hash_sha512 (uname_text username (ntohl us.salt))).take 64 = us.hash.take 64 ∧
        taia_dist (x.taia_unpack us.taia) arrival < taia_atto tolerance_taia) ∧
      (username_msg_is_user x us slen username len arrival = is_user_enum.USERNAMES_TS ↔
        (x.crypto_hash_sha512 (uname_text username (ntohl us.salt))).take 64 = us.hash.take 64 ∧
        ¬ taia_dist (x.taia_unpack us.taia) arrival < taia_atto tolerance_taia) ∧
      (username_msg_is_user x us slen username len arrival = is_user_enum.USERNAMES_NE ↔
        (x.crypto_hash_sha512 (uname_text username (ntohl us.salt))).take 64 ≠
          us.hash.take 64)) := by
  have hsame := take_64_iff (x.crypto_hash_sha512 (uname_text username (ntohl us.salt))) us.hash
  have hgood := is_ts_good_iff x (x.taia_unpack us.taia) arrival hless hsub
  rw [← hverify, ← hverify] at hsame
  unfold username_msg_is_user
  simp only []
  generalize (if x.taia_less arrival (x.taia_unpack us.taia) then
      if x.taia_less (x.taia_sub (x.taia_unpack us.taia) arrival) tolerance_taia then true
      else false
    else
      if x.taia_less (x.taia_sub arrival (x.taia_unpack us.taia)) tolerance_taia then true
      else false) = g at hgood ⊢
  constructor
  · by_cases hl : slen < x.sizeof_username_struct
    · simp only [hl, if_true]
    · simp only [hl, if_false, iff_false]
      split_ifs <;> simp
  · intro hl
    rw [if_neg hl]
    by_cases hv : x.crypto_verify_32 (x.crypto_hash_sha512 (uname_text username (ntohl us.salt)))
        us.hash = 0 ∧
      x.crypto_verify_32 ((x.crypto_hash_sha512 (uname_text username (ntohl us.salt))).drop 32)
        (us.hash.drop 32) = 0
    · have he := hsame.mp hv
      rw [if_pos hv]
      cases g with
      | false =>
        have hd : ¬ taia_dist (x.taia_unpack us.taia) arrival < taia_atto tolerance_taia :=
          fun h => Bool.noConfusion (hgood.mpr h)
        simp [he, hd]
      | true =>
        have hd : taia_dist (x.taia_unpack us.taia) arrival < taia_atto tolerance_taia :=
          hgood.mp rfl
        simp [he, hd]
    · have hne : ¬ ((x.crypto_hash_sha512 (uname_text username (ntohl us.salt))).take 64 =
          us.hash.take 64) := fun h => hv (hsame.mpr h)
      rw [if_neg hv]
      cases g <;> simp [hne]

theorem usermgmt_sample_verify (a b : List uint8_t) :
    usermgmt_sample.crypto_verify_32 a b = 0 ↔ a.take 32 = b.take 32 := by
  show (if a.take 32 = b.take 32 then (0 : Int) else -1) = 0 ↔ _
  split_ifs with h
  · simp [h]
  · simp [h]

theorem usermgmt_sample_less (a b : taia) :
    usermgmt_sample.taia_less a b = true ↔ taia_atto a < taia_atto b := by
  show decide (taia_atto a < taia_atto b) = true ↔ _
  exact decide_eq_true_iff

theorem usermgmt_sample_sub (a b : taia) (_h : taia_atto b ≤ taia_atto a) :
    taia_atto (usermgmt_sample.taia_sub a b) = taia_atto a - taia_atto b := by
  show taia_atto { sec := 0, nano := 0, atto := taia_atto a - taia_atto b } = _
  simp [taia_atto]

/-- C26 at a message of 84 bytes for the user `bob` whose hash fits and whose time
stamp is 100 ms from the arrival: the result is `USERNAMES_OK`. -/
theorem username_msg_is_user_table_witness :
    username_msg_is_user usermgmt_sample username_struct_sample 84 "bob" 3 arrival_sample =
      is_user_enum.USERNAMES_OK ∧
    (usermgmt_sample.crypto_hash_sha512
        (uname_text "bob" (ntohl username_struct_sample.salt))).take 64 =
      username_struct_sample.hash.take 64 ∧
    taia_dist (usermgmt_sample.taia_unpack username_struct_sample.taia) arrival_sample <
      taia_atto tolerance_taia :=
  ⟨by decide,
   ((username_msg_is_user_table usermgmt_sample username_struct_sample 84 "bob" 3 arrival_sample
      usermgmt_sample_verify usermgmt_sample_less usermgmt_sample_sub).2 (by decide)).1.mp
      (by decide)⟩

/-! ## The user store -/

theorem check_duplicate_username_of_mem (store : List user_store) (u key : List Char)
    (e : user_store) (he : e ∈ store) (hu : e.username = u) :
    __check_duplicate_username store (u ++ '\x00' :: key) = true := by
  unfold __check_duplicate_username
  rw [List.any_eq_true]
  refine ⟨e, he, ?_⟩
  rw [hu]
  unfold memcmp_eq
  rw [List.take_append, List.take_append]
  simp

theorem check_duplicate_pubkey_of_mem (store : List user_store) (k : pubkey_t)
    (e : user_store) (he : e ∈ store) (hk : e.publickey = k) :
    __check_duplicate_pubkey store k = true := by
  unfold __check_duplicate_pubkey
  rw [List.any_eq_true]
  exact ⟨e, he, by simp [hk]⟩

/-- One line of the client file that does not end the program: it is skipped, or
it adds the entry of the line, whose user name and key are not in the store. -/
theorem parse_userfile_line_ok (x : userfile_ext) (store store1 : List user_store)
    (buff : List Char) (h : parse_userfile_line x store buff = Except.ok store1) :
    (userfile_line_skipped buff = true ∧ store1 = store) ∨
    (userfile_line_skipped buff = false ∧
      ∃ e, userfile_line_entry x buff = some e ∧ store1 = e :: store ∧
        (∀ e1 ∈ store, e1.username ≠ e.username) ∧
        (∀ e1 ∈ store, e1.publickey ≠ e.publickey)) := by
  unfold parse_userfile_line at h
  by_cases hsk : userfile_line_skipped buff = true
  · rw [if_pos hsk] at h
    injection h with h
    exact Or.inl ⟨hsk, h.symm⟩
  · rw [if_neg hsk] at h
    right
    refine ⟨by simpa using hsk, ?_⟩
    cases hf : userfile_line_fields x buff with
    | error e => rw [hf] at h; cases h
    | ok t =>
      obtain ⟨username, pkey, key⟩ := t
      rw [hf] at h
      simp only [] at h
      by_cases h1 : username.length + 1 > 256
      · rw [if_pos h1] at h; cases h
      · rw [if_neg h1] at h
        by_cases h2 : __check_duplicate_username store (username ++ '\x00' :: key) = true
        · rw [if_pos h2] at h; cases h
        · rw [if_neg h2] at h
          by_cases h3 : __check_duplicate_pubkey store pkey = true
          · rw [if_pos h3] at h; cases h
          · rw [if_neg h3] at h
            split_ifs at h
            injection h with h
            have htake : username.take 255 = username :=
              List.take_of_length_le (by omega)
            refine ⟨{ username := username.take 255, publickey := pkey }, ?_, h.symm, ?_, ?_⟩
            · unfold userfile_line_entry
              rw [hf]
            · intro e1 he1 heq
              exact h2 (check_duplicate_username_of_mem store username key e1 he1
                (heq.trans htake))
            · intro e1 he1 heq
              exact h3 (check_duplicate_pubkey_of_mem store pkey e1 he1 heq)

theorem parse_userfile_lines_ok (x : userfile_ext) (lines : List (List Char)) :
    ∀ store0 store, parse_userfile_lines x lines store0 = Except.ok store →
      ∃ es : List user_store, store = es.reverse ++ store0 ∧
        (userfile_kept lines).map (userfile_line_entry x) = es.map some ∧
        ((store0.map fun e => e.username).Nodup → (store.map fun e => e.username).Nodup) ∧
        ((store0.map fun e => e.publickey).Nodup → (store.map fun e => e.publickey).Nodup) := by
  induction lines with
  | nil =>
    intro store0 store h
    unfold parse_userfile_lines at h
    injection h with h
    exact ⟨[], by simpa using h.symm, rfl, by rw [h]; exact id, by rw [h]; exact id⟩
  | cons buff rest ih =>
    intro store0 store h
    unfold parse_userfile_lines at h
    cases hl : parse_userfile_line x store0 buff with
    | error e => rw [hl] at h; cases h
    | ok store1 =>
      rw [hl] at h
      simp only [] at h
      obtain ⟨es, k1, k2, k3, k4⟩ := ih store1 store h
      rcases parse_userfile_line_ok x store0 store1 buff hl with ⟨hsk, hst⟩ | ⟨hsk, e, he, hst, hu, hk⟩
      · rw [hst] at k1 k3 k4
        refine ⟨es, k1, ?_, k3, k4⟩
        unfold userfile_kept at k2 ⊢
        rw [List.filter_cons_of_neg (by simp [hsk])]
        exact k2
      · rw [hst] at k1 k3 k4
        refine ⟨e :: es, ?_, ?_, ?_, ?_⟩
        · rw [k1]; simp
        · unfold userfile_kept at k2 ⊢
          rw [List.filter_cons_of_pos (by simp [hsk]), List.map_cons, List.map_cons, k2, he]
        · intro hn
          apply k3
          rw [List.map_cons, List.nodup_cons]
          refine ⟨?_, hn⟩
          intro hm
          obtain ⟨e1, he1, heq⟩ := List.mem_map.mp hm
          exact hu e1 he1 heq
        · intro hn
          apply k4
          rw [List.map_cons, List.nodup_cons]
          refine ⟨?_, hn⟩
          intro hm
          obtain ⟨e1, he1, heq⟩ := List.mem_map.mp hm
          exact hk e1 he1 heq

theorem parse_userfile_ok (x : userfile_ext) (lines : List (List Char))
    (store : List user_store)
    (h : parse_userfile_and_generate_user_store_or_die x (some lines) = Except.ok store) :
    store ≠ [] ∧
    (userfile_kept lines).map (userfile_line_entry x) = store.reverse.map some ∧
    (store.map fun e => e.username).Nodup ∧ (store.map fun e => e.publickey).Nodup := by
  unfold parse_userfile_and_generate_user_store_or_die at h
  simp only [] at h
  cases hl : parse_userfile_lines x lines [] with
  | error e => rw [hl] at h; cases h
  | ok st =>
    rw [hl] at h
    simp only [] at h
    by_cases he : st = []
    · rw [if_pos he] at h; cases h
    · rw [if_neg he] at h
      injection h with h
      subst h
      obtain ⟨es, k1, k2, k3, k4⟩ := parse_userfile_lines_ok x lines [] st hl
      refine ⟨he, ?_, k3 List.nodup_nil, k4 List.nodup_nil⟩
      rw [k2, k1]
      simp

/-- C27. The user store of `parse_userfile_and_generate_user_store_or_die`, for every
client file (as the lines `fgets` returns) and whatever the helpers do. When the
function returns, the store is not empty, its entries are, in reverse order, the
entries of the lines that are neither comments nor empty, one for each, and the
user names and the public keys of the store are pairwise distinct. A line whose
user name or public key equals that of an earlier line makes the function end in a
`panic`. -/
theorem user_store_unique (x : userfile_ext) (lines : List (List Char)) :
    (∀ store, parse_userfile_and_generate_user_store_or_die x (some lines) = Except.ok store →
      store ≠ [] ∧ store.length = (userfile_kept lines).length ∧
      (userfile_kept lines).map (userfile_line_entry x) = store.reverse.map some ∧
      (store.map fun e => e.username).Nodup ∧ (store.map fun e => e.publickey).Nodup) ∧
    (∀ pre post l l1 e e1, lines = pre ++ l :: post → l1 ∈ pre →
      userfile_line_skipped l = false → userfile_line_skipped l1 = false →
      userfile_line_entry x l = some e → userfile_line_entry x l1 = some e1 →
      (e.username = e1.username ∨ e.publickey = e1.publickey) →
      ∀ store, parse_userfile_and_generate_user_store_or_die x (some lines) ≠ Except.ok store) := by
  constructor
  · intro store h
    obtain ⟨h1, h2, h3, h4⟩ := parse_userfile_ok x lines store h
    refine ⟨h1, ?_, h2, h3, h4⟩
    have := congrArg List.length h2
    simpa using this.symm
  · intro pre post l l1 e e1 hlines hl1 hsk hsk1 he he1 hsame store h
    obtain ⟨_, h2, h3, h4⟩ := parse_userfile_ok x lines store h
    have hkept : userfile_kept lines = userfile_kept pre ++ l :: userfile_kept post := by
      unfold userfile_kept
      rw [hlines, List.filter_append, List.filter_cons_of_pos (by simp [hsk])]
    have hmem1 : l1 ∈ userfile_kept pre := by
      unfold userfile_kept
      exact List.mem_filter.mpr ⟨hl1, by simp [hsk1]⟩
    rw [hkept, List.map_append, List.map_cons, he] at h2
    obtain ⟨a, b, hab, ha, hb⟩ := List.map_eq_append_iff.mp h2.symm
    obtain ⟨e2, b2, hb2, he2, _⟩ := List.map_eq_cons_iff.mp hb
    have hee : e2 = e := by simpa using he2
    have he1a : e1 ∈ a := by
      have : some e1 ∈ a.map some := by
        rw [ha]
        exact List.mem_map.mpr ⟨l1, hmem1, he1⟩
      obtain ⟨e3, he3, h33⟩ := List.mem_map.mp this
      have : e3 = e1 := by simpa using h33
      rw [← this]; exact he3
    rw [← List.nodup_reverse, ← List.map_reverse, hab, hb2, hee, List.map_append,
      List.nodup_append] at h3 h4
    rcases hsame with hs | hs
    · exact h3.2.2 (List.mem_map.mpr ⟨e1, he1a, rfl⟩)
        (by rw [← hs]; exact List.mem_map.mpr ⟨e, List.mem_cons_self _ _, rfl⟩)
    · exact h4.2.2 (List.mem_map.mpr ⟨e1, he1a, rfl⟩)
        (by rw [← hs]; exact List.mem_map.mpr ⟨e, List.mem_cons_self _ _, rfl⟩)

theorem except_ok_of_toOption (r : Except String (List user_store)) (s : List user_store)
    (h : r.toOption = some s) : r = Except.ok s := by
  cases r with
  | error e => cases h
  | ok v =>
    simp only [Except.toOption, Option.some.injEq] at h
    rw [h]

/-- C27 at a client file with the users `alice` and `bob` and a comment: the store
holds two entries with distinct names and keys. -/
theorem user_store_unique_witness :
    parse_userfile_and_generate_user_store_or_die userfile_sample
        (some userfile_lines_sample) = Except.ok user_store_sample ∧
    user_store_sample ≠ [] ∧
    user_store_sample.length = (userfile_kept userfile_lines_sample).length ∧
    (user_store_sample.map fun e => e.username).Nodup ∧
    (user_store_sample.map fun e => e.publickey).Nodup :=
  ⟨except_ok_of_toOption _ _ (by decide),
   ((user_store_unique userfile_sample userfile_lines_sample).1 user_store_sample
      (except_ok_of_toOption _ _ (by decide))).1,
   ((user_store_unique userfile_sample userfile_lines_sample).1 user_store_sample
      (except_ok_of_toOption _ _ (by decide))).2.1,
   ((user_store_unique userfile_sample userfile_lines_sample).1 user_store_sample
      (except_ok_of_toOption _ _ (by decide))).2.2.2⟩

end Netsniff
